import Mathlib

/-! ERP_Task document library: access control, upload, validation, versioning

A shallow embedding of the browser-side document library under `src/src/lib`.
The single JSON array kept in local storage under the key `documents` is a
`List Document`; every library function becomes a pure function taking the
stored list and returning its JavaScript result together with the list that is
stored afterwards.  Values the source draws from the environment
(`uuidv4()`, `URL.createObjectURL(file)`, `new Date().toISOString()`) are
explicit arguments.  A field that the source may leave `undefined` is an
`Option`, with `none` for `undefined`.
-/

namespace ERP

/-! ## Results -/

/-- What a library call hands back: a value, an error-shaped object
`{ error: message }`, or a thrown `Error(message)`. -/
inductive Result (α : Type) where
  | ok (value : α)
  | error (message : String)
  | thrown (message : String)
  deriving DecidableEq, Repr

/-- True exactly for `Result.ok`. -/
def Result.isOk {α : Type} : Result α → Bool
  | .ok _ => true
  | _ => false

/-! ## Array helpers (`Array.prototype.findIndex`) -/

/-- `xs.findIndex(p)`: index of the first element satisfying `p`, with `none`
for the JavaScript result `-1`. -/
def findIndex {α : Type} (p : α → Bool) : List α → Option Nat
  | [] => none
  | x :: xs => if p x then some 0 else (findIndex p xs).map (· + 1)

/-! ## Properties inherited from `Object.prototype`

The lookup tables of the source are object literals, so a key that is not an
own key may still resolve to a member inherited from `Object.prototype`.
Such a member is an object; wherever the source uses it, it is first turned
into its primitive string (`ToPrimitive`, `ToString`).  Only the relative
order of these strings and their difference from every own key matter below,
and both are decided inside the member name. -/

/-- Primitive string of the member of `Object.prototype` that an object literal
inherits under `key`, or `none` when there is no such member. -/
def objectPrototypeText (key : String) : Option String :=
  if key = "__proto__" then some "[object Object]"
  else if key = "constructor" then some "function Object() \x7b [native code] \x7d"
  else if key ∈ ["__defineGetter__", "__defineSetter__", "hasOwnProperty",
      "__lookupGetter__", "__lookupSetter__", "isPrototypeOf",
      "propertyIsEnumerable", "toString", "valueOf", "toLocaleString"] then
    some ("function " ++ key ++ "() \x7b [native code] \x7d")
  else none

/-! ## File type validation (`lib/validation/FileTypeValidation.js`) -/

/-- The fields of a browser `File` that the library reads. -/
structure File where
  name : String
  type : String
  size : Nat
  lastModified : Nat
  deriving DecidableEq, Repr

/-- Outcome of a lookup `TABLE[key]` in an object literal. -/
inductive TableEntry where
  | own (maxSize : Nat)
  | inherited
  | absent
  deriving DecidableEq, Repr

/-- Own entries of `SUPPORTED_FILE_TYPES`: MIME type and `maxSize` in bytes. -/
def SUPPORTED_FILE_TYPES : List (String × Nat) :=
  [("application/pdf", 10 * 1024 * 1024),
   ("application/msword", 5 * 1024 * 1024),
   ("application/vnd.openxmlformats-officedocument.wordprocessingml.document", 5 * 1024 * 1024),
   ("application/vnd.ms-excel", 5 * 1024 * 1024),
   ("application/vnd.openxmlformats-officedocument.spreadsheetml.sheet", 5 * 1024 * 1024),
   ("application/vnd.ms-powerpoint", 5 * 1024 * 1024),
   ("application/vnd.openxmlformats-officedocument.presentationml.presentation", 5 * 1024 * 1024),
   ("text/plain", 1 * 1024 * 1024),
   ("text/csv", 2 * 1024 * 1024),
   ("image/jpeg", 5 * 1024 * 1024),
   ("image/png", 5 * 1024 * 1024),
   ("image/gif", 5 * 1024 * 1024),
   ("image/svg+xml", 2 * 1024 * 1024)]

/-- Own entries of `EXTENSION_TO_MIME`. -/
def EXTENSION_TO_MIME : List (String × String) :=
  [(".pdf", "application/pdf"),
   (".doc", "application/msword"),
   (".docx", "application/vnd.openxmlformats-officedocument.wordprocessingml.document"),
   (".xls", "application/vnd.ms-excel"),
   (".xlsx", "application/vnd.openxmlformats-officedocument.spreadsheetml.sheet"),
   (".ppt", "application/vnd.ms-powerpoint"),
   (".pptx", "application/vnd.openxmlformats-officedocument.presentationml.presentation"),
   (".txt", "text/plain"),
   (".csv", "text/csv"),
   (".jpg", "image/jpeg"),
   (".jpeg", "image/jpeg"),
   (".png", "image/png"),
   (".gif", "image/gif"),
   (".svg", "image/svg+xml")]

/-- The lookup `SUPPORTED_FILE_TYPES[mimeType]`. -/
def supportedFileType (mimeType : String) : TableEntry :=
  match SUPPORTED_FILE_TYPES.lookup mimeType with
  | some maxSize => .own maxSize
  | none =>
    match objectPrototypeText mimeType with
    | some _ => .inherited
    | none => .absent

/-- The lookup `EXTENSION_TO_MIME[fileExtension]`, already turned into the
string under which the source uses it (as a property key and inside a template
string); `none` is `undefined`. -/
def extensionToMime (fileExtension : String) : Option String :=
  match EXTENSION_TO_MIME.lookup fileExtension with
  | some mime => some mime
  | none => objectPrototypeText fileExtension

/-- Characters of `s` from its last `.` on, or all of `s` when it has none:
`s.substring(s.lastIndexOf('.'))`, where `substring(-1)` is `substring(0)`. -/
def fromLastDot : List Char → List Char
  | [] => []
  | c :: cs =>
    if cs.contains '.' then fromLastDot cs else c :: cs

/-- The helper `getFileExtension(filename)`.  The lower-casing is that of the
ASCII letters; on the other letters `toLowerCase` never produces a key of
`EXTENSION_TO_MIME`, so the table lookup is not affected. -/
def getFileExtension (filename : String) : String :=
  String.mk ((fromLastDot filename.data).map Char.toLower)

/-- The object `{ valid, message }` returned by `validateFile`. -/
structure ValidationResult where
  valid : Bool
  message : String
  deriving DecidableEq, Repr

/-- The function `validateFile(file)`; `none` is a missing file. -/
def validateFile (file : Option File) : ValidationResult :=
  match file with
  | none => { valid := false, message := "No file provided" }
  | some file =>
    let fileExtension := getFileExtension file.name
    let mimeType : Option String :=
      if file.type = "" ∧ fileExtension ≠ "" then extensionToMime fileExtension
      else some file.type
    match mimeType with
    | none =>
      { valid := false, message := "Unsupported file type: " ++ fileExtension }
    | some mime =>
      if mime = "" then
        { valid := false, message := "Unsupported file type: " ++ fileExtension }
      else
        match supportedFileType mime with
        | .absent =>
          { valid := false, message := "Unsupported file type: " ++ mime }
        | .inherited => { valid := true, message := "File is valid" }
        | .own maxSize =>
          if file.size > maxSize then
            { valid := false,
              message := "File is too large. Maximum size for " ++ mime ++ " is "
                ++ toString (maxSize / (1024 * 1024)) ++ "MB" }
          else { valid := true, message := "File is valid" }

/-! ## Stored records -/

/-- One element of `document.versions`.  The version written by
`uploadDocument` has only `id`, `createdAt` and `url`; the other fields are
written by `createVersion`. -/
structure Version where
  id : String
  number : Option Nat
  name : Option String
  size : Option Nat
  type : Option String
  url : String
  comment : Option String
  createdBy : Option String
  createdAt : String
  deriving DecidableEq, Repr

/-- One element of `document.permissions.access`. -/
structure AccessEntry where
  userId : String
  level : String
  deriving DecidableEq, Repr

/-- The object `document.permissions`. -/
structure Permissions where
  owner : Option String
  access : Option (List AccessEntry)
  deriving DecidableEq, Repr

/-- The object `document.metadata`. -/
structure Metadata where
  title : String
  description : String
  tags : List String
  createdAt : String
  updatedAt : String
  deriving DecidableEq, Repr

/-- The object `annotation.position`.  A JavaScript number that storage keeps
is finite, and is the rational it denotes. -/
structure Position where
  x : Rat
  y : Rat
  deriving DecidableEq, Repr

/-- One element of `document.annotations`, as `addAnnotation` writes it; `style`
is the list of the keys and values of the style object. -/
structure Annotation where
  id : String
  documentId : String
  pageNumber : Rat
  type : String
  position : Position
  content : String
  style : List (String × String)
  createdBy : String
  createdAt : String
  updatedAt : String
  deriving DecidableEq, Repr

/-- A stored document.  `folderId` is `none` while the key is absent, `some
none` for `null`; `annotations` is `none` while the key is absent. -/
structure Document where
  id : String
  name : String
  size : Nat
  type : String
  lastModified : Nat
  url : String
  metadata : Metadata
  versions : Option (List Version)
  currentVersion : Option Nat
  permissions : Option Permissions
  folderId : Option (Option String) := none
  annotations : Option (List Annotation) := none
  deriving DecidableEq, Repr

/-- The stored array `documents`. -/
abbrev Store := List Document

/-! ## Upload SDK (`lib/upload/FileUploadSDK.js`) -/

/-- The function `getDocuments()`. -/
def getDocuments (documents : Store) : List Document := documents

/-- The function `getDocumentById(documentId)`. -/
def getDocumentById (documents : Store) (documentId : String) : Option Document :=
  (getDocuments documents).find? (fun doc => doc.id == documentId)

/-- The `metadata` argument of `uploadDocument`. -/
structure UploadMetadata where
  title : Option String
  description : Option String
  tags : Option (List String)
  deriving DecidableEq, Repr

/-- Values `uploadDocument` draws from the environment, in source order. -/
structure UploadEnv where
  documentId : String
  url : String
  createdAt : String
  updatedAt : String
  versionId : String
  versionCreatedAt : String
  versionUrl : String
  deriving DecidableEq, Repr

/-- The expression `value || fallback` on an optional string. -/
def orElseString (value : Option String) (fallback : String) : String :=
  match value with
  | some s => if s = "" then fallback else s
  | none => fallback

/-- The function `uploadDocument(file, metadata)`. -/
def uploadDocument (documents : Store) (file : Option File) (metadata : UploadMetadata)
    (env : UploadEnv) : Result Document × Store :=
  let validationResult := validateFile file
  if !validationResult.valid then (.thrown validationResult.message, documents)
  else
    match file with
    | none => (.thrown "TypeError", documents)
    | some file =>
      let document : Document :=
        { id := env.documentId
          name := file.name
          size := file.size
          type := file.type
          lastModified := file.lastModified
          url := env.url
          metadata :=
            { title := orElseString metadata.title file.name
              description := orElseString metadata.description ""
              tags := metadata.tags.getD []
              createdAt := env.createdAt
              updatedAt := env.updatedAt }
          versions := some
            [{ id := env.versionId, number := none, name := none, size := none,
               type := none, url := env.versionUrl, comment := none,
               createdBy := none, createdAt := env.versionCreatedAt }]
          currentVersion := none
          permissions := some { owner := some "current-user", access := some [] } }
      (.ok document, documents ++ [document])

/-! ## Access control (`lib/access/AccessControlLibrary.js`) -/

/-- The values of `PERMISSION_LEVELS`, in the order of `Object.values`. -/
def PERMISSION_LEVELS : List String := ["view", "edit", "download", "admin"]

/-- A value `permissionHierarchy[level] || 0`, as the primitive that `>=`
compares: a number, or the string of an inherited member. -/
inductive Rank where
  | num (n : Nat)
  | text (s : String)
  deriving DecidableEq, Repr

/-- The expression `permissionHierarchy[level] || 0`. -/
def permissionHierarchy (level : String) : Rank :=
  if level = "admin" then .num 4
  else if level = "edit" then .num 3
  else if level = "download" then .num 2
  else if level = "view" then .num 1
  else
    match objectPrototypeText level with
    | some s => .text s
    | none => .num 0

/-- The comparison `userLevel >= requiredLevelValue`: numeric on two numbers,
by code units on two strings, and false when a string meets a number (the
string converts to `NaN`). -/
def Rank.ge : Rank → Rank → Bool
  | .num a, .num b => decide (b ≤ a)
  | .text a, .text b => !decide (a.data < b.data)
  | _, _ => false

/-- The function `checkPermission(documentId, userId, requiredLevel)`. -/
def checkPermission (documents : Store) (documentId userId requiredLevel : String) : Bool :=
  match getDocumentById documents documentId with
  | none => false
  | some document =>
    if document.permissions.bind (·.owner) = some userId then true
    else
      match ((document.permissions.bind (·.access)).getD []).find?
          (fun permission => permission.userId == userId) with
      | none => false
      | some userPermission =>
        (permissionHierarchy userPermission.level).ge (permissionHierarchy requiredLevel)

/-- The value of `updatedPermissions` in `grantPermission`: the level of the
first entry of `userId` is replaced, or a new entry is appended when there is
none. -/
def updatedPermissions (currentPermissions : List AccessEntry)
    (userId permissionLevel : String) : List AccessEntry :=
  match findIndex (fun permission => permission.userId == userId) currentPermissions with
  | some existingPermissionIndex =>
    currentPermissions.modify (fun entry => { entry with level := permissionLevel })
      existingPermissionIndex
  | none => currentPermissions ++ [{ userId := userId, level := permissionLevel }]

/-- The function `grantPermission(documentId, userId, permissionLevel)`. -/
def grantPermission (documents : Store) (documentId userId permissionLevel : String) :
    Result (Option Document) × Store :=
  if !PERMISSION_LEVELS.contains permissionLevel then
    (.thrown ("Invalid permission level: " ++ permissionLevel), documents)
  else
    match findIndex (fun doc => doc.id == documentId) documents with
    | none => (.ok none, documents)
    | some documentIndex =>
      match documents[documentIndex]? with
      | none => (.thrown "TypeError", documents)
      | some document =>
        let currentPermissions := (document.permissions.bind (·.access)).getD []
        let updated : Document :=
          { document with
            permissions := some
              { owner := document.permissions.bind (·.owner)
                access := some (updatedPermissions currentPermissions userId permissionLevel) } }
        (.ok (some updated), documents.set documentIndex updated)

/-! ## Versioning (`lib/versioning/DocumentVersioningLibrary.js`) -/

/-- Values `createVersion` draws from the environment, in source order. -/
structure VersionEnv where
  id : String
  url : String
  createdAt : String
  updatedAt : String
  deriving DecidableEq, Repr

/-- The function `createVersion(documentId, file, userId, comment)`. -/
def createVersion (documents : Store) (documentId : String) (file : Option File)
    (userId comment : String) (env : VersionEnv) : Result Version × Store :=
  match getDocumentById documents documentId with
  | none => (.error "Document not found", documents)
  | some document =>
    if !checkPermission documents documentId userId "edit" then
      (.error "Permission denied", documents)
    else
      let validationResult := validateFile file
      if !validationResult.valid then (.error validationResult.message, documents)
      else
        match file with
        | none => (.thrown "TypeError", documents)
        | some file =>
          if file.type ≠ document.type then
            (.error "New version must be the same file type as the original document",
              documents)
          else
            let newVersion : Version :=
              { id := env.id
                number := some ((document.versions.getD []).length + 1)
                name := some file.name
                size := some file.size
                type := some file.type
                url := env.url
                comment := some comment
                createdBy := some userId
                createdAt := env.createdAt }
            match findIndex (fun doc => doc.id == documentId) documents with
            | none => (.error "Document not found", documents)
            | some documentIndex =>
              match documents[documentIndex]? with
              | none => (.thrown "TypeError", documents)
              | some stored =>
                let updated : Document :=
                  { stored with
                    versions := some (stored.versions.getD [] ++ [newVersion])
                    currentVersion := newVersion.number
                    url := newVersion.url
                    size := file.size
                    metadata := { stored.metadata with updatedAt := env.updatedAt } }
                (.ok newVersion, documents.set documentIndex updated)

/-- The function `getVersions(documentId)`. -/
def getVersions (documents : Store) (documentId : String) : Result (List Version) :=
  match getDocumentById documents documentId with
  | none => .error "Document not found"
  | some document => .ok (document.versions.getD [])

/-- The function `getVersion(documentId, versionId)`. -/
def getVersion (documents : Store) (documentId versionId : String) : Result Version :=
  match getDocumentById documents documentId with
  | none => .error "Document not found"
  | some document =>
    match (document.versions.getD []).find? (fun v => v.id == versionId) with
    | none => .error "Version not found"
    | some version => .ok version

/-- The function `getVersionByNumber(documentId, versionNumber)`. -/
def getVersionByNumber (documents : Store) (documentId : String) (versionNumber : Nat) :
    Result Version :=
  match getDocumentById documents documentId with
  | none => .error "Document not found"
  | some document =>
    match (document.versions.getD []).find? (fun v => v.number == some versionNumber) with
    | none => .error "Version not found"
    | some version => .ok version

/-- The object `{ documentId, currentVersion, url }` returned by
`setCurrentVersion`. -/
structure CurrentVersionInfo where
  documentId : String
  currentVersion : Nat
  url : String
  deriving DecidableEq, Repr

/-- The function `setCurrentVersion(documentId, versionNumber, userId)`; `now`
is the value of `new Date().toISOString()`. -/
def setCurrentVersion (documents : Store) (documentId : String) (versionNumber : Nat)
    (userId now : String) : Result CurrentVersionInfo × Store :=
  match getDocumentById documents documentId with
  | none => (.error "Document not found", documents)
  | some _ =>
    if !checkPermission documents documentId userId "edit" then
      (.error "Permission denied", documents)
    else
      match getVersionByNumber documents documentId versionNumber with
      | .error message => (.error message, documents)
      | .thrown message => (.thrown message, documents)
      | .ok version =>
        match findIndex (fun doc => doc.id == documentId) documents with
        | none => (.error "Document not found", documents)
        | some documentIndex =>
          match documents[documentIndex]? with
          | none => (.thrown "TypeError", documents)
          | some stored =>
            let updated : Document :=
              { stored with
                currentVersion := some versionNumber
                url := version.url
                metadata := { stored.metadata with updatedAt := now } }
            (.ok { documentId := documentId, currentVersion := versionNumber,
                   url := version.url },
              documents.set documentIndex updated)

/-- The loop `updatedVersions.forEach((v, i) => { v.number = i + 1 })`, with `i`
the index of the first element of the list. -/
def renumberFrom (i : Nat) : List Version → List Version
  | [] => []
  | v :: vs => { v with number := some (i + 1) } :: renumberFrom (i + 1) vs

/-- The function `deleteVersion(documentId, versionId, userId)`; the value is
`{ success: true }`. -/
def deleteVersion (documents : Store) (documentId versionId userId : String) :
    Result Unit × Store :=
  match getDocumentById documents documentId with
  | none => (.error "Document not found", documents)
  | some document =>
    if !checkPermission documents documentId userId "admin" then
      (.error "Permission denied. Only admins can delete versions.", documents)
    else
      let versions := document.versions.getD []
      if versions.length ≤ 1 then
        (.error "Cannot delete the only version of a document", documents)
      else
        match findIndex (fun v => v.id == versionId) versions with
        | none => (.error "Version not found", documents)
        | some versionIndex =>
          match findIndex (fun doc => doc.id == documentId) documents,
              versions[versionIndex]? with
          | some documentIndex, some target =>
            match documents[documentIndex]? with
            | none => (.thrown "TypeError", documents)
            | some stored =>
              let isCurrentVersion : Bool := document.currentVersion == target.number
              let updatedVersions := renumberFrom 0 (versions.eraseIdx versionIndex)
              let withVersions : Document := { stored with versions := some updatedVersions }
              if isCurrentVersion then
                match updatedVersions.getLast? with
                | none => (.thrown "TypeError", documents)
                | some latestVersion =>
                  (.ok (),
                    documents.set documentIndex
                      { withVersions with
                        currentVersion := latestVersion.number
                        url := latestVersion.url })
              else (.ok (), documents.set documentIndex withVersions)
          | _, _ => (.thrown "TypeError", documents)

/-! ## Access control, revocation and ownership (`lib/access/AccessControlLibrary.js`) -/

/-- The function `revokePermission(documentId, userId)`. -/
def revokePermission (documents : Store) (documentId userId : String) :
    Result (Option Document) × Store :=
  match findIndex (fun doc => doc.id == documentId) documents with
  | none => (.ok none, documents)
  | some documentIndex =>
    match documents[documentIndex]? with
    | none => (.thrown "TypeError", documents)
    | some document =>
      let currentPermissions := (document.permissions.bind (·.access)).getD []
      let remainingPermissions :=
        currentPermissions.filter (fun permission => permission.userId != userId)
      if remainingPermissions.length = currentPermissions.length then
        (.ok (some document), documents)
      else
        let updated : Document :=
          { document with
            permissions := some
              { owner := document.permissions.bind (·.owner)
                access := some remainingPermissions } }
        (.ok (some updated), documents.set documentIndex updated)

/-- The function `transferOwnership(documentId, currentOwnerId, newOwnerId)`. -/
def transferOwnership (documents : Store) (documentId currentOwnerId newOwnerId : String) :
    Result (Option Document) × Store :=
  match findIndex (fun doc => doc.id == documentId) documents with
  | none => (.ok none, documents)
  | some documentIndex =>
    match documents[documentIndex]? with
    | none => (.thrown "TypeError", documents)
    | some document =>
      if document.permissions.bind (·.owner) ≠ some currentOwnerId then
        (.ok none, documents)
      else
        let updated : Document :=
          { document with
            permissions := some
              { owner := some newOwnerId
                access := document.permissions.bind (·.access) } }
        (.ok (some updated), documents.set documentIndex updated)

/-! ## Strings (`String.prototype.trim`, `Set`, `Array.prototype.sort`) -/

/-- The code points that `trim` strips: the ECMAScript `WhiteSpace` and
`LineTerminator` characters. -/
def isWhiteSpace (c : Char) : Bool :=
  c.toNat ∈ [0x9, 0xA, 0xB, 0xC, 0xD, 0x20, 0xA0, 0x1680, 0x2000, 0x2001, 0x2002, 0x2003,
    0x2004, 0x2005, 0x2006, 0x2007, 0x2008, 0x2009, 0x200A, 0x2028, 0x2029, 0x202F, 0x205F,
    0x3000, 0xFEFF]

/-- The method `s.trim()`. -/
def trim (s : String) : String :=
  String.mk ((s.data.dropWhile isWhiteSpace).reverse.dropWhile isWhiteSpace).reverse

/-- The method `toLowerCase` on a string of ASCII characters; the functions
below take `toLowerCase` as an argument and hold for the built-in one. -/
def asciiToLowerCase (s : String) : String :=
  String.mk (s.data.map Char.toLower)

/-- The expression `[...new Set(xs)]`: the distinct values of `xs`, each at
the place of its first occurrence. -/
def uniqueValues : List String → List String
  | [] => []
  | x :: xs => x :: (uniqueValues xs).filter (fun y => y != x)

/-- The UTF-16 code units of a string, which `sort()` compares. -/
def utf16CodeUnits (s : String) : List Nat :=
  s.data.flatMap (fun c =>
    if c.toNat < 0x10000 then [c.toNat]
    else [0xD800 + (c.toNat - 0x10000) / 0x400, 0xDC00 + (c.toNat - 0x10000) % 0x400])

/-- Lexicographic `a <= b` on sequences of code units. -/
def codeUnitsLe : List Nat → List Nat → Bool
  | [], _ => true
  | _ :: _, [] => false
  | a :: as, b :: bs => decide (a < b) || (a == b && codeUnitsLe as bs)

/-- Insertion of `x` before the first element that is not below it. -/
def insertSorted (x : String) : List String → List String
  | [] => [x]
  | y :: ys =>
    if codeUnitsLe (utf16CodeUnits x) (utf16CodeUnits y) then x :: y :: ys
    else y :: insertSorted x ys

/-- The method `xs.sort()` without comparator on an array of strings: the
stable arrangement in ascending order of UTF-16 code units. -/
def sortStrings (xs : List String) : List String :=
  xs.foldr insertSorted []

/-! ## Tagging (`lib/tags/TaggingLibrary.js`)

The stored `metadata.tags` is read through `|| []` or `Array.isArray`, so a
missing array is the empty list.  `now` is `new Date().toISOString()`. -/

/-- The expression `tag.trim().toLowerCase()`. -/
def normalizeTag (toLowerCase : String → String) (tag : String) : String :=
  toLowerCase (trim tag)

/-- The function `addTags(documentId, tags)`. -/
def addTags (toLowerCase : String → String) (documents : Store) (documentId : String)
    (tags : List String) (now : String) : Result (Option Document) × Store :=
  if tags.length = 0 then (.thrown "Tags must be a non-empty array", documents)
  else
    let cleanedTags := (tags.map (normalizeTag toLowerCase)).filter (fun tag => tag != "")
    if cleanedTags.length = 0 then (.thrown "No valid tags provided", documents)
    else
      match findIndex (fun doc => doc.id == documentId) documents with
      | none => (.ok none, documents)
      | some documentIndex =>
        match documents[documentIndex]? with
        | none => (.thrown "TypeError", documents)
        | some document =>
          let existingTags := document.metadata.tags
          let updatedTags := uniqueValues (existingTags ++ cleanedTags)
          let updated : Document :=
            { document with
              metadata := { document.metadata with tags := updatedTags, updatedAt := now } }
          (.ok (some updated), documents.set documentIndex updated)

/-- The function `removeTags(documentId, tags)`. -/
def removeTags (toLowerCase : String → String) (documents : Store) (documentId : String)
    (tags : List String) (now : String) : Result (Option Document) × Store :=
  if tags.length = 0 then (.thrown "Tags must be a non-empty array", documents)
  else
    let tagsToRemove := tags.map (normalizeTag toLowerCase)
    match findIndex (fun doc => doc.id == documentId) documents with
    | none => (.ok none, documents)
    | some documentIndex =>
      match documents[documentIndex]? with
      | none => (.thrown "TypeError", documents)
      | some document =>
        let existingTags := document.metadata.tags
        let updatedTags := existingTags.filter (fun tag => !tagsToRemove.contains tag)
        let updated : Document :=
          { document with
            metadata := { document.metadata with tags := updatedTags, updatedAt := now } }
        (.ok (some updated), documents.set documentIndex updated)

/-- The function `setTags(documentId, tags)`. -/
def setTags (toLowerCase : String → String) (documents : Store) (documentId : String)
    (tags : List String) (now : String) : Result (Option Document) × Store :=
  let cleanedTags := (tags.map (normalizeTag toLowerCase)).filter (fun tag => tag != "")
  match findIndex (fun doc => doc.id == documentId) documents with
  | none => (.ok none, documents)
  | some documentIndex =>
    match documents[documentIndex]? with
    | none => (.thrown "TypeError", documents)
    | some document =>
      let updated : Document :=
        { document with
          metadata := { document.metadata with tags := cleanedTags, updatedAt := now } }
      (.ok (some updated), documents.set documentIndex updated)

/-- The function `getAllTags()`. -/
def getAllTags (documents : Store) : List String :=
  let allTags := documents.foldl (fun tags doc => tags ++ doc.metadata.tags) []
  sortStrings (uniqueValues allTags)

/-- The function `findDocumentsByTag(tag)`. -/
def findDocumentsByTag (toLowerCase : String → String) (documents : Store) (tag : String) :
    List Document :=
  let searchTag := normalizeTag toLowerCase tag
  documents.filter (fun doc => doc.metadata.tags.contains searchTag)

/-! ## Folder management (`lib/folders/FolderManagementSDK.js`) -/

/-- A stored folder; `parentId` is `none` for `null`. -/
structure Folder where
  id : String
  name : String
  parentId : Option String
  createdAt : String
  updatedAt : String
  deriving DecidableEq, Repr

/-- The stored array `folders`. -/
abbrev FolderStore := List Folder

/-- The function `getFolders()`. -/
def getFolders (folders : FolderStore) : List Folder := folders

/-- The function `getFolderById(folderId)`. -/
def getFolderById (folders : FolderStore) (folderId : String) : Option Folder :=
  (getFolders folders).find? (fun folder => folder.id == folderId)

/-- Values `createFolder` draws from the environment, in source order. -/
structure FolderEnv where
  id : String
  createdAt : String
  updatedAt : String
  deriving DecidableEq, Repr

/-- The function `createFolder(name, parentId)`. -/
def createFolder (folders : FolderStore) (name : String) (parentId : Option String)
    (env : FolderEnv) : Result Folder × FolderStore :=
  if name = "" ∨ trim name = "" then (.thrown "Folder name is required", folders)
  else
    let folder : Folder :=
      { id := env.id, name := trim name, parentId := parentId,
        createdAt := env.createdAt, updatedAt := env.updatedAt }
    (.ok folder, getFolders folders ++ [folder])

/-- The `updates` argument of `updateFolder`: an absent key is `none`; for
`parentId` the value `some none` is `null`. -/
structure FolderUpdates where
  name : Option String
  parentId : Option (Option String)
  deriving DecidableEq, Repr

/-- Truthiness of an optional string: present and not empty. -/
def truthy (value : Option String) : Bool :=
  match value with
  | some s => s != ""
  | none => false

/-- The function `updateFolder(folderId, updates)`. -/
def updateFolder (folders : FolderStore) (folderId : String) (updates : FolderUpdates)
    (now : String) : Result (Option Folder) × FolderStore :=
  match findIndex (fun folder => folder.id == folderId) (getFolders folders) with
  | none => (.ok none, folders)
  | some folderIndex =>
    match (getFolders folders)[folderIndex]? with
    | none => (.thrown "TypeError", folders)
    | some folder =>
      if truthy updates.name ∧ updates.name.map trim = some "" then
        (.thrown "Folder name cannot be empty", folders)
      else if truthy updates.parentId.join ∧ updates.parentId.join = some folderId then
        (.thrown "Folder cannot be its own parent", folders)
      else if truthy updates.parentId.join ∧
          (updates.parentId.join.bind (getFolderById folders)).isNone then
        (.thrown "Parent folder does not exist", folders)
      else
        let updated : Folder :=
          { folder with
            name := match updates.name with
              | some name => trim name
              | none => folder.name
            parentId := match updates.parentId with
              | some parentId => parentId
              | none => folder.parentId
            updatedAt := now }
        (.ok (some updated), (getFolders folders).set folderIndex updated)

/-! ## File type validation, size limits (`lib/validation/FileTypeValidation.js`) -/

/-- A value returned by `getMaxFileSize`: a number of bytes, `undefined` (the
`maxSize` of an inherited member) or `null`. -/
inductive MaxFileSize where
  | bytes (n : Nat)
  | undefined
  | null
  deriving DecidableEq, Repr

/-- The function `getMaxFileSize(mimeType)`. -/
def getMaxFileSize (mimeType : String) : MaxFileSize :=
  match supportedFileType mimeType with
  | .own maxSize => .bytes maxSize
  | .inherited => .undefined
  | .absent => .null

/-! ## Upload SDK, metadata update (`lib/upload/FileUploadSDK.js`) -/

/-- The function `updateDocumentMetadata(documentId, metadata, userId)`; `now`
is `new Date().toISOString()`.  Reading `document.permissions.owner` throws a
`TypeError` when the document has no `permissions`. -/
def updateDocumentMetadata (toLowerCase : String → String) (documents : Store)
    (documentId : String) (metadata : UploadMetadata) (userId now : String) :
    Result Document × Store :=
  match findIndex (fun doc => doc.id == documentId) documents with
  | none => (.error "Document not found", documents)
  | some documentIndex =>
    match documents[documentIndex]? with
    | none => (.thrown "TypeError", documents)
    | some document =>
      match document.permissions with
      | none => (.thrown "TypeError", documents)
      | some permissions =>
        let isOwner : Bool := permissions.owner == some userId
        let hasEditAccess : Bool :=
          (permissions.access.map (fun access => access.any (fun access =>
            access.userId == userId && ["edit", "admin"].contains access.level))).getD false
        if !isOwner && !hasEditAccess then
          (.error "Permission denied. You do not have edit access to this document.",
            documents)
        else
          let updated : Document :=
            { document with
              metadata :=
                { document.metadata with
                  updatedAt := now
                  title := metadata.title.getD document.metadata.title
                  description := metadata.description.getD document.metadata.description
                  tags := (metadata.tags.map (fun tags =>
                    (tags.map (fun tag => toLowerCase (trim tag))).filter
                      (fun tag => tag != ""))).getD document.metadata.tags } }
          (.ok updated, documents.set documentIndex updated)

/-- The function `deleteDocument(documentId)`. -/
def deleteDocument (documents : Store) (documentId : String) : Result Bool × Store :=
  let updatedDocuments := documents.filter (fun doc => doc.id != documentId)
  if updatedDocuments.length = documents.length then (.ok false, documents)
  else (.ok true, updatedDocuments)

/-! ## Folder management, deletion, hierarchy and moves
(`lib/folders/FolderManagementSDK.js`) -/

/-- The function `deleteFolder(folderId)`; it reads the stored documents and
writes the stored folders. -/
def deleteFolder (folders : FolderStore) (documents : Store) (folderId : String) :
    Result Bool × FolderStore :=
  if !(getFolders folders).any (fun folder => folder.id == folderId) then (.ok false, folders)
  else if (getFolders folders).any (fun folder => folder.parentId == some folderId) then
    (.thrown "Cannot delete folder with subfolders", folders)
  else if documents.any (fun doc => doc.folderId == some (some folderId)) then
    (.thrown "Cannot delete folder containing documents", folders)
  else
    (.ok true, (getFolders folders).filter (fun folder => folder.id != folderId))

/-- A node object `{ ...folder, children }` of `getFolderHierarchy`; the
elements of `children` are node objects, given here by their keys in
`folderMap`. -/
structure FolderNode where
  folder : Folder
  children : List String
  deriving DecidableEq, Repr

/-- The objects that `getFolderHierarchy` builds: the table `folderMap` of the
node objects by key, and the returned array `rootFolders`, whose elements are
node objects given by their keys in `folderMap`. -/
structure FolderHierarchy where
  rootFolders : List String
  folderMap : List (String × FolderNode)
  deriving DecidableEq, Repr

/-- The assignment `folderMap[key] = node`. -/
def setNode (key : String) (node : FolderNode) :
    List (String × FolderNode) → List (String × FolderNode)
  | [] => [(key, node)]
  | (k, n) :: rest => if k = key then (key, node) :: rest else (k, n) :: setNode key node rest

/-- The statement `folderMap[key].children.push(folderMap[child])`. -/
def pushChild (key child : String) (folderMap : List (String × FolderNode)) :
    List (String × FolderNode) :=
  folderMap.map (fun entry =>
    if entry.1 = key then (entry.1, { entry.2 with children := entry.2.children ++ [child] })
    else entry)

/-- The second loop of `getFolderHierarchy` over the folders that are left.  A
`parentId` that is no key of `folderMap` but the name of a member inherited from
`Object.prototype` reads a value without `children`, and the `push` throws. -/
def linkFolders : List Folder → List (String × FolderNode) → List String →
    Result FolderHierarchy
  | [], folderMap, rootFolders => .ok { rootFolders := rootFolders, folderMap := folderMap }
  | folder :: rest, folderMap, rootFolders =>
    if truthy folder.parentId then
      match folder.parentId.bind folderMap.lookup with
      | some _ =>
        linkFolders rest (pushChild (folder.parentId.getD "") folder.id folderMap) rootFolders
      | none =>
        match folder.parentId.bind objectPrototypeText with
        | some _ => .thrown "TypeError"
        | none => linkFolders rest folderMap (rootFolders ++ [folder.id])
    else linkFolders rest folderMap (rootFolders ++ [folder.id])

/-- The function `getFolderHierarchy()`.  Folder ids are values of `uuidv4()`;
an id is used as an ordinary key of `folderMap`. -/
def getFolderHierarchy (folders : FolderStore) : Result FolderHierarchy :=
  let folderMap := (getFolders folders).foldl
    (fun folderMap folder => setNode folder.id { folder := folder, children := [] } folderMap) []
  linkFolders (getFolders folders) folderMap []

/-- The `map` callback of `moveDocumentsToFolder` applied to the documents from
position `i` on; `now i` is `new Date().toISOString()` at the document of
position `i`. -/
def moveEach (documentIds : List String) (folderId : Option String) (now : Nat → String) :
    Nat → List Document → List Document
  | _, [] => []
  | i, doc :: docs =>
    (if documentIds.contains doc.id then
      { doc with
        folderId := some folderId
        metadata := { doc.metadata with updatedAt := now i } }
    else doc) :: moveEach documentIds folderId now (i + 1) docs

/-- The function `moveDocumentsToFolder(documentIds, folderId)`; it reads the
stored folders and writes the stored documents. -/
def moveDocumentsToFolder (folders : FolderStore) (documents : Store)
    (documentIds : List String) (folderId : Option String) (now : Nat → String) :
    Result Bool × Store :=
  if truthy folderId ∧ (folderId.bind (getFolderById folders)).isNone then
    (.thrown "Destination folder does not exist", documents)
  else
    let updated := documents.any (fun doc => documentIds.contains doc.id)
    let updatedDocuments := moveEach documentIds folderId now 0 documents
    if updated then (.ok true, updatedDocuments) else (.ok false, documents)

/-! ## Annotations (`lib/annotation/DocumentAnnotationSDK.js`) -/

/-- The values of `ANNOTATION_TYPES`, in the order of `Object.values`. -/
def ANNOTATION_TYPES : List String :=
  ["highlight", "comment", "drawing", "sticky_note", "underline", "strikethrough"]

/-- The `annotation` argument of `addAnnotation`; an absent key is `none`. -/
structure AnnotationInput where
  type : Option String
  pageNumber : Option Rat
  position : Option Position
  content : Option String
  style : Option (List (String × String))
  deriving DecidableEq, Repr

/-- Values `addAnnotation` draws from the environment, in source order. -/
structure AnnotationEnv where
  id : String
  createdAt : String
  updatedAt : String
  deriving DecidableEq, Repr

/-- The expression `annotation.pageNumber || 1`: of the finite numbers only 0 is
falsy, so every other one, negative or fractional, is kept. -/
def orElseOne (pageNumber : Option Rat) : Rat :=
  match pageNumber with
  | some n => if n = 0 then 1 else n
  | none => 1

/-- The function `addAnnotation(documentId, annotation, userId)`. -/
def addAnnotation (documents : Store) (documentId : String) ( annotation : AnnotationInput)
    (userId : String) (env : AnnotationEnv) : Result Annotation × Store :=
  match getDocumentById documents documentId with
  | none => (.error "Document not found", documents)
  | some _ =>
    if !checkPermission documents documentId userId "edit" then
      (.error "Permission denied", documents)
    else
      match annotation.type with
      | none => (.error "Invalid annotation type", documents)
      | some type =>
        if !ANNOTATION_TYPES.contains type then (.error "Invalid annotation type", documents)
        else
          let newAnnotation : Annotation :=
            { id := env.id
              documentId := documentId
              pageNumber := orElseOne annotation.pageNumber
              type := type
              position := annotation.position.getD { x := 0, y := 0 }
              content := orElseString annotation.content ""
              style := annotation.style.getD []
              createdBy := userId
              createdAt := env.createdAt
              updatedAt := env.updatedAt }
          match findIndex (fun doc => doc.id == documentId) documents with
          | none => (.error "Document not found", documents)
          | some documentIndex =>
            match documents[documentIndex]? with
            | none => (.thrown "TypeError", documents)
            | some stored =>
              (.ok newAnnotation,
                documents.set documentIndex
                  { stored with
                    annotations := some (stored.annotations.getD [] ++ [ newAnnotation]) })

/-- The function `getAnnotations(documentId)`. -/
def getAnnotations (documents : Store) (documentId : String) : Result (List Annotation) :=
  match getDocumentById documents documentId with
  | none => .error "Document not found"
  | some document => .ok (document.annotations.getD [])

/-- The `updates` argument of `updateAnnotation`; an absent key is `none`. -/
structure AnnotationUpdates where
  id : Option String
  documentId : Option String
  pageNumber : Option Rat
  type : Option String
  position : Option Position
  content : Option String
  style : Option (List (String × String))
  createdBy : Option String
  createdAt : Option String
  updatedAt : Option String
  deriving DecidableEq, Repr

/-- The function `updateAnnotation(documentId, annotationId, updates, userId)`;
`now` is `new Date().toISOString()`. -/
def updateAnnotation (documents : Store) (documentId annotationId : String)
    (updates : AnnotationUpdates) (userId now : String) : Result Annotation × Store :=
  match getDocumentById documents documentId with
  | none => (.error "Document not found", documents)
  | some _ =>
    if !checkPermission documents documentId userId "edit" then
      (.error "Permission denied", documents)
    else
      match findIndex (fun doc => doc.id == documentId) documents with
      | none => (.error "Document not found", documents)
      | some documentIndex =>
        match documents[documentIndex]? with
        | none => (.thrown "TypeError", documents)
        | some stored =>
          let annotations := stored.annotations.getD []
          match findIndex (fun ann => ann.id == annotationId) annotations with
          | none => (.error "Annotation not found", documents)
          | some annotationIndex =>
            match annotations[annotationIndex]? with
            | none => (.thrown "TypeError", documents)
            | some existing =>
              if existing.createdBy ≠ userId then
                (.error "You can only edit your own annotations", documents)
              else
                let updatedAnnotation : Annotation :=
                  { id := annotationId
                    documentId := documentId
                    pageNumber := updates.pageNumber.getD existing.pageNumber
                    type := updates.type.getD existing.type
                    position := updates.position.getD existing.position
                    content := updates.content.getD existing.content
                    style := updates.style.getD existing.style
                    createdBy := existing.createdBy
                    createdAt := existing.createdAt
                    updatedAt := now }
                (.ok updatedAnnotation,
                  documents.set documentIndex
                    { stored with
                      annotations := some (annotations.set annotationIndex updatedAnnotation) })

/-- The function `deleteAnnotation(documentId, annotationId, userId)`; the value
is `{ success: true }`. -/
def deleteAnnotation (documents : Store) (documentId annotationId userId : String) :
    Result Unit × Store :=
  match getDocumentById documents documentId with
  | none => (.error "Document not found", documents)
  | some document =>
    if !checkPermission documents documentId userId "edit" then
      (.error "Permission denied", documents)
    else
      match findIndex (fun doc => doc.id == documentId) documents with
      | none => (.error "Document not found", documents)
      | some documentIndex =>
        match documents[documentIndex]? with
        | none => (.thrown "TypeError", documents)
        | some stored =>
          let annotations := stored.annotations.getD []
          match findIndex (fun ann => ann.id == annotationId) annotations with
          | none => (.error "Annotation not found", documents)
          | some annotationIndex =>
            match annotations[annotationIndex]? with
            | none => (.thrown "TypeError", documents)
            | some existing =>
              if existing.createdBy ≠ userId ∧
                  document.permissions.bind (·.owner) ≠ some userId then
                (.error "You can only delete your own annotations", documents)
              else
                (.ok (),
                  documents.set documentIndex
                    { stored with annotations := some (annotations.eraseIdx annotationIndex) })

/-! ## Specification vocabulary -/

/-- Rank of the four permission levels as the specification orders them. -/
def levelRank (level : String) : Nat :=
  if level = "view" then 1
  else if level = "download" then 2
  else if level = "edit" then 3
  else if level = "admin" then 4
  else 0

/-- The stored list after a sequence of `deleteVersion(documentId, versionId,
userId)` calls, each applied to what the previous one stored. -/
def deleteVersions (documents : Store) : List (String × String × String) → Store
  | [] => documents
  | (documentId, versionId, userId) :: calls =>
    deleteVersions (deleteVersion documents documentId versionId userId).2 calls

/-- The invariant of the data model on one document: `currentVersion` is the
number of one of its versions, and the version numbers are 1..len(versions) in
order. -/
def VersionInvariant (document : Document) : Prop :=
  document.currentVersion ≠ none ∧
  document.currentVersion ∈ (document.versions.getD []).map (·.number) ∧
  (document.versions.getD []).map (·.number)
    = (List.range (document.versions.getD []).length).map (fun i => some (i + 1))

instance (document : Document) : Decidable (VersionInvariant document) := by
  unfold VersionInvariant
  infer_instance

/-- The version whose number is the document's `currentVersion`, if any. -/
def currentVersionOf (document : Document) : Option Version :=
  match document.currentVersion with
  | none => none
  | some n => (document.versions.getD []).find? (fun v => v.number == some n)

/-! ## Sample data -/

/-- A PDF of 2 MB. -/
def reportPdf : File :=
  { name := "report.pdf", type := "application/pdf", size := 2 * 1024 * 1024, lastModified := 0 }

/-- Upload metadata with the title "Report". -/
def reportMetadata : UploadMetadata :=
  { title := some "Report", description := none, tags := none }

/-- Environment values of the sample upload. -/
def reportEnv : UploadEnv :=
  { documentId := "doc-1", url := "blob:doc-1", createdAt := "t0", updatedAt := "t0",
    versionId := "v1", versionCreatedAt := "t0", versionUrl := "blob:v1" }

/-- Stored list after uploading `reportPdf` into empty storage. -/
def afterUpload : Store :=
  (uploadDocument [] (some reportPdf) reportMetadata reportEnv).2

/-- Stored list after the owner creates a second version of 5 bytes. -/
def afterSecondVersion : Store :=
  (createVersion afterUpload "doc-1" (some { reportPdf with size := 5 }) "current-user"
    "second" { id := "v2", url := "blob:v2", createdAt := "t1", updatedAt := "t1" }).2

/-- Stored list after the owner creates a third version of 7 bytes. -/
def afterThirdVersion : Store :=
  (createVersion afterSecondVersion "doc-1" (some { reportPdf with size := 7 }) "current-user"
    "third" { id := "v3", url := "blob:v3", createdAt := "t2", updatedAt := "t2" }).2

/-- A stored document with two versions numbered 1 and 2 and `currentVersion`
2, of 100 and 200 bytes. -/
def twoVersionDocument : Document :=
  { id := "doc-2", name := "plan.pdf", size := 200, type := "application/pdf",
    lastModified := 0, url := "blob:w2",
    metadata := { title := "Plan", description := "", tags := [], createdAt := "t0",
                  updatedAt := "t1" },
    versions := some
      [{ id := "w1", number := some 1, name := some "plan.pdf", size := some 100,
         type := some "application/pdf", url := "blob:w1", comment := some "",
         createdBy := some "current-user", createdAt := "t0" },
       { id := "w2", number := some 2, name := some "plan.pdf", size := some 200,
         type := some "application/pdf", url := "blob:w2", comment := some "second",
         createdBy := some "current-user", createdAt := "t1" }],
    currentVersion := some 2,
    permissions := some
      { owner := some "current-user",
        access := some [{ userId := "current-user", level := "view" },
                        { userId := "bob", level := "edit" },
                        { userId := "carol", level := "view" },
                        { userId := "dave", level := "guest" }] } }

/-- The document that the sample upload stores. -/
def uploadedReport : Document :=
  { id := "doc-1", name := "report.pdf", size := 2 * 1024 * 1024, type := "application/pdf",
    lastModified := 0, url := "blob:doc-1",
    metadata := { title := "Report", description := "", tags := [], createdAt := "t0",
                  updatedAt := "t0" },
    versions := some
      [{ id := "v1", number := none, name := none, size := none, type := none,
         url := "blob:v1", comment := none, createdBy := none, createdAt := "t0" }],
    currentVersion := none,
    permissions := some { owner := some "current-user", access := some [] } }

/-! ## Sequences of access-control calls -/

/-- One call that writes a document's permissions. -/
inductive AclCall where
  | upload (file : Option File) (metadata : UploadMetadata) (env : UploadEnv)
  | grant (documentId userId permissionLevel : String)
  | revoke (documentId userId : String)
  | transfer (documentId currentOwnerId newOwnerId : String)
  deriving DecidableEq, Repr

/-- The stored list after one call. -/
def AclCall.run (documents : Store) : AclCall → Store
  | .upload file metadata env => (uploadDocument documents file metadata env).2
  | .grant documentId userId permissionLevel =>
    (grantPermission documents documentId userId permissionLevel).2
  | .revoke documentId userId => (revokePermission documents documentId userId).2
  | .transfer documentId currentOwnerId newOwnerId =>
    (transferOwnership documents documentId currentOwnerId newOwnerId).2

/-- The stored list after a sequence of calls, each applied to what the
previous one stored. -/
def runAclCalls (documents : Store) : List AclCall → Store
  | [] => documents
  | call :: calls => runAclCalls (call.run documents) calls

/-- No entry of the document's access list has the document's owner as its
userId. -/
def OwnerHasNoEntry (document : Document) : Prop :=
  ∀ entry ∈ (document.permissions.bind (·.access)).getD [],
    document.permissions.bind (·.owner) ≠ some entry.userId

instance (document : Document) : Decidable (OwnerHasNoEntry document) := by
  unfold OwnerHasNoEntry
  infer_instance

/-- The call does not name an owner as grantee: a grant is not for the owner of
its target document, and a transfer is not to a user who has an entry in the
access list of its target document. -/
def AclCall.SparesOwner (documents : Store) : AclCall → Prop
  | .grant documentId userId _ =>
    (getDocumentById documents documentId).bind (fun d => d.permissions.bind (·.owner))
      ≠ some userId
  | .transfer documentId _ newOwnerId =>
    newOwnerId ∉
      (((getDocumentById documents documentId).bind
        (fun d => d.permissions.bind (·.access))).getD []).map (·.userId)
  | _ => True

instance (documents : Store) (call : AclCall) : Decidable (call.SparesOwner documents) := by
  cases call <;> unfold AclCall.SparesOwner <;> infer_instance

/-- Every call of the sequence spares the owner in the state it is applied
to. -/
def SpareOwner (documents : Store) : List AclCall → Prop
  | [] => True
  | call :: calls => call.SparesOwner documents ∧ SpareOwner (call.run documents) calls

instance : (documents : Store) → (calls : List AclCall) → Decidable (SpareOwner documents calls)
  | _, [] => isTrue trivial
  | documents, call :: calls =>
    haveI := instDecidableSpareOwner (call.run documents) calls
    inferInstanceAs (Decidable (call.SparesOwner documents ∧ SpareOwner (call.run documents) calls))

/-- Upload, then a grant to the owner of the uploaded document. -/
def ownerGrantCalls : List AclCall :=
  [.upload (some reportPdf) reportMetadata reportEnv, .grant "doc-1" "current-user" "view"]

/-- Upload, grant edit to bob, transfer the ownership to carol, revoke bob. -/
def sparingCalls : List AclCall :=
  [.upload (some reportPdf) reportMetadata reportEnv, .grant "doc-1" "bob" "edit",
   .transfer "doc-1" "current-user" "carol", .revoke "doc-1" "bob"]

/-- Stored list after the tags of the uploaded sample are set to "Finance" and
"Q3". -/
def afterTagging : Store :=
  (setTags asciiToLowerCase afterUpload "doc-1" ["Finance", "Q3"] "t1").2

/-- Stored folders after creating the folder "Invoices". -/
def afterInvoices : FolderStore :=
  (createFolder [] "Invoices" none { id := "f1", createdAt := "t0", updatedAt := "t0" }).2

/-! ## Folder hierarchy vocabulary -/

/-- Every key, node, child reference and root reference of the hierarchy
satisfies `P` on the id it carries. -/
def FolderHierarchy.AllIds (P : String → Prop) (h : FolderHierarchy) : Prop :=
  (∀ r ∈ h.rootFolders, P r) ∧
  ∀ entry ∈ h.folderMap, P entry.1 ∧ P entry.2.folder.id ∧ ∀ c ∈ entry.2.children, P c

/-- Stored folders after creating "A" (id `a`) and "B" (id `b`) inside it. -/
def nestedFolders : FolderStore :=
  (createFolder
    (createFolder [] "A" none { id := "a", createdAt := "t0", updatedAt := "t0" }).2
    "B" (some "a") { id := "b", createdAt := "t1", updatedAt := "t1" }).2

/-- Stored folders after "A" is moved into its own child "B". -/
def cyclicFolders : FolderStore :=
  (updateFolder nestedFolders "a" { name := none, parentId := some (some "b") } "t2").2

/-! ## Sequences of annotation calls -/

/-- Every stored annotation has a type among `ANNOTATION_TYPES` and a page
number of at least 1. -/
def AnnotationsValid (documents : Store) : Prop :=
  ∀ d ∈ documents, ∀ ann ∈ d.annotations.getD [],
    ann.type ∈ ANNOTATION_TYPES ∧ 1 ≤ ann.pageNumber

instance (documents : Store) : Decidable (AnnotationsValid documents) := by
  unfold AnnotationsValid
  infer_instance

/-- One call of the annotation SDK, with the values it draws from the
environment. -/
inductive AnnotationCall where
  | add (documentId : String) ( annotation : AnnotationInput) (userId : String)
      (env : AnnotationEnv)
  | update (documentId annotationId : String) (updates : AnnotationUpdates)
      (userId now : String)
  | delete (documentId annotationId userId : String)
  deriving DecidableEq, Repr

/-- The stored list after one call. -/
def AnnotationCall.run (documents : Store) : AnnotationCall → Store
  | .add documentId annotation userId env =>
    ( addAnnotation documents documentId annotation userId env).2
  | .update documentId annotationId updates userId now =>
    ( updateAnnotation documents documentId annotationId updates userId now).2
  | .delete documentId annotationId userId =>
    ( deleteAnnotation documents documentId annotationId userId).2

/-- The stored list after a sequence of calls, each applied to what the
previous one stored. -/
def runAnnotationCalls (documents : Store) : List AnnotationCall → Store
  | [] => documents
  | call :: calls => runAnnotationCalls (call.run documents) calls

/-- The page number a call passes, if any, is 0 or at least 1 for
`addAnnotation` (0 is read as omitted) and at least 1 for `updateAnnotation`,
and the `type` in the updates of `updateAnnotation`, if any, is among
`ANNOTATION_TYPES`. -/
def AnnotationCall.Admissible : AnnotationCall → Prop
  | .add _ annotation _ _ => ∀ n, annotation.pageNumber = some n → n = 0 ∨ 1 ≤ n
  | .update _ _ updates _ _ =>
    (∀ type, updates.type = some type → type ∈ ANNOTATION_TYPES) ∧
    ∀ n, updates.pageNumber = some n → 1 ≤ n
  | .delete _ _ _ => True

/-- Stored list after the owner adds a comment to the uploaded sample, with
page number and position omitted. -/
def afterComment : Store :=
  ( addAnnotation afterUpload "doc-1"
    { type := some "comment", pageNumber := none, position := none, content := some "check",
      style := none }
    "current-user" { id := "n1", createdAt := "t1", updatedAt := "t1" }).2

/-- The annotation stored by `afterComment`. -/
def sampleComment : Annotation :=
  { id := "n1", documentId := "doc-1", pageNumber := 1, type := "comment",
    position := { x := 0, y := 0 }, content := "check", style := [],
    createdBy := "current-user", createdAt := "t1", updatedAt := "t1" }

/-- The number 0.5. -/
def half : Rat := ⟨1, 2, by decide, by decide⟩

/-- Updates with no key. -/
def noUpdates : AnnotationUpdates :=
  { id := none, documentId := none, pageNumber := none, type := none, position := none,
    content := none, style := none, createdBy := none, createdAt := none, updatedAt := none }

/-- An add, an update of the type, content and page, and an add with page 0. -/
def admissibleCalls : List AnnotationCall :=
  [.add "doc-1"
     { type := some "comment", pageNumber := none, position := none, content := some "check",
       style := none }
     "current-user" { id := "n1", createdAt := "t1", updatedAt := "t1" },
   .update "doc-1" "n1"
     { noUpdates with type := some "underline", content := some "done", pageNumber := some 3 }
     "current-user" "t2",
   .add "doc-1"
     { type := some "highlight", pageNumber := some 0, position := some { x := 4, y := 5 },
       content := none, style := none }
     "current-user" { id := "n2", createdAt := "t3", updatedAt := "t3" }]

/-- Stored list after bob and carol are granted edit on the uploaded sample and
bob adds a note to it. -/
def afterBobNote : Store :=
  ( addAnnotation
    (grantPermission (grantPermission afterUpload "doc-1" "bob" "edit").2
      "doc-1" "carol" "edit").2
    "doc-1"
    { type := some "sticky_note", pageNumber := some 2, position := none,
      content := some "todo", style := none }
    "bob" { id := "n7", createdAt := "t4", updatedAt := "t4" }).2

/-- The note stored by `afterBobNote`. -/
def bobNote : Annotation :=
  { id := "n7", documentId := "doc-1", pageNumber := 2, type := "sticky_note",
    position := { x := 0, y := 0 }, content := "todo", style := [],
    createdBy := "bob", createdAt := "t4", updatedAt := "t4" }

/-- The document stored by `afterBobNote`. -/
def notedReport : Document :=
  { uploadedReport with
    permissions := some
      { owner := some "current-user",
        access := some [{ userId := "bob", level := "edit" },
                        { userId := "carol", level := "edit" }] }
    annotations := some [bobNote] }

/-! ## Failed calls -/

/-- The call failed: it threw, returned an error-shaped object, or returned a
value that `isNull` recognises as `null` or `false`. -/
def Result.failed {α : Type} (isNull : α → Bool) : Result α → Bool
  | .ok value => isNull value
  | _ => true

/-- No returned value counts as a failure. -/
def noNull {α : Type} : α → Bool := fun _ => false

/-- The sample two-version document with its `permissions` object removed. -/
def unownedDocument : Document :=
  { twoVersionDocument with permissions := none }

/-- The sample two-version document with two entries for bob, the first view
and the second edit. -/
def doubleEntryDocument : Document :=
  { twoVersionDocument with
    permissions := some
      { owner := some "current-user",
        access := some [{ userId := "bob", level := "view" },
                        { userId := "bob", level := "edit" }] } }

/-! ## Sequences of document calls -/

/-- One call of a function that writes the stored documents, with the values it
draws from the environment; `move` carries the stored folders it reads.  The
two other writers of the stored documents, `trackDocumentView` and
`getDocumentPageCount`, write only keys that `Document` does not carry. -/
inductive DocumentCall where
  | acl (call : AclCall)
  | updateMetadata (toLowerCase : String → String) (documentId : String)
      (metadata : UploadMetadata) (userId now : String)
  | delete (documentId : String)
  | createVersion (documentId : String) (file : Option File) (userId comment : String)
      (env : VersionEnv)
  | setCurrentVersion (documentId : String) (versionNumber : Nat) (userId now : String)
  | deleteVersion (documentId versionId userId : String)
  | addTags (toLowerCase : String → String) (documentId : String) (tags : List String)
      (now : String)
  | removeTags (toLowerCase : String → String) (documentId : String) (tags : List String)
      (now : String)
  | setTags (toLowerCase : String → String) (documentId : String) (tags : List String)
      (now : String)
  | move (folders : FolderStore) (documentIds : List String) (folderId : Option String)
      (now : Nat → String)
  | annotate (call : AnnotationCall)

/-- The stored list after one call. -/
def DocumentCall.run (documents : Store) : DocumentCall → Store
  | .acl call => call.run documents
  | .updateMetadata toLowerCase documentId metadata userId now =>
    (updateDocumentMetadata toLowerCase documents documentId metadata userId now).2
  | .delete documentId => (deleteDocument documents documentId).2
  | .createVersion documentId file userId comment env =>
    (ERP.createVersion documents documentId file userId comment env).2
  | .setCurrentVersion documentId versionNumber userId now =>
    (ERP.setCurrentVersion documents documentId versionNumber userId now).2
  | .deleteVersion documentId versionId userId =>
    (ERP.deleteVersion documents documentId versionId userId).2
  | .addTags toLowerCase documentId tags now =>
    (ERP.addTags toLowerCase documents documentId tags now).2
  | .removeTags toLowerCase documentId tags now =>
    (ERP.removeTags toLowerCase documents documentId tags now).2
  | .setTags toLowerCase documentId tags now =>
    (ERP.setTags toLowerCase documents documentId tags now).2
  | .move folders documentIds folderId now =>
    (moveDocumentsToFolder folders documents documentIds folderId now).2
  | .annotate call => call.run documents

/-- The stored list after a sequence of calls, each applied to what the
previous one stored. -/
def runDocumentCalls (documents : Store) : List DocumentCall → Store
  | [] => documents
  | call :: calls => runDocumentCalls (call.run documents) calls

/-- Every stored document has a `permissions` object. -/
def HavePermissions (documents : Store) : Prop :=
  ∀ d ∈ documents, d.permissions ≠ none

/-! ## Lemmas on `findIndex` -/

theorem findIndex_some {α : Type} (p : α → Bool) :
    ∀ (l : List α) (i : Nat), findIndex p l = some i →
      ∃ x, l[i]? = some x ∧ p x = true ∧ l.find? p = some x
  | [], i, h => by simp [findIndex] at h
  | x :: xs, i, h => by
    by_cases hx : p x = true
    · simp [findIndex, hx] at h
      subst h
      exact ⟨x, by simp, hx, by simp [List.find?, hx]⟩
    · simp only [findIndex, hx] at h
      cases hr : findIndex p xs with
      | none => simp [hr] at h
      | some j =>
        simp [hr] at h
        subst h
        obtain ⟨y, hy, hpy, hf⟩ := findIndex_some p xs j hr
        refine ⟨y, by simpa using hy, hpy, ?_⟩
        simp only [Bool.not_eq_true] at hx
        simp [List.find?, hx, hf]

theorem findIndex_of_find {α : Type} (p : α → Bool) :
    ∀ (l : List α) (x : α), l.find? p = some x → ∃ i, findIndex p l = some i ∧ l[i]? = some x
  | [], x, h => by simp at h
  | y :: ys, x, h => by
    by_cases hy : p y = true
    · simp [List.find?, hy] at h
      subst h
      exact ⟨0, by simp [findIndex, hy], by simp⟩
    · simp only [Bool.not_eq_true] at hy
      simp [List.find?, hy] at h
      obtain ⟨i, hi, hx⟩ := findIndex_of_find p ys x (by simpa [List.find?] using h)
      exact ⟨i + 1, by simp [findIndex, hy, hi], by simpa using hx⟩

theorem findIndex_none {α : Type} (p : α → Bool) :
    ∀ (l : List α), findIndex p l = none → l.find? p = none
  | [], _ => by simp
  | y :: ys, h => by
    by_cases hy : p y = true
    · simp [findIndex, hy] at h
    · simp only [Bool.not_eq_true] at hy
      simp [findIndex, hy] at h
      have := findIndex_none p ys h
      simp [List.find?, hy, this]

theorem find_set_of_findIndex {α : Type} (p : α → Bool) (y : α) (hy : p y = true) :
    ∀ (l : List α) (i : Nat), findIndex p l = some i → (l.set i y).find? p = some y
  | [], i, h => by simp [findIndex] at h
  | x :: xs, i, h => by
    by_cases hx : p x = true
    · simp [findIndex, hx] at h
      subst h
      simp [List.find?, hy]
    · simp only [Bool.not_eq_true] at hx
      simp only [findIndex, hx] at h
      cases hr : findIndex p xs with
      | none => simp [hr] at h
      | some j =>
        simp [hr] at h
        subst h
        have := find_set_of_findIndex p y hy xs j hr
        simp [List.find?, hx, this]

/-! ## Lemmas on the stored list -/

theorem getDocumentById_index (documents : Store) (documentId : String) (document : Document)
    (h : getDocumentById documents documentId = some document) :
    ∃ i, findIndex (fun doc => doc.id == documentId) documents = some i
      ∧ documents[i]? = some document ∧ document.id = documentId := by
  obtain ⟨i, hi, hx⟩ := findIndex_of_find _ documents document h
  obtain ⟨x, hx', hp, _⟩ := findIndex_some _ documents i hi
  rw [hx] at hx'
  cases hx'
  exact ⟨i, hi, hx, by simpa using hp⟩

theorem getDocumentById_set (documents : Store) (documentId : String) (i : Nat)
    (updated : Document) (hid : updated.id = documentId)
    (hi : findIndex (fun doc => doc.id == documentId) documents = some i) :
    getDocumentById (documents.set i updated) documentId = some updated :=
  find_set_of_findIndex _ updated (by simp [hid]) documents i hi

/-! ## Lemmas on access lists -/

theorem find_after_grant (userId level : String) :
    ∀ (l : List AccessEntry),
      (updatedPermissions l userId level).find? (fun permission => permission.userId == userId)
        = some { userId := userId, level := level }
  | [] => by simp [updatedPermissions, findIndex]
  | x :: xs => by
    by_cases hx : x.userId = userId
    · simp [updatedPermissions, findIndex, hx, List.modify, List.find?]
    · have ih := find_after_grant userId level xs
      unfold updatedPermissions at ih ⊢
      cases hr : findIndex (fun permission : AccessEntry => permission.userId == userId) xs with
      | none =>
        simp only [hr] at ih
        simp [findIndex, hx, hr, List.find?]
        simpa using ih
      | some j =>
        simp only [hr] at ih
        simp [findIndex, hx, hr, List.find?, List.modify]
        simpa using ih

theorem rank_ge_known (L L' : String) (hL : L ∈ PERMISSION_LEVELS) (hL' : L' ∈ PERMISSION_LEVELS) :
    (permissionHierarchy L).ge (permissionHierarchy L') = decide (levelRank L' ≤ levelRank L) := by
  simp [PERMISSION_LEVELS] at hL hL'
  rcases hL with rfl | rfl | rfl | rfl <;> rcases hL' with rfl | rfl | rfl | rfl <;> decide

theorem grantPermission_store (documents : Store) (documentId u L : String) (document : Document)
    (hdoc : getDocumentById documents documentId = some document)
    (hL : L ∈ PERMISSION_LEVELS) :
    ∃ i, findIndex (fun doc => doc.id == documentId) documents = some i ∧
      grantPermission documents documentId u L =
        (.ok (some { document with
            permissions := some
              { owner := document.permissions.bind (·.owner)
                access := some (updatedPermissions
                  ((document.permissions.bind (·.access)).getD []) u L) } }),
          documents.set i { document with
            permissions := some
              { owner := document.permissions.bind (·.owner)
                access := some (updatedPermissions
                  ((document.permissions.bind (·.access)).getD []) u L) } }) := by
  obtain ⟨i, hi, hget, _⟩ := getDocumentById_index documents documentId document hdoc
  refine ⟨i, hi, ?_⟩
  simp [grantPermission, hL, hi, hget]

/-- C8: with rank(view)=1 < rank(download)=2 < rank(edit)=3 < rank(admin)=4, after
`grantPermission(doc, u, L)` on an existing document whose owner is not `u`, the
call `checkPermission(doc, u, L')` is true exactly when rank(L') <= rank(L), for
all levels `L`, `L'` among the four. -/
theorem C8_grant_then_check (documents : Store) (documentId u L L' : String)
    (document : Document)
    (hdoc : getDocumentById documents documentId = some document)
    (hnot : document.permissions.bind (·.owner) ≠ some u)
    (hL : L ∈ PERMISSION_LEVELS) (hL' : L' ∈ PERMISSION_LEVELS) :
    (levelRank "view" = 1 ∧ levelRank "download" = 2 ∧ levelRank "edit" = 3
      ∧ levelRank "admin" = 4) ∧
    (checkPermission (grantPermission documents documentId u L).2 documentId u L' = true
      ↔ levelRank L' ≤ levelRank L) := by
  refine ⟨by decide, ?_⟩
  obtain ⟨i, hi, hg⟩ := grantPermission_store documents documentId u L document hdoc hL
  obtain ⟨_, _, _, hid⟩ := getDocumentById_index documents documentId document hdoc
  rw [hg]
  simp only [checkPermission]
  rw [getDocumentById_set documents documentId i _ ?_ hi]
  · simp only [Option.bind_some, Option.getD_some, find_after_grant]
    simp [hnot, find_after_grant, rank_ge_known L L' hL hL']
  · exact hid

theorem createVersion_success (documents : Store) (documentId : String) (f : File)
    (userId comment : String) (env : VersionEnv) (document : Document)
    (hdoc : getDocumentById documents documentId = some document)
    (hperm : checkPermission documents documentId userId "edit" = true)
    (hvalid : (validateFile (some f)).valid = true)
    (htype : f.type = document.type) :
    ∃ i, findIndex (fun doc => doc.id == documentId) documents = some i ∧
      createVersion documents documentId (some f) userId comment env =
        (.ok { id := env.id
               number := some ((document.versions.getD []).length + 1)
               name := some f.name
               size := some f.size
               type := some f.type
               url := env.url
               comment := some comment
               createdBy := some userId
               createdAt := env.createdAt },
          documents.set i
            { document with
              versions := some (document.versions.getD [] ++
                [{ id := env.id
                   number := some ((document.versions.getD []).length + 1)
                   name := some f.name
                   size := some f.size
                   type := some f.type
                   url := env.url
                   comment := some comment
                   createdBy := some userId
                   createdAt := env.createdAt }])
              currentVersion := some ((document.versions.getD []).length + 1)
              url := env.url
              size := f.size
              metadata := { document.metadata with updatedAt := env.updatedAt } }) := by
  obtain ⟨i, hi, hget, _⟩ := getDocumentById_index documents documentId document hdoc
  refine ⟨i, hi, ?_⟩
  simp [createVersion, hdoc, hperm, hvalid, htype, hi, hget]

theorem createVersion_ok_iff (documents : Store) (documentId : String) (file : Option File)
    (userId comment : String) (env : VersionEnv) :
    (createVersion documents documentId file userId comment env).1.isOk = true ↔
      ∃ document f, getDocumentById documents documentId = some document ∧ file = some f ∧
        checkPermission documents documentId userId "edit" = true ∧
        (validateFile file).valid = true ∧ f.type = document.type := by
  constructor
  · intro h
    cases hdoc : getDocumentById documents documentId with
    | none => simp [createVersion, hdoc, Result.isOk] at h
    | some document =>
      cases hperm : checkPermission documents documentId userId "edit" with
      | false => simp [createVersion, hdoc, hperm, Result.isOk] at h
      | true =>
        cases hvalid : (validateFile file).valid with
        | false => simp [createVersion, hdoc, hperm, hvalid, Result.isOk] at h
        | true =>
          cases file with
          | none => simp [validateFile] at hvalid
          | some f =>
            by_cases htype : f.type = document.type
            · exact ⟨document, f, rfl, rfl, rfl, rfl, htype⟩
            · simp [createVersion, hdoc, hperm, hvalid, htype, Result.isOk] at h
  · rintro ⟨document, f, hdoc, rfl, hperm, hvalid, htype⟩
    obtain ⟨i, _, hc⟩ := createVersion_success documents documentId f userId comment env
      document hdoc hperm hvalid htype
    rw [hc]
    rfl

/-- C6: `createVersion(doc, file, user, comment)` succeeds exactly when the
document exists, `checkPermission(doc, user, edit)` is true, `validateFile`
accepts the file and `file.type` equals the document's type; when it succeeds
on a document with k versions, the new version has number k+1 and is the last
element of the stored versions, the earlier versions are unchanged, and the
document's `currentVersion`, `url` and `size` are those of the new version. -/
theorem C6_createVersion_appends (documents : Store) (documentId : String)
    (file : Option File) (userId comment : String) (env : VersionEnv) :
    ((createVersion documents documentId file userId comment env).1.isOk = true ↔
      ∃ document f, getDocumentById documents documentId = some document ∧ file = some f ∧
        checkPermission documents documentId userId "edit" = true ∧
        (validateFile file).valid = true ∧ f.type = document.type) ∧
    ∀ (version : Version) (documents' : Store),
      createVersion documents documentId file userId comment env = (.ok version, documents') →
      ∃ document updated,
        getDocumentById documents documentId = some document ∧
        getDocumentById documents' documentId = some updated ∧
        version.number = some ((document.versions.getD []).length + 1) ∧
        updated.versions = some (document.versions.getD [] ++ [version]) ∧
        updated.currentVersion = version.number ∧
        updated.url = version.url ∧
        some updated.size = version.size := by
  refine ⟨createVersion_ok_iff documents documentId file userId comment env, ?_⟩
  intro version documents' h
  have hok : (createVersion documents documentId file userId comment env).1.isOk = true := by
    rw [h]; rfl
  obtain ⟨document, f, hdoc, rfl, hperm, hvalid, htype⟩ :=
    (createVersion_ok_iff documents documentId _ userId comment env).mp hok
  obtain ⟨i, hi, hc⟩ := createVersion_success documents documentId f userId comment env
    document hdoc hperm hvalid htype
  obtain ⟨_, _, _, hid⟩ := getDocumentById_index documents documentId document hdoc
  rw [hc] at h
  simp only [Prod.mk.injEq, Result.ok.injEq] at h
  obtain ⟨hv, hs⟩ := h
  subst hv hs
  refine ⟨document, _, hdoc, getDocumentById_set documents documentId i _ ?_ hi, ?_⟩
  · exact hid
  · simp

/-! ## Lemmas on renumbering -/

theorem renumberFrom_length : ∀ (l : List Version) (i : Nat), (renumberFrom i l).length = l.length
  | [], _ => rfl
  | _ :: vs, i => by simp [renumberFrom, renumberFrom_length vs (i + 1)]

theorem renumberFrom_getElem? :
    ∀ (l : List Version) (i j : Nat),
      (renumberFrom i l)[j]? = l[j]?.map (fun v => { v with number := some (i + j + 1) })
  | [], _, _ => by simp [renumberFrom]
  | v :: vs, i, 0 => by simp [renumberFrom]
  | v :: vs, i, j + 1 => by
    simp only [renumberFrom, List.getElem?_cons_succ, renumberFrom_getElem? vs (i + 1) j]
    have : i + 1 + j + 1 = i + (j + 1) + 1 := by omega
    rw [this]

theorem renumberFrom_getLast? (l : List Version) (i : Nat) :
    (renumberFrom i l).getLast? =
      l.getLast?.map (fun v => { v with number := some (i + l.length) }) := by
  rw [List.getLast?_eq_getElem?, List.getLast?_eq_getElem?, renumberFrom_getElem?,
    renumberFrom_length]
  cases l with
  | nil => simp
  | cons v vs =>
    have : i + (List.length (v :: vs) - 1) + 1 = i + List.length (v :: vs) := by
      simp; omega
    rw [this]

theorem renumberFrom_map_id : ∀ (l : List Version) (i : Nat),
    (renumberFrom i l).map (·.id) = l.map (·.id)
  | [], _ => rfl
  | _ :: vs, i => by simp [renumberFrom, renumberFrom_map_id vs (i + 1)]

theorem renumberFrom_map_number : ∀ (l : List Version) (i : Nat),
    (renumberFrom i l).map (·.number) = (List.range l.length).map (fun j => some (i + j + 1))
  | [], _ => rfl
  | v :: vs, i => by
    simp only [renumberFrom, List.map_cons, renumberFrom_map_number vs (i + 1), List.length_cons,
      List.range_succ_eq_map, List.map_map]
    simp only [Nat.add_zero, List.cons.injEq, true_and]
    apply List.map_congr_left
    intro j _
    simp only [Function.comp, Option.some.injEq]
    omega

/-! ## Lemmas on `deleteVersion` -/

theorem deleteVersion_success (documents : Store) (documentId versionId userId : String)
    (document : Document) (k : Nat)
    (hdoc : getDocumentById documents documentId = some document)
    (hperm : checkPermission documents documentId userId "admin" = true)
    (hlen : 2 ≤ (document.versions.getD []).length)
    (hk : findIndex (fun v => v.id == versionId) (document.versions.getD []) = some k) :
    ∃ i target last,
      findIndex (fun doc => doc.id == documentId) documents = some i ∧
      (document.versions.getD [])[k]? = some target ∧ target.id = versionId ∧
      ((document.versions.getD []).eraseIdx k).getLast? = some last ∧
      deleteVersion documents documentId versionId userId =
        (.ok (), documents.set i
          (if document.currentVersion = target.number then
            { document with
              versions := some (renumberFrom 0 ((document.versions.getD []).eraseIdx k))
              currentVersion := some ((document.versions.getD []).length - 1)
              url := last.url }
          else
            { document with
              versions :=
                some (renumberFrom 0 ((document.versions.getD []).eraseIdx k)) })) := by
  obtain ⟨i, hi, hget, _⟩ := getDocumentById_index documents documentId document hdoc
  obtain ⟨target, htarget, hp, _⟩ := findIndex_some _ _ k hk
  have hklt : k < (document.versions.getD []).length := by
    rcases Nat.lt_or_ge k (document.versions.getD []).length with h | h
    · exact h
    · rw [List.getElem?_eq_none h] at htarget; cases htarget
  have hel : ((document.versions.getD []).eraseIdx k).length
      = (document.versions.getD []).length - 1 := by
    rw [List.length_eraseIdx, if_pos hklt]
  cases hlast : ((document.versions.getD []).eraseIdx k).getLast? with
  | none =>
    rw [List.getLast?_eq_none_iff] at hlast
    rw [hlast] at hel
    simp at hel
    omega
  | some last =>
    refine ⟨i, target, last, hi, htarget, by simpa using hp, rfl, ?_⟩
    have hnot : ¬ (document.versions.getD []).length ≤ 1 := by omega
    by_cases hcur : document.currentVersion = target.number
    · simp [deleteVersion, hdoc, hperm, hnot, hk, hi, htarget, hget, hcur,
        renumberFrom_getLast?, hlast, hel]
    · simp [deleteVersion, hdoc, hperm, hnot, hk, hi, htarget, hget, hcur]

theorem findIndex_of_mem_ids (versionId : String) :
    ∀ (versions : List Version), versionId ∈ versions.map (·.id) →
      ∃ k, findIndex (fun v => v.id == versionId) versions = some k := by
  intro versions hmem
  cases h : findIndex (fun v : Version => v.id == versionId) versions with
  | some k => exact ⟨k, rfl⟩
  | none =>
    have hf := findIndex_none _ versions h
    rw [List.find?_eq_none] at hf
    simp only [List.mem_map] at hmem
    obtain ⟨v, hv, hid⟩ := hmem
    have := hf v hv
    simp [hid] at this

/-- C3: for a document with at least two versions and a `versionId` present in
it, `deleteVersion` by a user with admin permission succeeds and stores exactly
the other versions in their previous order (same ids, same order, every field
but `number` untouched), renumbered 1..N with N the new length; and if the
deleted version's number was the document's `currentVersion`, then afterwards
`currentVersion` is N and the document's `url` is that of the last remaining
version. -/
theorem C3_deleteVersion_renumbers (documents : Store) (documentId versionId userId : String)
    (document : Document) (versions : List Version)
    (hdoc : getDocumentById documents documentId = some document)
    (hperm : checkPermission documents documentId userId "admin" = true)
    (hvs : document.versions = some versions)
    (hlen : 2 ≤ versions.length)
    (hmem : versionId ∈ versions.map (·.id)) :
    ∃ k target documents' updated remaining,
      findIndex (fun v => v.id == versionId) versions = some k ∧
      versions[k]? = some target ∧ target.id = versionId ∧
      deleteVersion documents documentId versionId userId = (.ok (), documents') ∧
      getDocumentById documents' documentId = some updated ∧
      updated.versions = some remaining ∧
      remaining.length = versions.length - 1 ∧
      remaining.map (·.id) = (versions.eraseIdx k).map (·.id) ∧
      remaining.map (·.number) = (List.range remaining.length).map (fun j => some (j + 1)) ∧
      (∀ (j : Nat) (v : Version), (versions.eraseIdx k)[j]? = some v →
        remaining[j]? = some { v with number := some (j + 1) }) ∧
      (document.currentVersion = target.number →
        updated.currentVersion = some remaining.length ∧
        ∃ last, remaining.getLast? = some last ∧ updated.url = last.url) := by
  obtain ⟨k, hk⟩ := findIndex_of_mem_ids versionId versions hmem
  have hvs' : document.versions.getD [] = versions := by rw [hvs]; rfl
  obtain ⟨i, target, last, hi, htarget, hid, hlast, hdel⟩ :=
    deleteVersion_success documents documentId versionId userId document k hdoc hperm
      (by rw [hvs']; exact hlen) (by rw [hvs']; exact hk)
  rw [hvs'] at htarget hlast hdel
  obtain ⟨_, _, _, hdid⟩ := getDocumentById_index documents documentId document hdoc
  have hklt : k < versions.length := by
    rcases Nat.lt_or_ge k versions.length with h | h
    · exact h
    · rw [List.getElem?_eq_none h] at htarget; cases htarget
  have hel : (versions.eraseIdx k).length = versions.length - 1 := by
    rw [List.length_eraseIdx, if_pos hklt]
  have hnum : (renumberFrom 0 (versions.eraseIdx k)).map (·.number)
      = (List.range (renumberFrom 0 (versions.eraseIdx k)).length).map
          (fun j => some (j + 1)) := by
    rw [renumberFrom_map_number, renumberFrom_length]
    simp
  have hpoint : ∀ (j : Nat) (v : Version), (versions.eraseIdx k)[j]? = some v →
      (renumberFrom 0 (versions.eraseIdx k))[j]? = some { v with number := some (j + 1) } := by
    intro j v hv
    rw [renumberFrom_getElem?, hv]
    simp
  by_cases hcur : document.currentVersion = target.number
  · rw [if_pos hcur] at hdel
    refine ⟨k, target, _, _, renumberFrom 0 (versions.eraseIdx k), hk, htarget, hid, hdel,
      getDocumentById_set documents documentId i _ ?_ hi, rfl, ?_, ?_, hnum, hpoint, ?_⟩
    · exact hdid
    · rw [renumberFrom_length, hel]
    · exact renumberFrom_map_id _ _
    · intro _
      refine ⟨?_, ?_⟩
      · simp [renumberFrom_length, hel]
      · refine ⟨{ last with number := some (0 + (versions.eraseIdx k).length) }, ?_, rfl⟩
        rw [renumberFrom_getLast?, hlast]
        rfl
  · rw [if_neg hcur] at hdel
    refine ⟨k, target, _, _, renumberFrom 0 (versions.eraseIdx k), hk, htarget, hid, hdel,
      getDocumentById_set documents documentId i _ ?_ hi, rfl, ?_, ?_, hnum, hpoint, ?_⟩
    · exact hdid
    · rw [renumberFrom_length, hel]
    · exact renumberFrom_map_id _ _
    · intro h; exact absurd h hcur

theorem deleteVersion_refuses (documents : Store) (documentId versionId userId : String)
    (h : checkPermission documents documentId userId "admin" = false ∨
      ∃ document, getDocumentById documents documentId = some document ∧
        (document.versions.getD []).length ≤ 1) :
    ∃ message, deleteVersion documents documentId versionId userId
      = (.error message, documents) := by
  cases hdoc : getDocumentById documents documentId with
  | none => exact ⟨"Document not found", by simp [deleteVersion, hdoc]⟩
  | some document =>
    cases hperm : checkPermission documents documentId userId "admin" with
    | false =>
      exact ⟨"Permission denied. Only admins can delete versions.",
        by simp [deleteVersion, hdoc, hperm]⟩
    | true =>
      rcases h with h | ⟨d, hd, hlen⟩
      · rw [hperm] at h; cases h
      · rw [hdoc] at hd
        cases hd
        exact ⟨"Cannot delete the only version of a document",
          by simp [deleteVersion, hdoc, hperm, hlen]⟩

theorem deleteVersion_store_cases (documents : Store) (documentId versionId userId : String) :
    (deleteVersion documents documentId versionId userId).2 = documents ∨
    ∃ i document updated, documents[i]? = some document ∧ updated.id = document.id ∧
      1 ≤ (updated.versions.getD []).length ∧
      (deleteVersion documents documentId versionId userId).2 = documents.set i updated := by
  cases hdoc : getDocumentById documents documentId with
  | none => left; simp [deleteVersion, hdoc]
  | some document =>
    cases hperm : checkPermission documents documentId userId "admin" with
    | false => left; simp [deleteVersion, hdoc, hperm]
    | true =>
      by_cases hlen : (document.versions.getD []).length ≤ 1
      · left; simp [deleteVersion, hdoc, hperm, hlen]
      · cases hk : findIndex (fun v : Version => v.id == versionId)
            (document.versions.getD []) with
        | none => left; simp [deleteVersion, hdoc, hperm, hlen, hk]
        | some k =>
          right
          obtain ⟨i, target, last, hi, htarget, _, _, hdel⟩ :=
            deleteVersion_success documents documentId versionId userId document k hdoc hperm
              (by omega) hk
          obtain ⟨i', hi', hget, _⟩ := getDocumentById_index documents documentId document hdoc
          rw [hi] at hi'
          cases hi'
          have hklt : k < (document.versions.getD []).length := by
            rcases Nat.lt_or_ge k (document.versions.getD []).length with h | h
            · exact h
            · rw [List.getElem?_eq_none h] at htarget; cases htarget
          have hel : ((document.versions.getD []).eraseIdx k).length
              = (document.versions.getD []).length - 1 := by
            rw [List.length_eraseIdx, if_pos hklt]
          refine ⟨i, document, _, hget, ?_, ?_, by rw [hdel]⟩
          · split <;> rfl
          · split <;> simp [renumberFrom_length, hel] <;> omega

theorem deleteVersions_keeps_versions :
    ∀ (calls : List (String × String × String)) (documents : Store) (i : Nat) (d : Document),
      documents[i]? = some d → 1 ≤ (d.versions.getD []).length →
      ∃ d', (deleteVersions documents calls)[i]? = some d' ∧ d'.id = d.id ∧
        1 ≤ (d'.versions.getD []).length
  | [], documents, i, d, hd, hlen => ⟨d, hd, rfl, hlen⟩
  | (documentId, versionId, userId) :: calls, documents, i, d, hd, hlen => by
    simp only [deleteVersions]
    rcases deleteVersion_store_cases documents documentId versionId userId with h | h
    · rw [h]
      exact deleteVersions_keeps_versions calls documents i d hd hlen
    · obtain ⟨i0, document, updated, hget, hid, hcount, hset⟩ := h
      rw [hset]
      by_cases hii : i0 = i
      · subst hii
        rw [hget] at hd
        cases hd
        have hlt : i0 < documents.length := by
          rcases Nat.lt_or_ge i0 documents.length with h | h
          · exact h
          · rw [List.getElem?_eq_none h] at hget; cases hget
        obtain ⟨d', h1, h2, h3⟩ := deleteVersions_keeps_versions calls
          (documents.set i0 updated) i0 updated (by simp [hlt]) hcount
        exact ⟨d', h1, by rw [h2, hid], h3⟩
      · exact deleteVersions_keeps_versions calls (documents.set i0 updated) i d
          (by rw [List.getElem?_set_ne hii]; exact hd) hlen

/-! ## Claims -/

/-- C1: the version invariant (`currentVersion` is the number of a stored
version and the numbers are 1..len) is evaluated on two reachable states: right
after `uploadDocument` the document has no `currentVersion` and its only
version has no number; after upload, `createVersion` and `deleteVersion` of the
first version, `currentVersion` is 2 while the only version is numbered 1. The
invariant fails in both. -/
theorem C1_version_invariant_fails_on_reachable_states :
    afterUpload = [uploadedReport] ∧
    uploadedReport.currentVersion = none ∧
    (uploadedReport.versions.getD []).map (·.number) = [none] ∧
    ¬ VersionInvariant uploadedReport ∧
    (deleteVersion afterSecondVersion "doc-1" "v1" "current-user").1 = .ok () ∧
    (deleteVersion afterSecondVersion "doc-1" "v1" "current-user").2.map
      (fun d => (d.currentVersion, (d.versions.getD []).map (·.number)))
      = [(some 2, [some 1])] ∧
    ∀ d ∈ (deleteVersion afterSecondVersion "doc-1" "v1" "current-user").2,
      ¬ VersionInvariant d := by
  decide

/-- C2: on a document with two versions numbered 1 and 2 and `currentVersion`
2, `deleteVersion` of version 1 by the owner succeeds and leaves one version,
numbered 1, but `currentVersion` is still 2. -/
theorem C2_delete_first_version_keeps_pointer :
    (deleteVersion [twoVersionDocument] "doc-2" "w1" "current-user").1 = .ok () ∧
    (deleteVersion [twoVersionDocument] "doc-2" "w1" "current-user").2.map
      (fun d => (d.currentVersion, (d.versions.getD []).map (fun v => (v.id, v.number))))
      = [(some 2, [("w2", some 1)])] := by
  decide

/-- C4: uploading the accepted 2 MB PDF titled "Report" into empty storage
stores exactly one document, titled "Report", with one version; that version
has no number and the document has no `currentVersion`. -/
theorem C4_upload_leaves_version_unnumbered :
    (validateFile (some reportPdf)).valid = true ∧
    uploadDocument [] (some reportPdf) reportMetadata reportEnv
      = (.ok uploadedReport, [uploadedReport]) ∧
    uploadedReport.metadata.title = "Report" ∧
    (uploadedReport.versions.getD []).length = 1 ∧
    (uploadedReport.versions.getD []).map (·.number) = [none] ∧
    uploadedReport.currentVersion = none := by
  decide

/-- C5: after upload and two `createVersion` calls (5 and 7 bytes), a
successful `setCurrentVersion(doc, 2, owner)` stores `currentVersion` 2 and the
url of version 2 but keeps size 7, while version 2 has size 5; a following
successful `deleteVersion` of the first version keeps `currentVersion` 2 and
the old url, while the version now numbered 2 has another url. -/
theorem C5_size_and_url_not_mirrored :
    (setCurrentVersion afterThirdVersion "doc-1" 2 "current-user" "t3").1
      = .ok { documentId := "doc-1", currentVersion := 2, url := "blob:v2" } ∧
    (setCurrentVersion afterThirdVersion "doc-1" 2 "current-user" "t3").2.map
      (fun d => (d.currentVersion, d.url, d.size,
        (currentVersionOf d).map (fun v => (v.url, v.size))))
      = [(some 2, "blob:v2", 7, some ("blob:v2", some 5))] ∧
    (deleteVersion (setCurrentVersion afterThirdVersion "doc-1" 2 "current-user" "t3").2
      "doc-1" "v1" "current-user").1 = .ok () ∧
    (deleteVersion (setCurrentVersion afterThirdVersion "doc-1" 2 "current-user" "t3").2
      "doc-1" "v1" "current-user").2.map
      (fun d => (d.currentVersion, d.url, d.size,
        (currentVersionOf d).map (fun v => (v.url, v.size))))
      = [(some 2, "blob:v2", 7, some ("blob:v3", some 7))] := by
  refine ⟨by decide, by decide, by decide, by decide⟩

/-- C9: on a document owned by someone else, `checkPermission` with the
required level "superuser", which is none of view/download/edit/admin, returns
true for a user whose stored level is "view" and for a user whose stored level
is the unknown "guest". -/
theorem C9_unknown_required_level_is_granted :
    "superuser" ∉ PERMISSION_LEVELS ∧ "guest" ∉ PERMISSION_LEVELS ∧
    twoVersionDocument.permissions.bind (·.owner) = some "current-user" ∧
    checkPermission [twoVersionDocument] "doc-2" "carol" "superuser" = true ∧
    checkPermission [twoVersionDocument] "doc-2" "dave" "superuser" = true := by
  decide

/-- C3 witness: the owner deletes the current version `w2` of the sample
two-version document. -/
theorem C3_deleteVersion_renumbers_witness :
    getDocumentById [twoVersionDocument] "doc-2" = some twoVersionDocument ∧
    checkPermission [twoVersionDocument] "doc-2" "current-user" "admin" = true ∧
    (deleteVersion [twoVersionDocument] "doc-2" "w2" "current-user").1 = .ok () := by
  refine ⟨by decide, by decide, ?_⟩
  obtain ⟨_, _, _, _, _, _, _, _, h, _⟩ :=
    C3_deleteVersion_renumbers [twoVersionDocument] "doc-2" "w2" "current-user"
      twoVersionDocument (twoVersionDocument.versions.getD []) (by decide) (by decide)
      (by decide) (by decide) (by decide)
  rw [h]

/-- C6 witness: the owner adds a second version to the uploaded sample. -/
theorem C6_createVersion_appends_witness :
    ∃ version, (createVersion afterUpload "doc-1" (some { reportPdf with size := 5 })
        "current-user" "second"
        { id := "v2", url := "blob:v2", createdAt := "t1", updatedAt := "t1" })
      = (.ok version, afterSecondVersion) ∧
    ∃ updated, getDocumentById afterSecondVersion "doc-1" = some updated ∧
      version.number = some 2 ∧ updated.currentVersion = version.number ∧
      updated.url = version.url ∧ some updated.size = version.size := by
  have hrun : createVersion afterUpload "doc-1" (some { reportPdf with size := 5 })
      "current-user" "second"
      { id := "v2", url := "blob:v2", createdAt := "t1", updatedAt := "t1" }
      = (.ok { id := "v2", number := some 2, name := some "report.pdf", size := some 5,
               type := some "application/pdf", url := "blob:v2", comment := some "second",
               createdBy := some "current-user", createdAt := "t1" },
         afterSecondVersion) := by decide
  obtain ⟨document, updated, hdoc, hupd, hnum, _, hcur, hurl, hsize⟩ :=
    (C6_createVersion_appends afterUpload "doc-1" (some { reportPdf with size := 5 })
      "current-user" "second"
      { id := "v2", url := "blob:v2", createdAt := "t1", updatedAt := "t1" }).2 _ _ hrun
  exact ⟨_, hrun, updated, hupd, by decide, hcur, hurl, hsize⟩

/-- C7: `deleteVersion` returns an error result and leaves the stored documents
unchanged whenever `checkPermission(doc, user, admin)` is false, in particular
for a non-owner whose stored level is edit, or the document has at most one
version; and after any sequence of `deleteVersion` calls every document that
had at least one version still has at least one. -/
theorem C7_deleteVersion_refuses (documents : Store) (documentId versionId userId : String) :
    ((checkPermission documents documentId userId "admin" = false ∨
        ∃ document, getDocumentById documents documentId = some document ∧
          (document.versions.getD []).length ≤ 1) →
      ∃ message, deleteVersion documents documentId versionId userId
        = (.error message, documents)) ∧
    (∀ (document : Document) (entry : AccessEntry),
      getDocumentById documents documentId = some document →
      document.permissions.bind (·.owner) ≠ some userId →
      ((document.permissions.bind (·.access)).getD []).find?
        (fun permission => permission.userId == userId) = some entry →
      entry.level = "edit" →
      deleteVersion documents documentId versionId userId
        = (.error "Permission denied. Only admins can delete versions.", documents)) ∧
    (∀ (calls : List (String × String × String)) (i : Nat) (d : Document),
      documents[i]? = some d → 1 ≤ (d.versions.getD []).length →
      ∃ d', (deleteVersions documents calls)[i]? = some d' ∧ d'.id = d.id ∧
        1 ≤ (d'.versions.getD []).length) := by
  refine ⟨deleteVersion_refuses documents documentId versionId userId, ?_, ?_⟩
  · intro document entry hdoc hown hfind hlevel
    have hperm : checkPermission documents documentId userId "admin" = false := by
      simp only [checkPermission, hdoc, hfind, hlevel]
      rw [if_neg hown]
      decide
    simp [deleteVersion, hdoc, hperm]
  · intro calls i d hd hlen
    exact deleteVersions_keeps_versions calls documents i d hd hlen

/-- C7 witness: bob, a non-owner holding edit, cannot delete a version of the
sample two-version document. -/
theorem C7_deleteVersion_refuses_witness :
    checkPermission [twoVersionDocument] "doc-2" "bob" "admin" = false ∧
    deleteVersion [twoVersionDocument] "doc-2" "w1" "bob"
      = (.error "Permission denied. Only admins can delete versions.", [twoVersionDocument]) ∧
    ∃ d', (deleteVersions [twoVersionDocument]
        [("doc-2", "w1", "current-user"), ("doc-2", "w2", "current-user")])[0]? = some d' ∧
      d'.id = "doc-2" ∧ 1 ≤ (d'.versions.getD []).length :=
  ⟨by decide,
   (C7_deleteVersion_refuses [twoVersionDocument] "doc-2" "w1" "bob").2.1 twoVersionDocument
     { userId := "bob", level := "edit" } (by decide) (by decide) (by decide) rfl,
   (C7_deleteVersion_refuses [twoVersionDocument] "doc-2" "w1" "bob").2.2
     [("doc-2", "w1", "current-user"), ("doc-2", "w2", "current-user")] 0 twoVersionDocument
     (by decide) (by decide)⟩

/-- C8 witness: after granting edit to bob on the uploaded sample, a check for
view is true. -/
theorem C8_grant_then_check_witness :
    getDocumentById afterUpload "doc-1" = some uploadedReport ∧
    uploadedReport.permissions.bind (·.owner) ≠ some "bob" ∧
    checkPermission (grantPermission afterUpload "doc-1" "bob" "edit").2 "doc-1" "bob" "view"
      = true :=
  ⟨by decide, by decide,
   (C8_grant_then_check afterUpload "doc-1" "bob" "edit" "view" uploadedReport (by decide)
     (by decide) (by decide) (by decide)).2.mpr (by decide)⟩

/-- C10: for an existing document, `checkPermission(doc, owner, level)` is true
for the stored owner and every required level, known or not, whatever the
access list is: present or missing, with or without an entry for the owner. -/
theorem C10_owner_passes_every_check (documents : Store)
    (documentId owner requiredLevel : String) (document : Document) (permissions : Permissions)
    (hdoc : getDocumentById documents documentId = some document)
    (hperm : document.permissions = some permissions)
    (howner : permissions.owner = some owner) :
    checkPermission documents documentId owner requiredLevel = true := by
  simp [checkPermission, hdoc, hperm, howner]

/-- C10 witness: the owner of the sample document, who also has a view entry in
its access list, passes a check for the unknown level "superuser". -/
theorem C10_owner_passes_every_check_witness :
    getDocumentById [twoVersionDocument] "doc-2" = some twoVersionDocument ∧
    checkPermission [twoVersionDocument] "doc-2" "current-user" "superuser" = true :=
  ⟨by decide,
   C10_owner_passes_every_check [twoVersionDocument] "doc-2" "current-user" "superuser"
     twoVersionDocument
     { owner := some "current-user",
       access := some [{ userId := "current-user", level := "view" },
                       { userId := "bob", level := "edit" },
                       { userId := "carol", level := "view" },
                       { userId := "dave", level := "guest" }] }
     (by decide) (by decide) rfl⟩

/-! ## Lemmas on `revokePermission` -/

theorem revokePermission_store (documents : Store) (documentId u : String) (document : Document)
    (hdoc : getDocumentById documents documentId = some document) :
    ∃ i, findIndex (fun doc => doc.id == documentId) documents = some i ∧
      documents[i]? = some document ∧
      revokePermission documents documentId u =
        if (((document.permissions.bind (·.access)).getD []).filter
            (fun permission => permission.userId != u)).length
            = ((document.permissions.bind (·.access)).getD []).length then
          (.ok (some document), documents)
        else
          (.ok (some { document with
              permissions := some
                { owner := document.permissions.bind (·.owner)
                  access := some (((document.permissions.bind (·.access)).getD []).filter
                    (fun permission => permission.userId != u)) } }),
            documents.set i { document with
              permissions := some
                { owner := document.permissions.bind (·.owner)
                  access := some (((document.permissions.bind (·.access)).getD []).filter
                    (fun permission => permission.userId != u)) } }) := by
  obtain ⟨i, hi, hget, _⟩ := getDocumentById_index documents documentId document hdoc
  refine ⟨i, hi, hget, ?_⟩
  simp only [revokePermission, hi, hget]

theorem checkPermission_no_entry (documents : Store) (documentId u requiredLevel : String)
    (document : Document)
    (hdoc : getDocumentById documents documentId = some document)
    (hnot : document.permissions.bind (·.owner) ≠ some u)
    (hnone : ((document.permissions.bind (·.access)).getD []).find?
      (fun permission => permission.userId == u) = none) :
    checkPermission documents documentId u requiredLevel = false := by
  simp only [checkPermission, hdoc, hnone]
  rw [if_neg hnot]

theorem find_filter_other (u : String) (l : List AccessEntry) :
    (l.filter (fun permission => permission.userId != u)).find?
      (fun permission => permission.userId == u) = none := by
  rw [List.find?_eq_none]
  intro x hx
  rw [List.mem_filter] at hx
  simpa using hx.2

theorem filter_other_of_no_entry (u : String) (l : List AccessEntry)
    (hnone : l.find? (fun permission => permission.userId == u) = none) :
    l.filter (fun permission => permission.userId != u) = l := by
  rw [List.filter_eq_self]
  rw [List.find?_eq_none] at hnone
  intro a ha
  simpa using hnone a ha

/-- C11: for an existing document and a user `u` that is not its owner: if `u`
has no entry in the access list then `checkPermission(doc, u, L)` is false for
every level `L`; after `revokePermission(doc, u)` the stored access list is the
old one without the entries of `u`, the other entries unchanged and in the same
order, and every check for `u` is false; and when `u` had no entry,
`revokePermission` returns the document as stored and leaves the stored
documents unchanged. -/
theorem C11_revoke_and_missing_entry (documents : Store) (documentId u : String)
    (document : Document)
    (hdoc : getDocumentById documents documentId = some document)
    (hnot : document.permissions.bind (·.owner) ≠ some u) :
    (((document.permissions.bind (·.access)).getD []).find?
        (fun permission => permission.userId == u) = none →
      (∀ L, checkPermission documents documentId u L = false) ∧
      revokePermission documents documentId u = (.ok (some document), documents)) ∧
    ∃ updated,
      getDocumentById (revokePermission documents documentId u).2 documentId = some updated ∧
      (revokePermission documents documentId u).1 = .ok (some updated) ∧
      updated.permissions.bind (·.owner) = document.permissions.bind (·.owner) ∧
      (updated.permissions.bind (·.access)).getD [] =
        ((document.permissions.bind (·.access)).getD []).filter
          (fun permission => permission.userId != u) ∧
      ((updated.permissions.bind (·.access)).getD []).find?
        (fun permission => permission.userId == u) = none ∧
      ∀ L, checkPermission (revokePermission documents documentId u).2 documentId u L
        = false := by
  obtain ⟨i, hi, hget, hrev⟩ := revokePermission_store documents documentId u document hdoc
  obtain ⟨_, _, _, hid⟩ := getDocumentById_index documents documentId document hdoc
  constructor
  · intro hnone
    refine ⟨fun L => checkPermission_no_entry documents documentId u L document hdoc hnot hnone,
      ?_⟩
    rw [hrev, filter_other_of_no_entry u _ hnone]
    simp
  · by_cases hlen : (((document.permissions.bind (·.access)).getD []).filter
        (fun permission => permission.userId != u)).length
        = ((document.permissions.bind (·.access)).getD []).length
    · rw [hrev, if_pos hlen]
      have hself := List.filter_length_eq_length.mp hlen
      have hfilter := List.filter_eq_self.mpr hself
      have hnone : ((document.permissions.bind (·.access)).getD []).find?
          (fun permission => permission.userId == u) = none := by
        rw [← hfilter]; exact find_filter_other u _
      exact ⟨document, hdoc, rfl, rfl, hfilter.symm, hnone,
        fun L => checkPermission_no_entry documents documentId u L document hdoc hnot hnone⟩
    · rw [hrev, if_neg hlen]
      have hupd := getDocumentById_set documents documentId i
        { document with
          permissions := some
            { owner := document.permissions.bind (·.owner)
              access := some (((document.permissions.bind (·.access)).getD []).filter
                (fun permission => permission.userId != u)) } } hid hi
      refine ⟨_, hupd, rfl, rfl, rfl, find_filter_other u _, fun L => ?_⟩
      exact checkPermission_no_entry _ documentId u L _ hupd hnot (find_filter_other u _)

/-! ## Lemmas on `grantPermission` -/

theorem updatedPermissions_nil (u L : String) :
    updatedPermissions [] u L = [{ userId := u, level := L }] := by
  simp [updatedPermissions, findIndex]

theorem updatedPermissions_cons (x : AccessEntry) (xs : List AccessEntry) (u L : String) :
    updatedPermissions (x :: xs) u L =
      if x.userId = u then { x with level := L } :: xs
      else x :: updatedPermissions xs u L := by
  by_cases hx : x.userId = u
  · simp [updatedPermissions, findIndex, hx, List.modify]
  · unfold updatedPermissions
    cases hr : findIndex (fun permission : AccessEntry => permission.userId == u) xs with
    | none => simp [findIndex, hx, hr]
    | some j => simp [findIndex, hx, hr, List.modify]

theorem updatedPermissions_others (u L : String) :
    ∀ (l : List AccessEntry),
      (updatedPermissions l u L).filter (fun permission => permission.userId != u)
        = l.filter (fun permission => permission.userId != u)
  | [] => by simp [updatedPermissions_nil]
  | x :: xs => by
    rw [updatedPermissions_cons]
    by_cases hx : x.userId = u
    · simp [hx]
    · simp [hx, List.filter_cons, updatedPermissions_others u L xs]

theorem updatedPermissions_userIds (u L : String) :
    ∀ (l : List AccessEntry),
      (updatedPermissions l u L).map (·.userId) =
        if u ∈ l.map (·.userId) then l.map (·.userId) else l.map (·.userId) ++ [u]
  | [] => by simp [updatedPermissions_nil]
  | x :: xs => by
    rw [updatedPermissions_cons]
    by_cases hx : x.userId = u
    · simp [hx]
    · have hx' : ¬ u = x.userId := fun h => hx h.symm
      simp only [hx, if_false, List.map_cons, updatedPermissions_userIds u L xs,
        List.mem_cons, hx', false_or]
      split <;> simp

theorem updatedPermissions_entry (u L : String) :
    ∀ (l : List AccessEntry), (l.map (·.userId)).Nodup →
      (updatedPermissions l u L).filter (fun permission => permission.userId == u)
        = [{ userId := u, level := L }]
  | [], _ => by simp [updatedPermissions_nil]
  | x :: xs, hnodup => by
    rw [updatedPermissions_cons]
    simp only [List.map_cons, List.nodup_cons] at hnodup
    by_cases hx : x.userId = u
    · have hrest : xs.filter (fun permission => permission.userId == u) = [] := by
        rw [List.filter_eq_nil_iff]
        intro a ha hau
        apply hnodup.1
        rw [hx]
        simp only [beq_iff_eq] at hau
        rw [← hau]
        exact List.mem_map_of_mem _ ha
      cases x
      simp_all
    · simp [hx, List.filter_cons, updatedPermissions_entry u L xs hnodup.2]

theorem updatedPermissions_length (u L : String) (l : List AccessEntry) :
    (updatedPermissions l u L).length =
      if u ∈ l.map (·.userId) then l.length else l.length + 1 := by
  have h := congrArg List.length (updatedPermissions_userIds u L l)
  rw [List.length_map] at h
  rw [h]
  split <;> simp

/-- C12: when the access list of an existing document holds at most one entry
per userId, `grantPermission(doc, u, L)` with `L` one of the four levels stores
an access list with exactly one entry for `u`, of level `L`, with the entries of
the other users unchanged and in the same order, still at most one entry per
userId, and one element longer exactly when `u` had no entry. -/
theorem C12_grant_keeps_one_entry_per_user (documents : Store) (documentId u L : String)
    (document : Document)
    (hdoc : getDocumentById documents documentId = some document)
    (hL : L ∈ PERMISSION_LEVELS)
    (hkeyed : (((document.permissions.bind (·.access)).getD []).map (·.userId)).Nodup) :
    ∃ updated,
      getDocumentById (grantPermission documents documentId u L).2 documentId = some updated ∧
      ((updated.permissions.bind (·.access)).getD []).filter
          (fun permission => permission.userId == u) = [{ userId := u, level := L }] ∧
      ((updated.permissions.bind (·.access)).getD []).filter
          (fun permission => permission.userId != u)
        = ((document.permissions.bind (·.access)).getD []).filter
          (fun permission => permission.userId != u) ∧
      (((updated.permissions.bind (·.access)).getD []).map (·.userId)).Nodup ∧
      ((updated.permissions.bind (·.access)).getD []).length =
        if u ∈ ((document.permissions.bind (·.access)).getD []).map (·.userId) then
          ((document.permissions.bind (·.access)).getD []).length
        else ((document.permissions.bind (·.access)).getD []).length + 1 := by
  obtain ⟨i, hi, hg⟩ := grantPermission_store documents documentId u L document hdoc hL
  obtain ⟨_, _, _, hid⟩ := getDocumentById_index documents documentId document hdoc
  rw [hg]
  refine ⟨_, getDocumentById_set documents documentId i _ ?_ hi, ?_⟩
  · exact hid
  · simp only [Option.some_bind, Option.getD_some]
    refine ⟨updatedPermissions_entry u L _ hkeyed, updatedPermissions_others u L _, ?_,
      updatedPermissions_length u L _⟩
    rw [updatedPermissions_userIds]
    split
    · exact hkeyed
    · rename_i hmem
      rw [List.nodup_append]
      refine ⟨hkeyed, List.nodup_singleton u, ?_⟩
      intro a ha hb
      rw [List.mem_singleton] at hb
      exact hmem (hb ▸ ha)

/-- C12 witness: bob, who holds edit on the sample document, is granted
admin. -/
theorem C12_grant_keeps_one_entry_per_user_witness :
    ∃ updated,
      getDocumentById (grantPermission [twoVersionDocument] "doc-2" "bob" "admin").2 "doc-2"
        = some updated ∧
      ((updated.permissions.bind (·.access)).getD []).filter
          (fun permission => permission.userId == "bob")
        = [{ userId := "bob", level := "admin" }] ∧
      ((updated.permissions.bind (·.access)).getD []).length = 4 := by
  obtain ⟨updated, h1, h2, _, _, h5⟩ :=
    C12_grant_keeps_one_entry_per_user [twoVersionDocument] "doc-2" "bob" "admin"
      twoVersionDocument (by decide) (by decide) (by decide)
  exact ⟨updated, h1, h2, by rw [h5]; decide⟩

/-! ## Lemmas on sequences of access-control calls -/

theorem findIndex_cases (documents : Store) (documentId : String) :
    (findIndex (fun doc => doc.id == documentId) documents = none ∧
      getDocumentById documents documentId = none) ∨
    ∃ i document, findIndex (fun doc => doc.id == documentId) documents = some i ∧
      documents[i]? = some document ∧ getDocumentById documents documentId = some document ∧
      document.id = documentId := by
  cases h : findIndex (fun doc : Document => doc.id == documentId) documents with
  | none => exact Or.inl ⟨rfl, findIndex_none _ documents h⟩
  | some i =>
    obtain ⟨x, hx, hp, hf⟩ := findIndex_some _ documents i h
    exact Or.inr ⟨i, x, rfl, hx, hf, by simpa using hp⟩

theorem mem_of_getElem? {α : Type} (l : List α) (i : Nat) (x : α) (h : l[i]? = some x) :
    x ∈ l := by
  rw [List.getElem?_eq_some] at h
  obtain ⟨hlt, rfl⟩ := h
  exact List.getElem_mem hlt

theorem forall_mem_set {α : Type} (P : α → Prop) (l : List α) (i : Nat) (x : α)
    (hl : ∀ a ∈ l, P a) (hx : P x) : ∀ a ∈ l.set i x, P a := by
  intro a ha
  rcases List.mem_or_eq_of_mem_set ha with h | h
  · exact hl a h
  · rw [h]; exact hx

theorem mem_updatedPermissions (u L : String) (l : List AccessEntry) (entry : AccessEntry)
    (h : entry ∈ updatedPermissions l u L) :
    entry.userId ∈ l.map (·.userId) ∨ entry.userId = u := by
  have hm : entry.userId ∈ (updatedPermissions l u L).map (·.userId) :=
    List.mem_map_of_mem _ h
  rw [updatedPermissions_userIds] at hm
  split at hm
  · exact Or.inl hm
  · rw [List.mem_append, List.mem_singleton] at hm
    exact hm

theorem upload_keeps_owner_out (documents : Store) (file : Option File)
    (metadata : UploadMetadata) (env : UploadEnv)
    (h : ∀ d ∈ documents, OwnerHasNoEntry d) :
    ∀ d ∈ (uploadDocument documents file metadata env).2, OwnerHasNoEntry d := by
  unfold uploadDocument
  simp only
  split
  · exact h
  · split
    · exact h
    · intro d hd
      rw [List.mem_append, List.mem_singleton] at hd
      rcases hd with hd | hd
      · exact h d hd
      · subst hd
        intro entry hentry
        simp at hentry

theorem grant_keeps_owner_out (documents : Store) (documentId u L : String)
    (h : ∀ d ∈ documents, OwnerHasNoEntry d)
    (hspare : AclCall.SparesOwner documents (.grant documentId u L)) :
    ∀ d ∈ (grantPermission documents documentId u L).2, OwnerHasNoEntry d := by
  by_cases hL : L ∈ PERMISSION_LEVELS
  · rcases findIndex_cases documents documentId with ⟨hi, _⟩ | ⟨i, document, hi, hget, hdoc, _⟩
    · simp [grantPermission, hL, hi]
      exact h
    · obtain ⟨i', hi', hg⟩ := grantPermission_store documents documentId u L document hdoc hL
      rw [hg]
      simp only [AclCall.SparesOwner, hdoc, Option.some_bind] at hspare
      apply forall_mem_set _ _ _ _ h
      intro entry hentry
      simp only [Option.some_bind, Option.getD_some] at hentry ⊢
      rcases mem_updatedPermissions u L _ entry hentry with hm | hm
      · rw [List.mem_map] at hm
        obtain ⟨e, he, heq⟩ := hm
        have := h document (mem_of_getElem? documents i document hget) e he
        rw [← heq]
        exact this
      · rw [hm]; exact hspare
  · simp [grantPermission, hL]
    exact h

theorem revoke_keeps_owner_out (documents : Store) (documentId u : String)
    (h : ∀ d ∈ documents, OwnerHasNoEntry d) :
    ∀ d ∈ (revokePermission documents documentId u).2, OwnerHasNoEntry d := by
  rcases findIndex_cases documents documentId with ⟨hi, _⟩ | ⟨i, document, hi, hget, hdoc, _⟩
  · simp [revokePermission, hi]
    exact h
  · obtain ⟨i', hi', _, hr⟩ := revokePermission_store documents documentId u document hdoc
    rw [hr]
    split
    · exact h
    · apply forall_mem_set _ _ _ _ h
      intro entry hentry
      simp only [Option.some_bind, Option.getD_some] at hentry ⊢
      exact h document (mem_of_getElem? documents i document hget) entry
        (List.mem_filter.mp hentry).1

theorem transfer_keeps_owner_out (documents : Store) (documentId cur new : String)
    (h : ∀ d ∈ documents, OwnerHasNoEntry d)
    (hspare : AclCall.SparesOwner documents (.transfer documentId cur new)) :
    ∀ d ∈ (transferOwnership documents documentId cur new).2, OwnerHasNoEntry d := by
  rcases findIndex_cases documents documentId with ⟨hi, _⟩ | ⟨i, document, hi, hget, hdoc, _⟩
  · simp [transferOwnership, hi]
    exact h
  · simp only [AclCall.SparesOwner, hdoc, Option.some_bind] at hspare
    simp only [transferOwnership, hi, hget]
    split
    · exact h
    · apply forall_mem_set _ _ _ _ h
      intro entry hentry
      simp only [Option.some_bind] at hentry ⊢
      intro heq
      apply hspare
      simp only [Option.some.injEq] at heq
      rw [heq]
      exact List.mem_map_of_mem _ hentry

theorem runAclCalls_keeps_owner_out :
    ∀ (calls : List AclCall) (documents : Store),
      (∀ d ∈ documents, OwnerHasNoEntry d) → SpareOwner documents calls →
      ∀ d ∈ runAclCalls documents calls, OwnerHasNoEntry d
  | [], _, h, _ => h
  | call :: calls, documents, h, hspare => by
    obtain ⟨hcall, hrest⟩ := hspare
    apply runAclCalls_keeps_owner_out calls (call.run documents) _ hrest
    cases call with
    | upload file metadata env => exact upload_keeps_owner_out documents file metadata env h
    | grant documentId u L => exact grant_keeps_owner_out documents documentId u L h hcall
    | revoke documentId u => exact revoke_keeps_owner_out documents documentId u h
    | transfer documentId cur new =>
      exact transfer_keeps_owner_out documents documentId cur new h hcall

/-- C13, as stated, fails: after `uploadDocument` and a successful
`grantPermission(doc, 'current-user', 'view')` for the document's owner, the
stored access list holds an entry whose userId is the owner. -/
theorem C13_owner_entry_is_reachable :
    (grantPermission afterUpload "doc-1" "current-user" "view").1.isOk = true ∧
    (runAclCalls [] ownerGrantCalls).map
      (fun d => (d.permissions.bind (·.owner), (d.permissions.bind (·.access)).getD []))
      = [(some "current-user", [{ userId := "current-user", level := "view" }])] ∧
    ¬ ∀ d ∈ runAclCalls [] ownerGrantCalls, OwnerHasNoEntry d := by
  decide

/-- C13, amended: in every state reached from empty storage through
`uploadDocument`, `revokePermission`, `grantPermission` calls whose user is not
the owner of the target document, and `transferOwnership` calls whose new owner
has no entry in the access list of the target document, no document's access
list contains an entry whose userId is that document's owner. -/
theorem C13_owner_kept_out_when_spared (calls : List AclCall)
    (hspare : SpareOwner [] calls) :
    ∀ d ∈ runAclCalls [] calls, OwnerHasNoEntry d :=
  runAclCalls_keeps_owner_out calls [] (fun _ hd => absurd hd (List.not_mem_nil _)) hspare

/-- C13 witness: upload, grant edit to bob, transfer the ownership to carol,
revoke bob. -/
theorem C13_owner_kept_out_when_spared_witness :
    SpareOwner [] sparingCalls ∧
    (runAclCalls [] sparingCalls).map
      (fun d => (d.permissions.bind (·.owner), (d.permissions.bind (·.access)).getD []))
      = [(some "carol", [])] ∧
    ∀ d ∈ runAclCalls [] sparingCalls, OwnerHasNoEntry d :=
  ⟨by decide, by decide, C13_owner_kept_out_when_spared sparingCalls (by decide)⟩

/-! ## Lemmas on `uniqueValues` -/

theorem mem_uniqueValues : ∀ (l : List String) (x : String), x ∈ uniqueValues l ↔ x ∈ l
  | [], x => by simp [uniqueValues]
  | y :: ys, x => by
    simp only [uniqueValues, List.mem_cons, List.mem_filter, mem_uniqueValues ys x]
    by_cases h : x = y
    · simp [h]
    · simp [h]

theorem nodup_uniqueValues : ∀ (l : List String), (uniqueValues l).Nodup
  | [] => by simp [uniqueValues]
  | y :: ys => by
    simp only [uniqueValues, List.nodup_cons, List.mem_filter]
    refine ⟨?_, (nodup_uniqueValues ys).filter _⟩
    simp

theorem uniqueValues_of_nodup : ∀ (l : List String), l.Nodup → uniqueValues l = l
  | [], _ => rfl
  | y :: ys, h => by
    simp only [List.nodup_cons] at h
    simp only [uniqueValues, uniqueValues_of_nodup ys h.2, List.cons.injEq, true_and]
    rw [List.filter_eq_self]
    intro a ha
    have : a ≠ y := fun hay => h.1 (hay ▸ ha)
    simpa using this

theorem filter_uniqueValues (p : String → Bool) :
    ∀ (l : List String), (uniqueValues l).filter p = uniqueValues (l.filter p)
  | [] => rfl
  | y :: ys => by
    by_cases hy : p y = true
    · simp only [uniqueValues, List.filter_cons, hy, if_true, List.cons.injEq, true_and]
      rw [← filter_uniqueValues p ys, List.filter_filter, List.filter_filter]
      congr 1
      funext a
      exact Bool.and_comm _ _
    · simp only [Bool.not_eq_true] at hy
      simp only [uniqueValues, List.filter_cons, hy, Bool.false_eq_true, if_false]
      rw [← filter_uniqueValues p ys, List.filter_filter]
      apply List.filter_congr
      intro a _
      by_cases hay : a = y
      · subst hay; simp [hy]
      · simp [hay]

/-! ## Lemmas on tagging -/

theorem cleanedTags_ne_nil (toLowerCase : String → String) (T : List String)
    (hclean : ∃ t ∈ T, normalizeTag toLowerCase t ≠ "") :
    ((T.map (normalizeTag toLowerCase)).filter (fun tag => tag != "")).length ≠ 0 := by
  obtain ⟨t, ht, hne⟩ := hclean
  have hmem : normalizeTag toLowerCase t ∈
      (T.map (normalizeTag toLowerCase)).filter (fun tag => tag != "") := by
    rw [List.mem_filter]
    exact ⟨List.mem_map_of_mem _ ht, by simpa using hne⟩
  intro h
  rw [List.length_eq_zero] at h
  rw [h] at hmem
  exact absurd hmem (List.not_mem_nil _)

theorem addTags_store (toLowerCase : String → String) (documents : Store)
    (documentId : String) (T : List String) (now : String) (document : Document)
    (hdoc : getDocumentById documents documentId = some document)
    (hlen : T ≠ [])
    (hclean : ∃ t ∈ T, normalizeTag toLowerCase t ≠ "") :
    ∃ i, findIndex (fun doc => doc.id == documentId) documents = some i ∧
      documents[i]? = some document ∧
      addTags toLowerCase documents documentId T now =
        (.ok (some { document with
            metadata := { document.metadata with
              tags := uniqueValues (document.metadata.tags ++
                (T.map (normalizeTag toLowerCase)).filter (fun tag => tag != ""))
              updatedAt := now } }),
          documents.set i { document with
            metadata := { document.metadata with
              tags := uniqueValues (document.metadata.tags ++
                (T.map (normalizeTag toLowerCase)).filter (fun tag => tag != ""))
              updatedAt := now } }) := by
  obtain ⟨i, hi, hget, _⟩ := getDocumentById_index documents documentId document hdoc
  refine ⟨i, hi, hget, ?_⟩
  have h1 : ¬ T.length = 0 := by
    intro h; exact hlen (List.length_eq_zero.mp h)
  have h2 := cleanedTags_ne_nil toLowerCase T hclean
  simp only [addTags, h1, h2, hi, hget, if_false]

theorem removeTags_store (toLowerCase : String → String) (documents : Store)
    (documentId : String) (T : List String) (now : String) (document : Document)
    (hdoc : getDocumentById documents documentId = some document)
    (hlen : T ≠ []) :
    ∃ i, findIndex (fun doc => doc.id == documentId) documents = some i ∧
      documents[i]? = some document ∧
      removeTags toLowerCase documents documentId T now =
        (.ok (some { document with
            metadata := { document.metadata with
              tags := document.metadata.tags.filter
                (fun tag => !(T.map (normalizeTag toLowerCase)).contains tag)
              updatedAt := now } }),
          documents.set i { document with
            metadata := { document.metadata with
              tags := document.metadata.tags.filter
                (fun tag => !(T.map (normalizeTag toLowerCase)).contains tag)
              updatedAt := now } }) := by
  obtain ⟨i, hi, hget, _⟩ := getDocumentById_index documents documentId document hdoc
  refine ⟨i, hi, hget, ?_⟩
  have h1 : ¬ T.length = 0 := by
    intro h; exact hlen (List.length_eq_zero.mp h)
  simp only [removeTags, h1, hi, hget, if_false]

/-- C16: for an existing document with tag list E and an accepted input T (not
empty, with an element that is not blank), `addTags(doc, T)` succeeds and stores
a tag list without duplicates whose elements are exactly those of E together
with the normalized non-empty elements of T; the other documents are unchanged
and this document changes in `metadata.tags` and `metadata.updatedAt` only. -/
theorem C16_addTags_unions (toLowerCase : String → String) (documents : Store)
    (documentId : String) (T : List String) (now : String) (document : Document)
    (hdoc : getDocumentById documents documentId = some document)
    (hlen : T ≠ [])
    (hclean : ∃ t ∈ T, normalizeTag toLowerCase t ≠ "") :
    ∃ i updated,
      documents[i]? = some document ∧
      addTags toLowerCase documents documentId T now
        = (.ok (some updated), documents.set i updated) ∧
      getDocumentById (documents.set i updated) documentId = some updated ∧
      (∀ j, j ≠ i → (documents.set i updated)[j]? = documents[j]?) ∧
      updated.metadata.tags.Nodup ∧
      (∀ t, t ∈ updated.metadata.tags ↔
        t ∈ document.metadata.tags ∨
          (t ≠ "" ∧ ∃ s ∈ T, normalizeTag toLowerCase s = t)) ∧
      updated = { document with
        metadata := { document.metadata with
          tags := updated.metadata.tags, updatedAt := now } } := by
  obtain ⟨i, hi, hget, hadd⟩ :=
    addTags_store toLowerCase documents documentId T now document hdoc hlen hclean
  obtain ⟨_, _, _, hid⟩ := getDocumentById_index documents documentId document hdoc
  refine ⟨i, _, hget, hadd, getDocumentById_set documents documentId i _ ?_ hi, ?_,
    nodup_uniqueValues _, ?_, rfl⟩
  · exact hid
  · intro j hj
    exact List.getElem?_set_ne (Ne.symm hj)
  · intro t
    simp only [mem_uniqueValues, List.mem_append, List.mem_filter, List.mem_map]
    constructor
    · rintro (h | ⟨⟨s, hs, rfl⟩, hne⟩)
      · exact Or.inl h
      · exact Or.inr ⟨by simpa using hne, s, hs, rfl⟩
    · rintro (h | ⟨hne, s, hs, rfl⟩)
      · exact Or.inl h
      · exact Or.inr ⟨⟨s, hs, rfl⟩, by simpa using hne⟩

/-- C14: for an existing document with tag list E and a non-empty list T with a
non-blank element such that no normalized element of T occurs in E, `addTags(doc,
T)` followed by `removeTags(doc, T)` both succeed and leave a tag list with the
same elements as E, equal to E as a list when E has no duplicates. -/
theorem C14_add_then_remove_tags (toLowerCase : String → String) (documents : Store)
    (documentId : String) (T : List String) (now now' : String) (document : Document)
    (hdoc : getDocumentById documents documentId = some document)
    (hlen : T ≠ [])
    (hclean : ∃ t ∈ T, normalizeTag toLowerCase t ≠ "")
    (hfresh : ∀ t ∈ T, normalizeTag toLowerCase t ∉ document.metadata.tags) :
    (addTags toLowerCase documents documentId T now).1.isOk = true ∧
    (removeTags toLowerCase (addTags toLowerCase documents documentId T now).2
      documentId T now').1.isOk = true ∧
    ∃ final,
      getDocumentById
        (removeTags toLowerCase (addTags toLowerCase documents documentId T now).2
          documentId T now').2 documentId = some final ∧
      (∀ t, t ∈ final.metadata.tags ↔ t ∈ document.metadata.tags) ∧
      (document.metadata.tags.Nodup → final.metadata.tags = document.metadata.tags) := by
  obtain ⟨i, hi, hget, hadd⟩ :=
    addTags_store toLowerCase documents documentId T now document hdoc hlen hclean
  obtain ⟨_, _, _, hid⟩ := getDocumentById_index documents documentId document hdoc
  have hdoc1 := getDocumentById_set documents documentId i
    { document with
      metadata := { document.metadata with
        tags := uniqueValues (document.metadata.tags ++
          (T.map (normalizeTag toLowerCase)).filter (fun tag => tag != ""))
        updatedAt := now } } hid hi
  obtain ⟨k, hk, _, hrem⟩ :=
    removeTags_store toLowerCase _ documentId T now' _ hdoc1 hlen
  have htags : (uniqueValues (document.metadata.tags ++
        (T.map (normalizeTag toLowerCase)).filter (fun tag => tag != ""))).filter
        (fun tag => !(T.map (normalizeTag toLowerCase)).contains tag)
      = uniqueValues document.metadata.tags := by
    rw [filter_uniqueValues, List.filter_append]
    have h1 : document.metadata.tags.filter
        (fun tag => !(T.map (normalizeTag toLowerCase)).contains tag)
        = document.metadata.tags := by
      rw [List.filter_eq_self]
      intro a ha
      simp only [Bool.not_eq_true', List.contains_eq_any_beq, List.any_eq_false,
        beq_iff_eq, List.mem_map, forall_exists_index, and_imp,
        forall_apply_eq_imp_iff₂]
      intro s hs heq
      exact hfresh s hs (heq ▸ ha)
    have h2 : ((T.map (normalizeTag toLowerCase)).filter (fun tag => tag != "")).filter
        (fun tag => !(T.map (normalizeTag toLowerCase)).contains tag) = [] := by
      rw [List.filter_eq_nil_iff]
      intro a ha
      have := (List.mem_filter.mp ha).1
      simpa using this
    rw [h1, h2, List.append_nil]
  rw [hadd]
  refine ⟨rfl, by rw [hrem]; rfl, ?_⟩
  rw [hrem]
  refine ⟨_, getDocumentById_set _ documentId k _ ?_ hk, ?_, ?_⟩
  · exact hid
  · intro t
    show t ∈ List.filter _ (uniqueValues _) ↔ _
    rw [htags, mem_uniqueValues]
  · intro hnodup
    show List.filter _ (uniqueValues _) = _
    rw [htags, uniqueValues_of_nodup _ hnodup]

/-! ## Lemmas on sorting by UTF-16 code units -/

theorem codeUnitsLe_refl : ∀ (a : List Nat), codeUnitsLe a a = true
  | [] => rfl
  | x :: xs => by simp [codeUnitsLe, codeUnitsLe_refl xs]

theorem codeUnitsLe_total : ∀ (a b : List Nat), codeUnitsLe a b = true ∨ codeUnitsLe b a = true
  | [], _ => Or.inl rfl
  | _ :: _, [] => Or.inr rfl
  | x :: xs, y :: ys => by
    simp only [codeUnitsLe, Bool.or_eq_true, decide_eq_true_eq, Bool.and_eq_true, beq_iff_eq]
    rcases Nat.lt_trichotomy x y with h | h | h
    · exact Or.inl (Or.inl h)
    · rcases codeUnitsLe_total xs ys with h' | h'
      · exact Or.inl (Or.inr ⟨h, h'⟩)
      · exact Or.inr (Or.inr ⟨h.symm, h'⟩)
    · exact Or.inr (Or.inl h)

theorem codeUnitsLe_trans : ∀ (a b c : List Nat),
    codeUnitsLe a b = true → codeUnitsLe b c = true → codeUnitsLe a c = true
  | [], _, _, _, _ => by simp [codeUnitsLe]
  | _ :: _, [], _, h, _ => by simp [codeUnitsLe] at h
  | _ :: _, _ :: _, [], _, h => by simp [codeUnitsLe] at h
  | x :: xs, y :: ys, z :: zs, h1, h2 => by
    simp only [codeUnitsLe, Bool.or_eq_true, decide_eq_true_eq, Bool.and_eq_true,
      beq_iff_eq] at h1 h2 ⊢
    rcases h1 with h1 | ⟨h1, h1'⟩ <;> rcases h2 with h2 | ⟨h2, h2'⟩
    · exact Or.inl (by omega)
    · exact Or.inl (by omega)
    · exact Or.inl (by omega)
    · exact Or.inr ⟨by omega, codeUnitsLe_trans xs ys zs h1' h2'⟩

theorem codeUnitsLe_antisymm : ∀ (a b : List Nat),
    codeUnitsLe a b = true → codeUnitsLe b a = true → a = b
  | [], [], _, _ => rfl
  | [], _ :: _, _, h => by simp [codeUnitsLe] at h
  | _ :: _, [], h, _ => by simp [codeUnitsLe] at h
  | x :: xs, y :: ys, h1, h2 => by
    simp only [codeUnitsLe, Bool.or_eq_true, decide_eq_true_eq, Bool.and_eq_true,
      beq_iff_eq] at h1 h2
    rcases h1 with h1 | ⟨h1, h1'⟩ <;> rcases h2 with h2 | ⟨h2, h2'⟩
    · omega
    · omega
    · omega
    · rw [h1, codeUnitsLe_antisymm xs ys h1' h2']

theorem insertSorted_perm (x : String) : ∀ (l : List String), (insertSorted x l).Perm (x :: l)
  | [] => List.Perm.refl _
  | y :: ys => by
    simp only [insertSorted]
    split
    · exact List.Perm.refl _
    · exact ((insertSorted_perm x ys).cons y).trans (List.Perm.swap x y ys)

theorem insertSorted_sorted (x : String) :
    ∀ (l : List String),
      l.Pairwise (fun a b => codeUnitsLe (utf16CodeUnits a) (utf16CodeUnits b) = true) →
      (insertSorted x l).Pairwise
        (fun a b => codeUnitsLe (utf16CodeUnits a) (utf16CodeUnits b) = true)
  | [], _ => by simp [insertSorted]
  | y :: ys, h => by
    simp only [insertSorted]
    rw [List.pairwise_cons] at h
    split
    · rename_i hxy
      rw [List.pairwise_cons]
      refine ⟨?_, List.pairwise_cons.mpr h⟩
      intro a ha
      rcases List.mem_cons.mp ha with rfl | ha
      · exact hxy
      · exact codeUnitsLe_trans _ _ _ hxy (h.1 a ha)
    · rename_i hxy
      rw [List.pairwise_cons]
      refine ⟨?_, insertSorted_sorted x ys h.2⟩
      intro a ha
      rcases List.mem_cons.mp ((insertSorted_perm x ys).mem_iff.mp ha) with rfl | ha
      · rcases codeUnitsLe_total (utf16CodeUnits a) (utf16CodeUnits y) with h' | h'
        · exact absurd h' hxy
        · exact h'
      · exact h.1 a ha

theorem sortStrings_perm : ∀ (l : List String), (sortStrings l).Perm l
  | [] => List.Perm.refl _
  | x :: xs => by
    show (insertSorted x (sortStrings xs)).Perm (x :: xs)
    exact (insertSorted_perm x _).trans ((sortStrings_perm xs).cons x)

theorem sortStrings_sorted : ∀ (l : List String),
    (sortStrings l).Pairwise
      (fun a b => codeUnitsLe (utf16CodeUnits a) (utf16CodeUnits b) = true)
  | [] => List.Pairwise.nil
  | x :: xs => by
    show (insertSorted x (sortStrings xs)).Pairwise _
    exact insertSorted_sorted x _ (sortStrings_sorted xs)

theorem char_eq_of_toNat_eq (c d : Char) (h : c.toNat = d.toNat) : c = d := by
  rw [← Char.ofNat_toNat c, ← Char.ofNat_toNat d, h]

theorem char_toNat_valid (c : Char) :
    c.toNat < 0xD800 ∨ (0xDFFF < c.toNat ∧ c.toNat < 0x110000) := c.valid

theorem utf16_chars_injective :
    ∀ (l₁ l₂ : List Char),
      l₁.flatMap (fun c =>
          if c.toNat < 0x10000 then [c.toNat]
          else [0xD800 + (c.toNat - 0x10000) / 0x400, 0xDC00 + (c.toNat - 0x10000) % 0x400])
        = l₂.flatMap (fun c =>
          if c.toNat < 0x10000 then [c.toNat]
          else [0xD800 + (c.toNat - 0x10000) / 0x400, 0xDC00 + (c.toNat - 0x10000) % 0x400]) →
      l₁ = l₂
  | [], [], _ => rfl
  | [], d :: ds, h => by
    simp only [List.flatMap_nil, List.flatMap_cons] at h
    split at h <;> simp at h
  | c :: cs, [], h => by
    simp only [List.flatMap_nil, List.flatMap_cons] at h
    split at h <;> simp at h
  | c :: cs, d :: ds, h => by
    simp only [List.flatMap_cons] at h
    have hc := char_toNat_valid c
    have hd := char_toNat_valid d
    split at h <;> split at h
    · simp only [List.singleton_append, List.cons.injEq] at h
      rw [char_eq_of_toNat_eq c d h.1, utf16_chars_injective cs ds h.2]
    · simp only [List.singleton_append, List.cons_append, List.nil_append,
        List.cons.injEq] at h
      omega
    · simp only [List.singleton_append, List.cons_append, List.nil_append,
        List.cons.injEq] at h
      omega
    · simp only [List.cons_append, List.nil_append, List.cons.injEq] at h
      obtain ⟨h1, h2, h3⟩ := h
      have : c.toNat = d.toNat := by omega
      rw [char_eq_of_toNat_eq c d this, utf16_chars_injective cs ds h3]

theorem utf16CodeUnits_injective (a b : String)
    (h : utf16CodeUnits a = utf16CodeUnits b) : a = b := by
  have := utf16_chars_injective a.data b.data h
  cases a; cases b
  simp_all

theorem foldl_tags (documents : Store) :
    ∀ (acc : List String),
      documents.foldl (fun tags doc => tags ++ doc.metadata.tags) acc
        = acc ++ documents.flatMap (fun doc => doc.metadata.tags) := by
  induction documents with
  | nil => intro acc; simp
  | cons d ds ih =>
    intro acc
    simp only [List.foldl_cons, List.flatMap_cons, ih, List.append_assoc]

/-- C15: for every stored list, `getAllTags` returns a list that is strictly
ascending in the order of `sort()` (each element is below every later one, so
it is sorted and has no duplicates) and whose elements are exactly the strings
that occur in the tags of at least one document. -/
theorem C15_getAllTags_sorted_unique (documents : Store) :
    (getAllTags documents).Pairwise
      (fun a b => codeUnitsLe (utf16CodeUnits a) (utf16CodeUnits b) = true ∧
        codeUnitsLe (utf16CodeUnits b) (utf16CodeUnits a) = false) ∧
    (getAllTags documents).Nodup ∧
    ∀ t, t ∈ getAllTags documents ↔ ∃ d ∈ documents, t ∈ d.metadata.tags := by
  have hperm : (getAllTags documents).Perm
      (uniqueValues (documents.flatMap (fun doc => doc.metadata.tags))) := by
    unfold getAllTags
    simp only [foldl_tags, List.nil_append]
    exact sortStrings_perm _
  have hnodup : (getAllTags documents).Nodup :=
    hperm.nodup_iff.mpr (nodup_uniqueValues _)
  have hsorted : (getAllTags documents).Pairwise
      (fun a b => codeUnitsLe (utf16CodeUnits a) (utf16CodeUnits b) = true) := by
    unfold getAllTags
    exact sortStrings_sorted _
  refine ⟨?_, hnodup, ?_⟩
  · have hboth := hsorted.and hnodup
    refine hboth.imp ?_
    intro a b hab
    refine ⟨hab.1, ?_⟩
    cases hba : codeUnitsLe (utf16CodeUnits b) (utf16CodeUnits a) with
    | false => rfl
    | true =>
      exact absurd (utf16CodeUnits_injective a b (codeUnitsLe_antisymm _ _ hab.1 hba)) hab.2
  · intro t
    rw [hperm.mem_iff, mem_uniqueValues, List.mem_flatMap]

/-- C14 witness: the tags " Draft", a blank and "URGENT" are added to and then
removed from a document tagged "finance" and "q3". -/
theorem C14_add_then_remove_tags_witness :
    (afterTagging.map (·.metadata.tags)) = [["finance", "q3"]] ∧
    ∃ final,
      getDocumentById
        (removeTags asciiToLowerCase
          (addTags asciiToLowerCase afterTagging "doc-1" [" Draft", "  ", "URGENT"] "t2").2
          "doc-1" [" Draft", "  ", "URGENT"] "t3").2 "doc-1" = some final ∧
      final.metadata.tags = ["finance", "q3"] := by
  refine ⟨by decide, ?_⟩
  obtain ⟨_, _, final, hfinal, _, hlist⟩ :=
    C14_add_then_remove_tags asciiToLowerCase afterTagging "doc-1" [" Draft", "  ", "URGENT"]
      "t2" "t3"
      { uploadedReport with
        metadata := { uploadedReport.metadata with
          tags := ["finance", "q3"], updatedAt := "t1" } }
      (by decide) (by decide) (by decide) (by decide)
  exact ⟨final, hfinal, hlist (by decide)⟩

/-- C16 witness: the tags " Draft", a blank, "q3" and "URGENT" are added to a
document tagged "finance" and "q3". -/
theorem C16_addTags_unions_witness :
    ∃ updated,
      (addTags asciiToLowerCase afterTagging "doc-1" [" Draft", "  ", "q3", "URGENT"] "t2").1
        = .ok (some updated) ∧
      updated.metadata.tags = ["finance", "q3", "draft", "urgent"] ∧
      updated.metadata.tags.Nodup := by
  obtain ⟨i, updated, _, hadd, _, _, hnodup, _, _⟩ :=
    C16_addTags_unions asciiToLowerCase afterTagging "doc-1"
      [" Draft", "  ", "q3", "URGENT"] "t2"
      { uploadedReport with
        metadata := { uploadedReport.metadata with
          tags := ["finance", "q3"], updatedAt := "t1" } }
      (by decide) (by decide) (by decide)
  refine ⟨updated, by rw [hadd], ?_, hnodup⟩
  have hrun : (addTags asciiToLowerCase afterTagging "doc-1"
      [" Draft", "  ", "q3", "URGENT"] "t2").1
      = .ok (some { uploadedReport with
        metadata := { uploadedReport.metadata with
          tags := ["finance", "q3", "draft", "urgent"], updatedAt := "t2" } }) := by decide
  rw [hadd] at hrun
  simp only [Result.ok.injEq, Option.some.injEq] at hrun
  rw [hrun]

/-- C17: `setTags(doc, ['Draft', ' draft '])` on the uploaded sample succeeds
and stores the tag list `['draft', 'draft']`, which has a duplicate. -/
theorem C17_setTags_keeps_duplicates :
    (setTags asciiToLowerCase afterUpload "doc-1" ["Draft", " draft "] "t1").1.isOk = true ∧
    (setTags asciiToLowerCase afterUpload "doc-1" ["Draft", " draft "] "t1").2.map
      (·.metadata.tags) = [["draft", "draft"]] ∧
    ¬ ["draft", "draft"].Nodup := by
  decide

/-- C18: `uploadDocument` with the tag "Finance" stores it as given, although
its normalized form is "finance", and `findDocumentsByTag('Finance')` then finds
no document. -/
theorem C18_upload_stores_raw_tags :
    (uploadDocument [] (some reportPdf)
      { title := some "Report", description := none, tags := some ["Finance"] }
      reportEnv).1.isOk = true ∧
    (uploadDocument [] (some reportPdf)
      { title := some "Report", description := none, tags := some ["Finance"] }
      reportEnv).2.map (·.metadata.tags) = [["Finance"]] ∧
    normalizeTag asciiToLowerCase "Finance" = "finance" ∧
    findDocumentsByTag asciiToLowerCase
      (uploadDocument [] (some reportPdf)
        { title := some "Report", description := none, tags := some ["Finance"] }
        reportEnv).2 "Finance" = [] := by
  decide

/-- C19: after `createFolder('Invoices')`, the call `updateFolder(id, {name:
''})` succeeds and stores the empty name, while a name of blanks only is
refused. -/
theorem C19_updateFolder_accepts_empty_name :
    afterInvoices.map (fun f => (f.id, f.name)) = [("f1", "Invoices")] ∧
    (updateFolder afterInvoices "f1" { name := some "", parentId := none } "t1").1.isOk
      = true ∧
    (updateFolder afterInvoices "f1" { name := some "", parentId := none } "t1").2.map
      (fun f => (f.id, f.name)) = [("f1", "")] ∧
    trim "" = "" ∧
    updateFolder afterInvoices "f1" { name := some "  ", parentId := none } "t1"
      = (.thrown "Folder name cannot be empty", afterInvoices) := by
  decide

/-! ## Lemmas on folders -/

theorem getFolderById_index (folders : FolderStore) (folderId : String) (folder : Folder)
    (h : getFolderById folders folderId = some folder) :
    ∃ i, findIndex (fun folder => folder.id == folderId) (getFolders folders) = some i
      ∧ (getFolders folders)[i]? = some folder ∧ folder.id = folderId := by
  obtain ⟨i, hi, hx⟩ := findIndex_of_find _ folders folder h
  obtain ⟨x, hx', hp, _⟩ := findIndex_some _ folders i hi
  rw [hx] at hx'
  cases hx'
  exact ⟨i, hi, hx, by simpa using hp⟩

/-- C20, as stated, fails: on the stored folder "Invoices" the call
`updateFolder(id, {parentId: ''})` succeeds and stores the parentId `''`,
although `''` is not null and is not the id of a stored folder. -/
theorem C20_empty_parentId_is_accepted :
    getFolderById afterInvoices "f1" ≠ none ∧
    getFolderById afterInvoices "" = none ∧
    (updateFolder afterInvoices "f1" { name := none, parentId := some (some "") } "t1").1.isOk
      = true ∧
    (updateFolder afterInvoices "f1" { name := none, parentId := some (some "") } "t1").2.map
      (fun f => (f.id, f.parentId)) = [("f1", some "")] ∧
    (updateFolder afterInvoices "f1" { name := none, parentId := some (some "") } "t1").2
      ≠ afterInvoices := by
  decide

/-- C20, amended: for every stored folder with a non-empty id `f`,
`updateFolder(f, {parentId: f})` throws the validation error "Folder cannot be
its own parent", and `updateFolder(f, {parentId: p})` throws "Parent folder does
not exist" for every non-empty `p` that is not the id of a stored folder; in
both cases the stored folder list is returned unchanged. -/
theorem C20_updateFolder_rejects_bad_parent (folders : FolderStore) (f now : String)
    (folder : Folder)
    (hfolder : getFolderById folders f = some folder) :
    (f ≠ "" →
      updateFolder folders f { name := none, parentId := some (some f) } now
        = (.thrown "Folder cannot be its own parent", folders)) ∧
    (∀ p, p ≠ "" → getFolderById folders p = none →
      updateFolder folders f { name := none, parentId := some (some p) } now
        = (.thrown "Parent folder does not exist", folders)) := by
  obtain ⟨i, hi, hget, _⟩ := getFolderById_index folders f folder hfolder
  constructor
  · intro hf
    simp [updateFolder, hi, hget, truthy, hf]
  · intro p hp hnone
    have hpf : p ≠ f := by
      intro h
      rw [h, hfolder] at hnone
      cases hnone
    simp [updateFolder, hi, hget, truthy, hp, hpf, hnone]

/-- C20 witness: on the stored folder "Invoices" with id `f1`, the parents `f1`
and `f9` are both refused. -/
theorem C20_updateFolder_rejects_bad_parent_witness :
    getFolderById afterInvoices "f1"
      = some { id := "f1", name := "Invoices", parentId := none, createdAt := "t0",
               updatedAt := "t0" } ∧
    updateFolder afterInvoices "f1" { name := none, parentId := some (some "f1") } "t1"
      = (.thrown "Folder cannot be its own parent", afterInvoices) ∧
    updateFolder afterInvoices "f1" { name := none, parentId := some (some "f9") } "t1"
      = (.thrown "Parent folder does not exist", afterInvoices) :=
  ⟨by decide,
   (C20_updateFolder_rejects_bad_parent afterInvoices "f1" "t1"
     { id := "f1", name := "Invoices", parentId := none, createdAt := "t0", updatedAt := "t0" }
     (by decide)).1 (by decide),
   (C20_updateFolder_rejects_bad_parent afterInvoices "f1" "t1"
     { id := "f1", name := "Invoices", parentId := none, createdAt := "t0", updatedAt := "t0" }
     (by decide)).2 "f9" (by decide) (by decide)⟩

/-- C11 witness: on the sample document erin has no entry, so her checks fail
and revoking her changes nothing; revoking bob removes his entry only. -/
theorem C11_revoke_and_missing_entry_witness :
    checkPermission [twoVersionDocument] "doc-2" "erin" "view" = false ∧
    revokePermission [twoVersionDocument] "doc-2" "erin"
      = (.ok (some twoVersionDocument), [twoVersionDocument]) ∧
    ∃ updated,
      getDocumentById (revokePermission [twoVersionDocument] "doc-2" "bob").2 "doc-2"
        = some updated ∧
      (updated.permissions.bind (·.access)).getD []
        = [{ userId := "current-user", level := "view" },
           { userId := "carol", level := "view" },
           { userId := "dave", level := "guest" }] ∧
      checkPermission (revokePermission [twoVersionDocument] "doc-2" "bob").2 "doc-2" "bob"
        "view" = false := by
  have herin := (C11_revoke_and_missing_entry [twoVersionDocument] "doc-2" "erin"
    twoVersionDocument (by decide) (by decide)).1 (by decide)
  obtain ⟨updated, hupd, _, _, haccess, _, hcheck⟩ :=
    (C11_revoke_and_missing_entry [twoVersionDocument] "doc-2" "bob"
      twoVersionDocument (by decide) (by decide)).2
  exact ⟨herin.1 "view", herin.2, updated, hupd, by rw [haccess]; decide, hcheck "view"⟩

/-! ## Lemmas on the folder hierarchy -/

theorem mem_setNode (key : String) (node : FolderNode) :
    ∀ (m : List (String × FolderNode)) (e : String × FolderNode),
      e ∈ setNode key node m → e = (key, node) ∨ e ∈ m
  | [], e, h => by
    simp only [setNode, List.mem_singleton] at h
    exact Or.inl h
  | (k, n) :: rest, e, h => by
    simp only [setNode] at h
    split at h
    · rcases List.mem_cons.mp h with h | h
      · exact Or.inl h
      · exact Or.inr (List.mem_cons_of_mem _ h)
    · rcases List.mem_cons.mp h with h | h
      · exact Or.inr (h ▸ List.mem_cons_self _ _)
      · rcases mem_setNode key node rest e h with h | h
        · exact Or.inl h
        · exact Or.inr (List.mem_cons_of_mem _ h)

theorem foldl_setNode_ids (P : String → Prop) :
    ∀ (l : List Folder) (m : List (String × FolderNode)),
      (∀ folder ∈ l, P folder.id) →
      (∀ e ∈ m, P e.1 ∧ P e.2.folder.id ∧ ∀ c ∈ e.2.children, P c) →
      ∀ e ∈ l.foldl (fun folderMap folder =>
          setNode folder.id { folder := folder, children := [] } folderMap) m,
        P e.1 ∧ P e.2.folder.id ∧ ∀ c ∈ e.2.children, P c
  | [], m, _, hm => hm
  | folder :: rest, m, hl, hm => by
    simp only [List.foldl_cons]
    apply foldl_setNode_ids P rest _ (fun g hg => hl g (List.mem_cons_of_mem _ hg))
    intro e he
    rcases mem_setNode _ _ m e he with h | h
    · subst h
      have := hl folder (List.mem_cons_self _ _)
      exact ⟨this, this, by simp⟩
    · exact hm e h

theorem pushChild_ids (P : String → Prop) (key child : String)
    (m : List (String × FolderNode)) (hchild : P child)
    (hm : ∀ e ∈ m, P e.1 ∧ P e.2.folder.id ∧ ∀ c ∈ e.2.children, P c) :
    ∀ e ∈ pushChild key child m, P e.1 ∧ P e.2.folder.id ∧ ∀ c ∈ e.2.children, P c := by
  intro e he
  simp only [pushChild, List.mem_map] at he
  obtain ⟨e0, he0, rfl⟩ := he
  obtain ⟨h1, h2, h3⟩ := hm e0 he0
  split
  · refine ⟨h1, h2, ?_⟩
    intro c hc
    rcases List.mem_append.mp hc with hc | hc
    · exact h3 c hc
    · rw [List.mem_singleton] at hc
      rw [hc]; exact hchild
  · exact ⟨h1, h2, h3⟩

theorem linkFolders_ids (P : String → Prop) :
    ∀ (l : List Folder) (m : List (String × FolderNode)) (roots : List String)
      (h : FolderHierarchy),
      (∀ folder ∈ l, P folder.id) →
      (∀ e ∈ m, P e.1 ∧ P e.2.folder.id ∧ ∀ c ∈ e.2.children, P c) →
      (∀ r ∈ roots, P r) →
      linkFolders l m roots = .ok h → h.AllIds P
  | [], m, roots, h, _, hm, hroots, hlink => by
    simp only [linkFolders, Result.ok.injEq] at hlink
    subst hlink
    exact ⟨hroots, hm⟩
  | folder :: rest, m, roots, h, hl, hm, hroots, hlink => by
    have hf := hl folder (List.mem_cons_self _ _)
    have hrest : ∀ g ∈ rest, P g.id := fun g hg => hl g (List.mem_cons_of_mem _ hg)
    have hroots' : ∀ r ∈ roots ++ [folder.id], P r := by
      intro r hr
      rcases List.mem_append.mp hr with hr | hr
      · exact hroots r hr
      · rw [List.mem_singleton] at hr
        rw [hr]; exact hf
    simp only [linkFolders] at hlink
    split at hlink
    · split at hlink
      · exact linkFolders_ids P rest _ roots h hrest (pushChild_ids P _ _ m hf hm) hroots hlink
      · split at hlink
        · cases hlink
        · exact linkFolders_ids P rest m _ h hrest hm hroots' hlink
    · exact linkFolders_ids P rest m _ h hrest hm hroots' hlink

theorem getFolderHierarchy_ids (P : String → Prop) (folders : FolderStore)
    (h : FolderHierarchy) (hP : ∀ folder ∈ folders, P folder.id)
    (hh : getFolderHierarchy folders = .ok h) : h.AllIds P := by
  unfold getFolderHierarchy at hh
  exact linkFolders_ids P _ _ [] h hP
    (foldl_setNode_ids P _ [] hP (fun _ he => absurd he (List.not_mem_nil _)))
    (fun _ hr => absurd hr (List.not_mem_nil _)) hh

/-- C21: for a stored folder `f`, `deleteFolder(f)` throws and leaves the
stored folders unchanged (the stored documents are only read) when some folder
has parentId `f` or some document has folderId `f`; otherwise it returns true,
the stored folders become the old list without `f`, the others unchanged and in
the same order, and `f` is no stored folder and occurs nowhere in what
`getFolderHierarchy()` builds. -/
theorem C21_deleteFolder (folders : FolderStore) (documents : Store) (f : String)
    (hstored : ∃ folder ∈ folders, folder.id = f) :
    (((∃ g ∈ folders, g.parentId = some f) ∨ (∃ d ∈ documents, d.folderId = some (some f))) →
      ∃ message, deleteFolder folders documents f = (.thrown message, folders)) ∧
    ((¬ ∃ g ∈ folders, g.parentId = some f) →
      (¬ ∃ d ∈ documents, d.folderId = some (some f)) →
      deleteFolder folders documents f
        = (.ok true, folders.filter (fun folder => folder.id != f)) ∧
      (∀ g ∈ getFolders (deleteFolder folders documents f).2, g.id ≠ f) ∧
      getFolderById (deleteFolder folders documents f).2 f = none ∧
      ∀ h, getFolderHierarchy (deleteFolder folders documents f).2 = .ok h →
        h.AllIds (fun id => id ≠ f)) := by
  have hany : (getFolders folders).any (fun folder => folder.id == f) = true := by
    obtain ⟨folder, hmem, hid⟩ := hstored
    rw [List.any_eq_true]
    exact ⟨folder, hmem, by simpa using hid⟩
  constructor
  · intro hcases
    by_cases hsub : (getFolders folders).any (fun folder => folder.parentId == some f) = true
    · exact ⟨"Cannot delete folder with subfolders", by simp [deleteFolder, hany, hsub]⟩
    · rcases hcases with ⟨g, hg, hp⟩ | ⟨d, hd, hfid⟩
      · exfalso
        apply hsub
        rw [List.any_eq_true]
        exact ⟨g, hg, by simpa using hp⟩
      · have hdoc : documents.any (fun doc => doc.folderId == some (some f)) = true := by
          rw [List.any_eq_true]
          exact ⟨d, hd, by simpa using hfid⟩
        simp only [Bool.not_eq_true] at hsub
        exact ⟨"Cannot delete folder containing documents",
          by simp [deleteFolder, hany, hsub, hdoc]⟩
  · intro hsub hdocs
    have hsub' : (getFolders folders).any (fun folder => folder.parentId == some f) = false := by
      rw [List.any_eq_false]
      intro g hg hp
      exact hsub ⟨g, hg, by simpa using hp⟩
    have hdocs' : documents.any (fun doc => doc.folderId == some (some f)) = false := by
      rw [List.any_eq_false]
      intro d hd hp
      exact hdocs ⟨d, hd, by simpa using hp⟩
    have hdel : deleteFolder folders documents f
        = (.ok true, folders.filter (fun folder => folder.id != f)) := by
      unfold deleteFolder
      rw [hany, hsub', hdocs']
      rfl
    have hgone : ∀ g ∈ folders.filter (fun folder => folder.id != f), g.id ≠ f := by
      intro g hg
      simpa using (List.mem_filter.mp hg).2
    rw [hdel]
    refine ⟨rfl, hgone, ?_, ?_⟩
    · simp only [getFolderById, getFolders]
      rw [List.find?_eq_none]
      intro g hg
      simpa using hgone g hg
    · intro h hh
      exact getFolderHierarchy_ids _ _ h hgone hh

/-- C21 witness: of the folders "A" and "B inside A", deleting "A" throws and
deleting "B" removes it. -/
theorem C21_deleteFolder_witness :
    deleteFolder nestedFolders afterUpload "a"
      = (.thrown "Cannot delete folder with subfolders", nestedFolders) ∧
    (deleteFolder nestedFolders afterUpload "b").1 = .ok true ∧
    (deleteFolder nestedFolders afterUpload "b").2.map (·.id) = ["a"] ∧
    getFolderHierarchy (deleteFolder nestedFolders afterUpload "b").2
      = .ok { rootFolders := ["a"],
              folderMap := [("a", { folder := { id := "a", name := "A", parentId := none,
                                                createdAt := "t0", updatedAt := "t0" },
                                    children := [] })] } := by
  have hb := (C21_deleteFolder nestedFolders afterUpload "b" (by decide)).2
    (by decide) (by decide)
  obtain ⟨message, ha⟩ := (C21_deleteFolder nestedFolders afterUpload "a" (by decide)).1
    (Or.inl (by decide))
  refine ⟨by decide, by rw [hb.1], by decide, by decide⟩

/-- C22: after `createFolder('A')`, `createFolder('B', a)` and the successful
`updateFolder(a, {parentId: b})`, the two stored folders have distinct ids, but
`getFolderHierarchy()` returns an empty array of roots: the two nodes are only
children of each other, so neither stored folder is a root or a descendant of a
root. -/
theorem C22_hierarchy_drops_cyclic_folders :
    cyclicFolders.map (fun folder => (folder.id, folder.parentId))
      = [("a", some "b"), ("b", some "a")] ∧
    getFolderHierarchy cyclicFolders
      = .ok { rootFolders := [],
              folderMap :=
                [("a", { folder := { id := "a", name := "A", parentId := some "b",
                                     createdAt := "t0", updatedAt := "t2" },
                         children := ["b"] }),
                 ("b", { folder := { id := "b", name := "B", parentId := some "a",
                                     createdAt := "t1", updatedAt := "t1" },
                         children := ["a"] })] } := by
  decide

/-- C23: the calls `createFolder('A')`, `createFolder('B', a)` and
`updateFolder(a, {parentId: b})` all succeed, and afterwards each of the two
stored folders has the other as parentId. -/
theorem C23_parent_cycle_is_reachable :
    createFolder [] "A" none { id := "a", createdAt := "t0", updatedAt := "t0" }
      = (.ok { id := "a", name := "A", parentId := none, createdAt := "t0", updatedAt := "t0" },
         [{ id := "a", name := "A", parentId := none, createdAt := "t0", updatedAt := "t0" }]) ∧
    createFolder
        [{ id := "a", name := "A", parentId := none, createdAt := "t0", updatedAt := "t0" }]
        "B" (some "a") { id := "b", createdAt := "t1", updatedAt := "t1" }
      = (.ok { id := "b", name := "B", parentId := some "a", createdAt := "t1",
               updatedAt := "t1" }, nestedFolders) ∧
    updateFolder nestedFolders "a" { name := none, parentId := some (some "b") } "t2"
      = (.ok (some { id := "a", name := "A", parentId := some "b", createdAt := "t0",
                     updatedAt := "t2" }), cyclicFolders) ∧
    cyclicFolders.map (fun folder => (folder.id, folder.parentId))
      = [("a", some "b"), ("b", some "a")] := by
  decide

/-! ## Lemmas on `moveDocumentsToFolder` -/

theorem moveEach_getElem? (documentIds : List String) (folderId : Option String)
    (now : Nat → String) :
    ∀ (l : List Document) (k i : Nat),
      (moveEach documentIds folderId now k l)[i]? =
        l[i]?.map (fun doc =>
          if documentIds.contains doc.id then
            { doc with
              folderId := some folderId
              metadata := { doc.metadata with updatedAt := now (k + i) } }
          else doc)
  | [], _, _ => by simp [moveEach]
  | d :: ds, k, 0 => by simp [moveEach]
  | d :: ds, k, i + 1 => by
    simp only [moveEach, List.getElem?_cons_succ, moveEach_getElem? documentIds folderId now ds
      (k + 1) i]
    have : k + 1 + i = k + (i + 1) := by omega
    rw [this]

theorem moveEach_length (documentIds : List String) (folderId : Option String)
    (now : Nat → String) :
    ∀ (l : List Document) (k : Nat), (moveEach documentIds folderId now k l).length = l.length
  | [], _ => rfl
  | _ :: ds, k => by simp [moveEach, moveEach_length documentIds folderId now ds (k + 1)]

theorem moveDocumentsToFolder_accepted (folders : FolderStore) (documents : Store)
    (D : List String) (F : Option String) (now : Nat → String)
    (hF : F = none ∨ ∃ p, F = some p ∧ getFolderById folders p ≠ none) :
    moveDocumentsToFolder folders documents D F now =
      if documents.any (fun doc => D.contains doc.id) then
        (.ok true, moveEach D F now 0 documents)
      else (.ok false, documents) := by
  have hcond : ¬ (truthy F = true ∧ (F.bind (getFolderById folders)).isNone = true) := by
    rcases hF with rfl | ⟨p, rfl, hp⟩
    · simp [truthy]
    · rintro ⟨_, h⟩
      simp only [Option.some_bind, Option.isNone_iff_eq_none] at h
      exact hp h
  simp only [moveDocumentsToFolder, if_neg hcond]

/-- C24: with the destination `''`, which is not null and is not the id of a
stored folder, `moveDocumentsToFolder(['doc-1'], '')` does not fail: it returns
true and writes the folderId `''`, so the stored list changes. -/
theorem C24_empty_destination_is_accepted :
    getFolderById nestedFolders "" = none ∧
    (moveDocumentsToFolder nestedFolders afterUpload ["doc-1"] (some "") (fun _ => "t5")).1
      = .ok true ∧
    (moveDocumentsToFolder nestedFolders afterUpload ["doc-1"] (some "") (fun _ => "t5")).2.map
      (fun d => (d.id, d.folderId)) = [("doc-1", some (some ""))] ∧
    (moveDocumentsToFolder nestedFolders afterUpload ["doc-1"] (some "") (fun _ => "t5")).2
      ≠ afterUpload := by
  decide

/-- Frame of `moveDocumentsToFolder`: for every list of ids `D` and every
destination `F` that is
null or the id of a stored folder, `moveDocumentsToFolder(D, F)` returns true
exactly when some stored document's id is in `D`, and false otherwise;
afterwards every stored document whose id is in `D` has folderId `F` and a new
`metadata.updatedAt` and is otherwise unchanged, every other document is
unchanged, and when false is returned storage is unchanged.  For a non-empty
`F` that is not the id of a stored folder the call throws without writing. -/
theorem moveDocumentsToFolder_frame (folders : FolderStore) (documents : Store)
    (D : List String) (F : Option String) (now : Nat → String) :
    ((F = none ∨ ∃ p, F = some p ∧ getFolderById folders p ≠ none) →
      ((moveDocumentsToFolder folders documents D F now).1 = .ok true ↔
        ∃ d ∈ documents, d.id ∈ D) ∧
      ((moveDocumentsToFolder folders documents D F now).1 = .ok true ∨
        (moveDocumentsToFolder folders documents D F now).1 = .ok false) ∧
      ((moveDocumentsToFolder folders documents D F now).1 = .ok false →
        (moveDocumentsToFolder folders documents D F now).2 = documents) ∧
      (moveDocumentsToFolder folders documents D F now).2.length = documents.length ∧
      ∀ (i : Nat) (d : Document), documents[i]? = some d →
        (d.id ∈ D →
          (moveDocumentsToFolder folders documents D F now).2[i]? =
            some { d with
              folderId := some F
              metadata := { d.metadata with updatedAt := now i } }) ∧
        (d.id ∉ D → (moveDocumentsToFolder folders documents D F now).2[i]? = some d)) ∧
    (∀ p, F = some p → p ≠ "" → getFolderById folders p = none →
      moveDocumentsToFolder folders documents D F now
        = (.thrown "Destination folder does not exist", documents)) := by
  constructor
  · intro hF
    rw [moveDocumentsToFolder_accepted folders documents D F now hF]
    by_cases hany : documents.any (fun doc => D.contains doc.id) = true
    · rw [if_pos hany]
      have hex : ∃ d ∈ documents, d.id ∈ D := by
        rw [List.any_eq_true] at hany
        obtain ⟨d, hd, hc⟩ := hany
        exact ⟨d, hd, by simpa using hc⟩
      refine ⟨⟨fun _ => hex, fun _ => rfl⟩, Or.inl rfl, ?_, moveEach_length D F now documents 0,
        ?_⟩
      · intro h; simp at h
      · intro i d hd
        simp only [moveEach_getElem?, hd, Option.map_some', Nat.zero_add]
        constructor
        · intro hmem
          have : D.contains d.id = true := by simpa using hmem
          rw [if_pos this]
        · intro hmem
          have : ¬ D.contains d.id = true := by simpa using hmem
          rw [if_neg this]
    · rw [if_neg hany]
      simp only [Bool.not_eq_true] at hany
      refine ⟨⟨fun h => by simp at h, ?_⟩, Or.inr rfl, fun _ => rfl, rfl, ?_⟩
      · rintro ⟨d, hd, hmem⟩
        rw [List.any_eq_false] at hany
        exact absurd (by simpa using hmem) (hany d hd)
      · intro i d hd
        constructor
        · intro hmem
          rw [List.any_eq_false] at hany
          have hin : d ∈ documents := by
            rw [List.getElem?_eq_some] at hd
            obtain ⟨hlt, rfl⟩ := hd
            exact List.getElem_mem hlt
          exact absurd (by simpa using hmem) (hany d hin)
        · intro _; exact hd
  · intro p hp hne hnone
    subst hp
    simp [moveDocumentsToFolder, truthy, hne, hnone]

/-- Example of the frame: the uploaded sample is moved into the stored folder
`b`, and a move into the unknown folder `q` throws. -/
theorem moveDocumentsToFolder_frame_example :
    getFolderById nestedFolders "b" ≠ none ∧
    (moveDocumentsToFolder nestedFolders afterUpload ["doc-1", "zz"] (some "b")
      (fun _ => "t5")).1 = .ok true ∧
    (moveDocumentsToFolder nestedFolders afterUpload ["doc-1", "zz"] (some "b")
      (fun _ => "t5")).2[0]? =
      some { uploadedReport with
        folderId := some (some "b")
        metadata := { uploadedReport.metadata with updatedAt := "t5" } } ∧
    moveDocumentsToFolder nestedFolders afterUpload ["doc-1"] (some "q") (fun _ => "t5")
      = (.thrown "Destination folder does not exist", afterUpload) := by
  have h := (moveDocumentsToFolder_frame nestedFolders afterUpload ["doc-1", "zz"] (some "b")
    (fun _ => "t5")).1 (Or.inr ⟨"b", rfl, by decide⟩)
  have hq := (moveDocumentsToFolder_frame nestedFolders afterUpload ["doc-1"] (some "q")
    (fun _ => "t5")).2 "q" rfl (by decide) (by decide)
  exact ⟨by decide, h.1.mpr ⟨uploadedReport, by decide, by decide⟩,
    (h.2.2.2.2 0 uploadedReport (by decide)).1 (by decide), hq⟩

/-! ## Lemmas on annotations -/

theorem half_eq : half = 1 / 2 := by
  rw [Rat.eq_iff_mul_eq_mul]
  norm_num [half]

theorem orElseOne_pos (pageNumber : Option Rat)
    (h : ∀ n, pageNumber = some n → n = 0 ∨ 1 ≤ n) : 1 ≤ orElseOne pageNumber := by
  cases pageNumber with
  | none => simp [orElseOne]
  | some n =>
    simp only [orElseOne]
    split
    · exact le_refl 1
    · rename_i hne
      exact (h n rfl).resolve_left hne

theorem mem_of_mem_set {α : Type} (l : List α) (i : Nat) (x a : α) (h : a ∈ l.set i x) :
    a ∈ l ∨ a = x := List.mem_or_eq_of_mem_set h

theorem add_keeps_valid (documents : Store) (documentId : String)
    ( annotation : AnnotationInput) (userId : String) (env : AnnotationEnv)
    (hvalid : AnnotationsValid documents)
    (hadm : ∀ n, annotation.pageNumber = some n → n = 0 ∨ 1 ≤ n) :
    AnnotationsValid ( addAnnotation documents documentId annotation userId env).2 := by
  unfold addAnnotation
  split
  · exact hvalid
  · split
    · exact hvalid
    · split
      · exact hvalid
      · rename_i type
        split
        · exact hvalid
        · rename_i htype
          split
          · exact hvalid
          · split
            · exact hvalid
            · rename_i stored hstored
              apply forall_mem_set _ _ _ _ hvalid
              intro ann hann
              simp only [Option.getD_some, List.mem_append, List.mem_singleton] at hann
              rcases hann with hann | hann
              · exact hvalid stored (mem_of_getElem? documents _ stored hstored) ann hann
              · subst hann
                exact ⟨by simpa using htype, orElseOne_pos _ hadm⟩

theorem update_keeps_valid (documents : Store) (documentId annotationId : String)
    (updates : AnnotationUpdates) (userId now : String)
    (hvalid : AnnotationsValid documents)
    (htype : ∀ type, updates.type = some type → type ∈ ANNOTATION_TYPES)
    (hpage : ∀ n, updates.pageNumber = some n → 1 ≤ n) :
    AnnotationsValid
      ( updateAnnotation documents documentId annotationId updates userId now).2 := by
  unfold updateAnnotation
  split
  · exact hvalid
  · split
    · exact hvalid
    · split
      · exact hvalid
      · split
        · exact hvalid
        · rename_i stored hstored
          simp only
          split
          · exact hvalid
          · split
            · exact hvalid
            · rename_i existing hexisting
              split
              · exact hvalid
              · apply forall_mem_set _ _ _ _ hvalid
                intro ann hann
                simp only [Option.getD_some] at hann
                have hstoredValid := hvalid stored (mem_of_getElem? documents _ stored hstored)
                rcases mem_of_mem_set _ _ _ _ hann with hann | hann
                · exact hstoredValid ann hann
                · subst hann
                  have hex := hstoredValid existing (mem_of_getElem? _ _ existing hexisting)
                  refine ⟨?_, ?_⟩
                  · cases ht : updates.type with
                    | none => simpa using hex.1
                    | some type => simpa using htype type ht
                  cases hp : updates.pageNumber with
                  | none => simpa using hex.2
                  | some n => simpa using hpage n hp

theorem delete_keeps_valid (documents : Store) (documentId annotationId userId : String)
    (hvalid : AnnotationsValid documents) :
    AnnotationsValid ( deleteAnnotation documents documentId annotationId userId).2 := by
  unfold deleteAnnotation
  split
  · exact hvalid
  · split
    · exact hvalid
    · split
      · exact hvalid
      · split
        · exact hvalid
        · rename_i stored hstored
          simp only
          split
          · exact hvalid
          · split
            · exact hvalid
            · split
              · exact hvalid
              · apply forall_mem_set _ _ _ _ hvalid
                intro ann hann
                simp only [Option.getD_some] at hann
                exact hvalid stored (mem_of_getElem? documents _ stored hstored) ann
                  (List.mem_of_mem_eraseIdx hann)

theorem runAnnotationCalls_keeps_valid :
    ∀ (calls : List AnnotationCall) (documents : Store),
      AnnotationsValid documents → (∀ call ∈ calls, call.Admissible) →
      AnnotationsValid (runAnnotationCalls documents calls)
  | [], _, h, _ => h
  | call :: calls, documents, h, hadm => by
    apply runAnnotationCalls_keeps_valid calls (call.run documents) _
      (fun c hc => hadm c (List.mem_cons_of_mem _ hc))
    have hcall := hadm call (List.mem_cons_self _ _)
    cases call with
    | add documentId annotation userId env =>
      exact add_keeps_valid documents documentId annotation userId env h hcall
    | update documentId annotationId updates userId now =>
      exact update_keeps_valid documents documentId annotationId updates userId now h
        hcall.1 hcall.2
    | delete documentId annotationId userId =>
      exact delete_keeps_valid documents documentId annotationId userId h

theorem addAnnotation_success (documents : Store) (documentId : String)
    ( annotation : AnnotationInput) (userId : String) (env : AnnotationEnv)
    (document : Document) (type : String)
    (hdoc : getDocumentById documents documentId = some document)
    (hperm : checkPermission documents documentId userId "edit" = true)
    (htype : annotation.type = some type)
    (hknown : type ∈ ANNOTATION_TYPES) :
    ∃ i, findIndex (fun doc => doc.id == documentId) documents = some i ∧
      addAnnotation documents documentId annotation userId env =
        (.ok { id := env.id
               documentId := documentId
               pageNumber := orElseOne annotation.pageNumber
               type := type
               position := annotation.position.getD { x := 0, y := 0 }
               content := orElseString annotation.content ""
               style := annotation.style.getD []
               createdBy := userId
               createdAt := env.createdAt
               updatedAt := env.updatedAt },
          documents.set i
            { document with
              annotations := some (document.annotations.getD [] ++
                [{ id := env.id
                   documentId := documentId
                   pageNumber := orElseOne annotation.pageNumber
                   type := type
                   position := annotation.position.getD { x := 0, y := 0 }
                   content := orElseString annotation.content ""
                   style := annotation.style.getD []
                   createdBy := userId
                   createdAt := env.createdAt
                   updatedAt := env.updatedAt }]) }) := by
  obtain ⟨i, hi, hget, _⟩ := getDocumentById_index documents documentId document hdoc
  refine ⟨i, hi, ?_⟩
  simp [ addAnnotation, hdoc, hperm, htype, hknown, hi, hget]

theorem addAnnotation_ok_inv (documents : Store) (documentId : String)
    ( annotation : AnnotationInput) (userId : String) (env : AnnotationEnv)
    (ann : Annotation) (documents' : Store)
    (h : addAnnotation documents documentId annotation userId env = (.ok ann, documents')) :
    ∃ document type, getDocumentById documents documentId = some document ∧
      checkPermission documents documentId userId "edit" = true ∧
      annotation.type = some type ∧ type ∈ ANNOTATION_TYPES := by
  cases hdoc : getDocumentById documents documentId with
  | none => simp [ addAnnotation, hdoc] at h
  | some document =>
    cases hperm : checkPermission documents documentId userId "edit" with
    | false => simp [ addAnnotation, hdoc, hperm] at h
    | true =>
      cases htype : annotation.type with
      | none => simp [ addAnnotation, hdoc, hperm, htype] at h
      | some type =>
        by_cases hknown : type ∈ ANNOTATION_TYPES
        · exact ⟨document, type, rfl, rfl, rfl, hknown⟩
        · simp [ addAnnotation, hdoc, hperm, htype, hknown] at h

theorem addAnnotation_rejects (documents : Store) (documentId : String)
    ( annotation : AnnotationInput) (userId : String) (env : AnnotationEnv)
    (hbad : ∀ type, annotation.type = some type → type ∉ ANNOTATION_TYPES) :
    ∃ message, addAnnotation documents documentId annotation userId env
      = (.error message, documents) := by
  cases hdoc : getDocumentById documents documentId with
  | none => exact ⟨"Document not found", by simp [ addAnnotation, hdoc]⟩
  | some document =>
    cases hperm : checkPermission documents documentId userId "edit" with
    | false => exact ⟨"Permission denied", by simp [ addAnnotation, hdoc, hperm]⟩
    | true =>
      cases htype : annotation.type with
      | none => exact ⟨"Invalid annotation type", by simp [ addAnnotation, hdoc, hperm, htype]⟩
      | some type =>
        have := hbad type htype
        exact ⟨"Invalid annotation type", by simp [ addAnnotation, hdoc, hperm, htype, this]⟩

/-- C25: `updateAnnotation` called by the author with `type: 'bogus'` succeeds
and stores the annotation with the type `'bogus'`, which is none of the six
`ANNOTATION_TYPES` values and which `addAnnotation` refuses with 'Invalid
annotation type'; and `addAnnotation` with the page number -2, or 1/2, succeeds
and stores that page number, which is below 1. -/
theorem C25_update_stores_unknown_type :
    getAnnotations afterComment "doc-1" = .ok [sampleComment] ∧
    "bogus" ∉ ANNOTATION_TYPES ∧
    updateAnnotation afterComment "doc-1" "n1" { noUpdates with type := some "bogus" }
      "current-user" "t2"
      = (.ok { sampleComment with type := "bogus", updatedAt := "t2" },
         [{ uploadedReport with
            annotations := some [{ sampleComment with type := "bogus", updatedAt := "t2" }] }]) ∧
    ¬ AnnotationsValid
      (runAnnotationCalls afterComment
        [.update "doc-1" "n1" { noUpdates with type := some "bogus" } "current-user" "t2"]) ∧
    addAnnotation afterComment "doc-1"
      { type := some "bogus", pageNumber := none, position := none, content := none,
        style := none }
      "current-user" { id := "n2", createdAt := "t2", updatedAt := "t2" }
      = (.error "Invalid annotation type", afterComment) ∧
    ( addAnnotation afterUpload "doc-1"
      { type := some "comment", pageNumber := some (-2), position := none,
        content := some "check", style := none }
      "current-user" { id := "n1", createdAt := "t1", updatedAt := "t1" }).2.map
      (fun d => (d.annotations.getD []).map (·.pageNumber)) = [[-2]] ∧
    ( addAnnotation afterUpload "doc-1"
      { type := some "comment", pageNumber := some half, position := none,
        content := some "check", style := none }
      "current-user" { id := "n1", createdAt := "t1", updatedAt := "t1" }).2.map
      (fun d => (d.annotations.getD []).map (·.pageNumber)) = [[half]] ∧
    half < 1 ∧
    ¬ AnnotationsValid
      (runAnnotationCalls afterUpload
        [.add "doc-1"
          { type := some "comment", pageNumber := some (-2), position := none,
            content := some "check", style := none }
          "current-user" { id := "n1", createdAt := "t1", updatedAt := "t1" }]) := by
  decide

/-- What the annotation calls keep: from stored documents whose annotations all
have a type among the six `ANNOTATION_TYPES` values and a pageNumber >= 1, the
same holds after every sequence of `deleteAnnotation` calls, `addAnnotation`
calls whose page number is omitted, 0 or >= 1, and `updateAnnotation` calls
whose updates have a type that is omitted or among the six and a page number
that is omitted or >= 1; `addAnnotation` returns an error result and writes
nothing for a type that is missing or not among the six; and when it succeeds it
appends the annotation, with pageNumber 1 when the page number is omitted and
position {x: 0, y: 0} when the position is omitted. -/
theorem annotations_stay_valid (documents : Store) :
    (∀ calls : List AnnotationCall, AnnotationsValid documents →
      (∀ call ∈ calls, call.Admissible) →
      AnnotationsValid (runAnnotationCalls documents calls)) ∧
    (∀ (documentId : String) ( annotation : AnnotationInput) (userId : String)
        (env : AnnotationEnv),
      (∀ type, annotation.type = some type → type ∉ ANNOTATION_TYPES) →
      ∃ message, addAnnotation documents documentId annotation userId env
        = (.error message, documents)) ∧
    (∀ (documentId : String) ( annotation : AnnotationInput) (userId : String)
        (env : AnnotationEnv) (ann : Annotation) (documents' : Store),
      addAnnotation documents documentId annotation userId env = (.ok ann, documents') →
      some ann.type = annotation.type ∧ ann.type ∈ ANNOTATION_TYPES ∧
      ( annotation.pageNumber = none → ann.pageNumber = 1) ∧
      ( annotation.position = none → ann.position = { x := 0, y := 0 }) ∧
      ∃ document updated,
        getDocumentById documents documentId = some document ∧
        getDocumentById documents' documentId = some updated ∧
        updated.annotations = some (document.annotations.getD [] ++ [ann])) := by
  refine ⟨fun calls hvalid hadm => runAnnotationCalls_keeps_valid calls documents hvalid hadm,
    fun documentId annotation userId env hbad =>
      addAnnotation_rejects documents documentId annotation userId env hbad, ?_⟩
  intro documentId annotation userId env ann documents' h
  obtain ⟨document, type, hdoc, hperm, htype, hknown⟩ :=
    addAnnotation_ok_inv documents documentId annotation userId env ann documents' h
  obtain ⟨i, hi, hadd⟩ := addAnnotation_success documents documentId annotation userId env
    document type hdoc hperm htype hknown
  obtain ⟨_, _, _, hid⟩ := getDocumentById_index documents documentId document hdoc
  rw [hadd] at h
  simp only [Prod.mk.injEq, Result.ok.injEq] at h
  obtain ⟨hann, hstore⟩ := h
  subst hann hstore
  refine ⟨htype.symm, hknown, ?_, ?_, document, _, hdoc,
    getDocumentById_set documents documentId i _ ?_ hi, rfl⟩
  · intro hnone
    simp [hnone, orElseOne]
  · intro hnone
    simp [hnone]
  · exact hid

/-- Example of what the annotation calls keep: a comment is added without page
and position, its type, content and page are updated, and a highlight is added
with page 0. -/
theorem annotations_stay_valid_example :
    AnnotationsValid afterUpload ∧
    (∀ call ∈ admissibleCalls, call.Admissible) ∧
    (runAnnotationCalls afterUpload admissibleCalls).map
      (fun d => (d.annotations.getD []).map (fun a => (a.id, a.type, a.pageNumber)))
      = [[("n1", "underline", 3), ("n2", "highlight", 1)]] ∧
    AnnotationsValid (runAnnotationCalls afterUpload admissibleCalls) := by
  have hadm : ∀ call ∈ admissibleCalls, call.Admissible := by
    intro call hcall
    simp only [admissibleCalls, List.mem_cons, List.mem_singleton, List.not_mem_nil,
      or_false] at hcall
    rcases hcall with rfl | rfl | rfl
    · intro n hn; cases hn
    · refine ⟨?_, ?_⟩
      · intro type ht
        simp only [noUpdates, Option.some.injEq] at ht
        subst ht
        decide
      · intro n hn
        simp only [noUpdates, Option.some.injEq] at hn
        subst hn
        norm_num
    · intro n hn
      simp only [Option.some.injEq] at hn
      exact Or.inl hn.symm
  exact ⟨by decide, hadm, by decide,
    (annotations_stay_valid afterUpload).1 admissibleCalls (by decide) hadm⟩

theorem annotation_index (annotations : List Annotation) (annotationId : String)
    (a : Annotation)
    (h : annotations.find? (fun ann => ann.id == annotationId) = some a) :
    ∃ k, findIndex (fun ann => ann.id == annotationId) annotations = some k ∧
      annotations[k]? = some a ∧ a.id = annotationId := by
  obtain ⟨k, hk, hx⟩ := findIndex_of_find _ annotations a h
  obtain ⟨x, hx', hp, _⟩ := findIndex_some _ annotations k hk
  rw [hx] at hx'
  cases hx'
  exact ⟨k, hk, hx, by simpa using hp⟩

/-- C26: let `a` be the stored annotation of an existing document under the id
`annotationId`.  For every user `u` other than `a.createdBy`, whatever the
permissions of `u`, `updateAnnotation` returns an error result and leaves the
stored documents unchanged; the author's update succeeds when the author has
edit permission; and every successful update is the author's and stores an
annotation with the same id, createdBy and createdAt as `a` and the documentId
of the call (that of `a` when `a` carries its document's id), whatever keys
`updates` has. -/
theorem C26_updateAnnotation_author_only (documents : Store)
    (documentId annotationId : String) (updates : AnnotationUpdates) (u now : String)
    (document : Document) (a : Annotation)
    (hdoc : getDocumentById documents documentId = some document)
    (hann : (document.annotations.getD []).find? (fun ann => ann.id == annotationId)
      = some a) :
    (u ≠ a.createdBy →
      ∃ message, updateAnnotation documents documentId annotationId updates u now
        = (.error message, documents)) ∧
    (u = a.createdBy → checkPermission documents documentId u "edit" = true →
      ( updateAnnotation documents documentId annotationId updates u now).1.isOk = true) ∧
    (∀ (updated : Annotation) (documents' : Store),
      updateAnnotation documents documentId annotationId updates u now
        = (.ok updated, documents') →
      u = a.createdBy ∧ updated.id = a.id ∧ updated.documentId = documentId ∧
      (a.documentId = documentId → updated.documentId = a.documentId) ∧
      updated.createdBy = a.createdBy ∧ updated.createdAt = a.createdAt ∧
      ∃ k stored,
        (document.annotations.getD [])[k]? = some a ∧
        getDocumentById documents' documentId = some stored ∧
        stored.annotations = some ((document.annotations.getD []).set k updated)) := by
  obtain ⟨i, hi, hget, hid⟩ := getDocumentById_index documents documentId document hdoc
  obtain ⟨k, hk, hak, haid⟩ := annotation_index _ annotationId a hann
  refine ⟨?_, ?_, ?_⟩
  · intro hne
    cases hperm : checkPermission documents documentId u "edit" with
    | false => exact ⟨"Permission denied", by simp [ updateAnnotation, hdoc, hperm]⟩
    | true =>
      exact ⟨"You can only edit your own annotations",
        by simp [ updateAnnotation, hdoc, hperm, hi, hget, hk, hak, Ne.symm hne]⟩
  · intro heq hperm
    subst heq
    simp [ updateAnnotation, hdoc, hperm, hi, hget, hk, hak, Result.isOk]
  · intro updated documents' h
    cases hperm : checkPermission documents documentId u "edit" with
    | false => simp [ updateAnnotation, hdoc, hperm] at h
    | true =>
      by_cases hauthor : a.createdBy = u
      · simp only [ updateAnnotation, hdoc, hperm, hi, hget, hk, hak, hauthor,
          Bool.not_true, Bool.false_eq_true, if_false, ne_eq, not_true_eq_false,
          Prod.mk.injEq, Result.ok.injEq] at h
        obtain ⟨hupd, hstore⟩ := h
        subst hupd hstore
        refine ⟨hauthor.symm, haid.symm, rfl, fun h => h.symm, hauthor.symm, rfl, k, _, hak,
          getDocumentById_set documents documentId i _ ?_ hi, rfl⟩
        exact hid
      · simp [ updateAnnotation, hdoc, hperm, hi, hget, hk, hak, hauthor] at h

/-- C26 witness: the owner of the document cannot update bob's note, and bob
can, keeping its id and author although the updates name other ones. -/
theorem C26_updateAnnotation_author_only_witness :
    afterBobNote = [notedReport] ∧
    (∃ message,
      updateAnnotation afterBobNote "doc-1" "n7" { noUpdates with content := some "x" }
        "current-user" "t5" = (.error message, afterBobNote)) ∧
    ( updateAnnotation afterBobNote "doc-1" "n7"
      { noUpdates with id := some "n9", createdBy := some "eve", content := some "x" }
      "bob" "t5").1 = .ok { bobNote with content := "x", updatedAt := "t5" } :=
  ⟨by decide,
   (C26_updateAnnotation_author_only afterBobNote "doc-1" "n7"
     { noUpdates with content := some "x" } "current-user" "t5" notedReport bobNote
     (by decide) (by decide)).1 (by decide),
   by decide⟩

/-- C27: let `a` be the stored annotation of an existing document under the id
`annotationId`.  For a user `u` with `checkPermission(doc, u, edit)` true,
`deleteAnnotation` succeeds exactly when `u` is `a.createdBy` or the document's
owner, and then the stored annotations are the old ones without `a`, the others
unchanged and in the same order; a user without edit permission gets
'Permission denied' and the stored documents are unchanged. -/
theorem C27_deleteAnnotation_author_or_owner (documents : Store)
    (documentId annotationId u : String) (document : Document) (a : Annotation)
    (hdoc : getDocumentById documents documentId = some document)
    (hann : (document.annotations.getD []).find? (fun ann => ann.id == annotationId)
      = some a) :
    (checkPermission documents documentId u "edit" = true →
      (( deleteAnnotation documents documentId annotationId u).1 = .ok () ↔
        (u = a.createdBy ∨ document.permissions.bind (·.owner) = some u)) ∧
      (( deleteAnnotation documents documentId annotationId u).1 ≠ .ok () →
        deleteAnnotation documents documentId annotationId u
          = (.error "You can only delete your own annotations", documents)) ∧
      (( deleteAnnotation documents documentId annotationId u).1 = .ok () →
        ∃ k stored,
          findIndex (fun ann => ann.id == annotationId) (document.annotations.getD [])
            = some k ∧
          (document.annotations.getD [])[k]? = some a ∧
          getDocumentById ( deleteAnnotation documents documentId annotationId u).2 documentId
            = some stored ∧
          stored = { document with
            annotations := some ((document.annotations.getD []).eraseIdx k) })) ∧
    (checkPermission documents documentId u "edit" = false →
      deleteAnnotation documents documentId annotationId u
        = (.error "Permission denied", documents)) := by
  obtain ⟨i, hi, hget, hid⟩ := getDocumentById_index documents documentId document hdoc
  obtain ⟨k, hk, hak, _⟩ := annotation_index _ annotationId a hann
  constructor
  · intro hperm
    by_cases hallowed : u = a.createdBy ∨ document.permissions.bind (·.owner) = some u
    · have hcond : ¬ (a.createdBy ≠ u ∧ document.permissions.bind (·.owner) ≠ some u) := by
        rintro ⟨h1, h2⟩
        rcases hallowed with h | h
        · exact h1 h.symm
        · exact h2 h
      have hdel : deleteAnnotation documents documentId annotationId u
          = (.ok (), documents.set i
              { document with
                annotations := some ((document.annotations.getD []).eraseIdx k) }) := by
        simp only [ deleteAnnotation, hdoc, hperm, hi, hget, hk, hak, if_neg hcond,
          Bool.not_true, Bool.false_eq_true, if_false]
      rw [hdel]
      refine ⟨⟨fun _ => hallowed, fun _ => rfl⟩, fun h => absurd rfl h, fun _ => ?_⟩
      exact ⟨k, _, hk, hak, getDocumentById_set documents documentId i _ hid hi, rfl⟩
    · have hcond : a.createdBy ≠ u ∧ document.permissions.bind (·.owner) ≠ some u := by
        constructor
        · intro h; exact hallowed (Or.inl h.symm)
        · intro h; exact hallowed (Or.inr h)
      have hdel : deleteAnnotation documents documentId annotationId u
          = (.error "You can only delete your own annotations", documents) := by
        simp only [ deleteAnnotation, hdoc, hperm, hi, hget, hk, hak, if_pos hcond,
          Bool.not_true, Bool.false_eq_true, if_false]
      rw [hdel]
      refine ⟨⟨fun h => by simp at h, fun h => absurd h hallowed⟩, fun _ => rfl,
        fun h => by simp at h⟩
  · intro hperm
    simp [ deleteAnnotation, hdoc, hperm]

/-- C27 witness: on bob's note, the owner may delete, carol (edit, neither
author nor owner) may not, and bob himself is refused once his permission is
revoked. -/
theorem C27_deleteAnnotation_author_or_owner_witness :
    checkPermission afterBobNote "doc-1" "current-user" "edit" = true ∧
    ( deleteAnnotation afterBobNote "doc-1" "n7" "current-user").1 = .ok () ∧
    ( deleteAnnotation afterBobNote "doc-1" "n7" "current-user").2.map
      (fun d => d.annotations) = [some []] ∧
    deleteAnnotation afterBobNote "doc-1" "n7" "carol"
      = (.error "You can only delete your own annotations", afterBobNote) ∧
    deleteAnnotation (revokePermission afterBobNote "doc-1" "bob").2 "doc-1" "n7" "bob"
      = (.error "Permission denied", (revokePermission afterBobNote "doc-1" "bob").2) :=
  ⟨by decide,
   ((C27_deleteAnnotation_author_or_owner afterBobNote "doc-1" "n7" "current-user"
     notedReport bobNote (by decide) (by decide)).1 (by decide)).1.mpr (Or.inr (by decide)),
   by decide,
   ((C27_deleteAnnotation_author_or_owner afterBobNote "doc-1" "n7" "carol"
     notedReport bobNote (by decide) (by decide)).1 (by decide)).2.1 (by decide),
   (C27_deleteAnnotation_author_or_owner (revokePermission afterBobNote "doc-1" "bob").2
     "doc-1" "n7" "bob"
     { notedReport with
       permissions := some
         { owner := some "current-user",
           access := some [{ userId := "carol", level := "edit" }] } }
     bobNote (by decide) (by decide)).2 (by decide)⟩

/-! ## Lemmas on failed calls -/

theorem grantPermission_atomic (documents : Store) (documentId userId level : String)
    (h : (grantPermission documents documentId userId level).1.failed Option.isNone = true) :
    (grantPermission documents documentId userId level).2 = documents := by
  revert h
  simp only [grantPermission]
  repeat' split
  all_goals simp [Result.failed, noNull]

theorem revokePermission_atomic (documents : Store) (documentId userId : String)
    (h : (revokePermission documents documentId userId).1.failed Option.isNone = true) :
    (revokePermission documents documentId userId).2 = documents := by
  revert h
  simp only [revokePermission]
  repeat' split
  all_goals simp [Result.failed, noNull]

theorem transferOwnership_atomic (documents : Store) (documentId cur new : String)
    (h : (transferOwnership documents documentId cur new).1.failed Option.isNone = true) :
    (transferOwnership documents documentId cur new).2 = documents := by
  revert h
  simp only [transferOwnership]
  repeat' split
  all_goals simp [Result.failed, noNull]

theorem addTags_atomic (toLowerCase : String → String) (documents : Store)
    (documentId : String) (tags : List String) (now : String)
    (h : (addTags toLowerCase documents documentId tags now).1.failed Option.isNone = true) :
    (addTags toLowerCase documents documentId tags now).2 = documents := by
  revert h
  simp only [addTags]
  repeat' split
  all_goals simp [Result.failed, noNull]

theorem removeTags_atomic (toLowerCase : String → String) (documents : Store)
    (documentId : String) (tags : List String) (now : String)
    (h : (removeTags toLowerCase documents documentId tags now).1.failed Option.isNone
      = true) :
    (removeTags toLowerCase documents documentId tags now).2 = documents := by
  revert h
  simp only [removeTags]
  repeat' split
  all_goals simp [Result.failed, noNull]

theorem setTags_atomic (toLowerCase : String → String) (documents : Store)
    (documentId : String) (tags : List String) (now : String)
    (h : (setTags toLowerCase documents documentId tags now).1.failed Option.isNone = true) :
    (setTags toLowerCase documents documentId tags now).2 = documents := by
  revert h
  simp only [setTags]
  repeat' split
  all_goals simp [Result.failed, noNull]

theorem createVersion_atomic (documents : Store) (documentId : String) (file : Option File)
    (userId comment : String) (env : VersionEnv)
    (h : (createVersion documents documentId file userId comment env).1.failed noNull = true) :
    (createVersion documents documentId file userId comment env).2 = documents := by
  revert h
  simp only [createVersion]
  repeat' split
  all_goals simp [Result.failed, noNull]

theorem setCurrentVersion_atomic (documents : Store) (documentId : String) (n : Nat)
    (userId now : String)
    (h : (setCurrentVersion documents documentId n userId now).1.failed noNull = true) :
    (setCurrentVersion documents documentId n userId now).2 = documents := by
  revert h
  simp only [setCurrentVersion]
  repeat' split
  all_goals simp [Result.failed, noNull]

theorem deleteVersion_atomic (documents : Store) (documentId versionId userId : String)
    (h : (deleteVersion documents documentId versionId userId).1.failed noNull = true) :
    (deleteVersion documents documentId versionId userId).2 = documents := by
  revert h
  simp only [deleteVersion]
  repeat' split
  all_goals simp [Result.failed, noNull]

theorem createFolder_atomic (folders : FolderStore) (name : String) (parentId : Option String)
    (env : FolderEnv)
    (h : (createFolder folders name parentId env).1.failed noNull = true) :
    (createFolder folders name parentId env).2 = folders := by
  revert h
  simp only [createFolder]
  repeat' split
  all_goals simp [Result.failed, noNull]

theorem updateFolder_atomic (folders : FolderStore) (folderId : String)
    (updates : FolderUpdates) (now : String)
    (h : (updateFolder folders folderId updates now).1.failed Option.isNone = true) :
    (updateFolder folders folderId updates now).2 = folders := by
  revert h
  simp only [updateFolder]
  repeat' split
  all_goals simp [Result.failed, noNull]

theorem deleteFolder_atomic (folders : FolderStore) (documents : Store) (folderId : String)
    (h : (deleteFolder folders documents folderId).1.failed (fun b => !b) = true) :
    (deleteFolder folders documents folderId).2 = folders := by
  revert h
  simp only [deleteFolder]
  repeat' split
  all_goals simp [Result.failed, noNull]

theorem moveDocumentsToFolder_atomic (folders : FolderStore) (documents : Store)
    (documentIds : List String) (folderId : Option String) (now : Nat → String)
    (h : (moveDocumentsToFolder folders documents documentIds folderId now).1.failed
      (fun b => !b) = true) :
    (moveDocumentsToFolder folders documents documentIds folderId now).2 = documents := by
  revert h
  simp only [moveDocumentsToFolder]
  repeat' split
  all_goals simp [Result.failed, noNull]

theorem addAnnotation_atomic (documents : Store) (documentId : String)
    ( annotation : AnnotationInput) (userId : String) (env : AnnotationEnv)
    (h : ( addAnnotation documents documentId annotation userId env).1.failed noNull = true) :
    ( addAnnotation documents documentId annotation userId env).2 = documents := by
  revert h
  simp only [ addAnnotation]
  repeat' split
  all_goals simp [Result.failed, noNull]

theorem updateAnnotation_atomic (documents : Store) (documentId annotationId : String)
    (updates : AnnotationUpdates) (userId now : String)
    (h : ( updateAnnotation documents documentId annotationId updates userId now).1.failed
      noNull = true) :
    ( updateAnnotation documents documentId annotationId updates userId now).2 = documents := by
  revert h
  simp only [ updateAnnotation]
  repeat' split
  all_goals simp [Result.failed, noNull]

theorem deleteAnnotation_atomic (documents : Store) (documentId annotationId userId : String)
    (h : ( deleteAnnotation documents documentId annotationId userId).1.failed noNull = true) :
    ( deleteAnnotation documents documentId annotationId userId).2 = documents := by
  revert h
  simp only [ deleteAnnotation]
  repeat' split
  all_goals simp [Result.failed, noNull]

/-- C28: whenever one of the sixteen writing operations throws, returns an
error result, or returns null or false, the stored collection it writes is
exactly what it was before the call (each operation writes one of the two
collections and only reads the other). -/
theorem C28_failure_atomicity (toLowerCase : String → String) (documents : Store)
    (folders : FolderStore) :
    (∀ documentId userId level,
      (grantPermission documents documentId userId level).1.failed Option.isNone = true →
      (grantPermission documents documentId userId level).2 = documents) ∧
    (∀ documentId userId,
      (revokePermission documents documentId userId).1.failed Option.isNone = true →
      (revokePermission documents documentId userId).2 = documents) ∧
    (∀ documentId currentOwnerId newOwnerId,
      (transferOwnership documents documentId currentOwnerId newOwnerId).1.failed
        Option.isNone = true →
      (transferOwnership documents documentId currentOwnerId newOwnerId).2 = documents) ∧
    (∀ documentId tags now,
      (addTags toLowerCase documents documentId tags now).1.failed Option.isNone = true →
      (addTags toLowerCase documents documentId tags now).2 = documents) ∧
    (∀ documentId tags now,
      (removeTags toLowerCase documents documentId tags now).1.failed Option.isNone = true →
      (removeTags toLowerCase documents documentId tags now).2 = documents) ∧
    (∀ documentId tags now,
      (setTags toLowerCase documents documentId tags now).1.failed Option.isNone = true →
      (setTags toLowerCase documents documentId tags now).2 = documents) ∧
    (∀ documentId file userId comment env,
      (createVersion documents documentId file userId comment env).1.failed noNull = true →
      (createVersion documents documentId file userId comment env).2 = documents) ∧
    (∀ documentId versionNumber userId now,
      (setCurrentVersion documents documentId versionNumber userId now).1.failed noNull
        = true →
      (setCurrentVersion documents documentId versionNumber userId now).2 = documents) ∧
    (∀ documentId versionId userId,
      (deleteVersion documents documentId versionId userId).1.failed noNull = true →
      (deleteVersion documents documentId versionId userId).2 = documents) ∧
    (∀ name parentId env,
      (createFolder folders name parentId env).1.failed noNull = true →
      (createFolder folders name parentId env).2 = folders) ∧
    (∀ folderId updates now,
      (updateFolder folders folderId updates now).1.failed Option.isNone = true →
      (updateFolder folders folderId updates now).2 = folders) ∧
    (∀ folderId,
      (deleteFolder folders documents folderId).1.failed (fun b => !b) = true →
      (deleteFolder folders documents folderId).2 = folders) ∧
    (∀ documentIds folderId now,
      (moveDocumentsToFolder folders documents documentIds folderId now).1.failed
        (fun b => !b) = true →
      (moveDocumentsToFolder folders documents documentIds folderId now).2 = documents) ∧
    (∀ documentId annotation userId env,
      ( addAnnotation documents documentId annotation userId env).1.failed noNull = true →
      ( addAnnotation documents documentId annotation userId env).2 = documents) ∧
    (∀ documentId annotationId updates userId now,
      ( updateAnnotation documents documentId annotationId updates userId now).1.failed noNull
        = true →
      ( updateAnnotation documents documentId annotationId updates userId now).2
        = documents) ∧
    (∀ documentId annotationId userId,
      ( deleteAnnotation documents documentId annotationId userId).1.failed noNull = true →
      ( deleteAnnotation documents documentId annotationId userId).2 = documents) :=
  ⟨fun a b c => grantPermission_atomic documents a b c,
   fun a b => revokePermission_atomic documents a b,
   fun a b c => transferOwnership_atomic documents a b c,
   fun a b c => addTags_atomic toLowerCase documents a b c,
   fun a b c => removeTags_atomic toLowerCase documents a b c,
   fun a b c => setTags_atomic toLowerCase documents a b c,
   fun a b c d e => createVersion_atomic documents a b c d e,
   fun a b c d => setCurrentVersion_atomic documents a b c d,
   fun a b c => deleteVersion_atomic documents a b c,
   fun a b c => createFolder_atomic folders a b c,
   fun a b c => updateFolder_atomic folders a b c,
   fun a => deleteFolder_atomic folders documents a,
   fun a b c => moveDocumentsToFolder_atomic folders documents a b c,
   fun a b c d => addAnnotation_atomic documents a b c d,
   fun a b c d e => updateAnnotation_atomic documents a b c d e,
   fun a b c => deleteAnnotation_atomic documents a b c⟩

/-- C28 witness: a transfer by someone who is not the owner returns null, an
update that makes a folder its own parent throws, and both leave storage as it
was. -/
theorem C28_failure_atomicity_witness :
    (transferOwnership afterBobNote "doc-1" "bob" "carol").1 = .ok none ∧
    (transferOwnership afterBobNote "doc-1" "bob" "carol").2 = afterBobNote ∧
    (updateFolder nestedFolders "a" { name := none, parentId := some (some "a") } "t3").1
      = .thrown "Folder cannot be its own parent" ∧
    (updateFolder nestedFolders "a" { name := none, parentId := some (some "a") } "t3").2
      = nestedFolders :=
  ⟨by decide,
   (C28_failure_atomicity asciiToLowerCase afterBobNote nestedFolders).2.2.1
     "doc-1" "bob" "carol" (by decide),
   by decide,
   (C28_failure_atomicity asciiToLowerCase afterBobNote nestedFolders).2.2.2.2.2.2.2.2.2.2.1
     "a" { name := none, parentId := some (some "a") } "t3" (by decide)⟩

/-- C29: a file whose type is "constructor", which is none of the 13 supported
types, is accepted by `validateFile` whatever its size, because the lookup in
`SUPPORTED_FILE_TYPES` finds the member inherited from `Object.prototype`; and
`getMaxFileSize('constructor')` is `undefined`, not `null`.  A PDF of exactly
the limit is accepted and one byte more is refused. -/
theorem C29_inherited_type_is_accepted :
    "constructor" ∉ SUPPORTED_FILE_TYPES.map (·.1) ∧
    validateFile (some { name := "notes.txt", type := "constructor",
                         size := 3000000000, lastModified := 0 })
      = { valid := true, message := "File is valid" } ∧
    getMaxFileSize "constructor" = .undefined ∧
    getMaxFileSize "application/pdf" = .bytes 10485760 ∧
    (validateFile (some { reportPdf with size := 10485760 })).valid = true ∧
    (validateFile (some { reportPdf with size := 10485761 })).valid = false := by
  decide

/-! ## Lemmas on stored permissions -/

theorem havePermissions_set (documents : Store) (i : Nat) (stored updated : Document)
    (h : HavePermissions documents) (hstored : documents[i]? = some stored)
    (hkeep : updated.permissions = stored.permissions ∨ updated.permissions ≠ none) :
    HavePermissions (documents.set i updated) := by
  apply forall_mem_set _ _ _ _ h
  rcases hkeep with hk | hk
  · rw [hk]; exact h stored (mem_of_getElem? documents i stored hstored)
  · exact hk

theorem moveEach_keeps_permissions (documentIds : List String) (folderId : Option String)
    (now : Nat → String) :
    ∀ (documents : Store) (k : Nat), HavePermissions documents →
      HavePermissions (moveEach documentIds folderId now k documents)
  | [], _, _ => by intro d hd; simp [moveEach] at hd
  | doc :: docs, k, h => by
    intro d hd
    simp only [moveEach, List.mem_cons] at hd
    rcases hd with hd | hd
    · have := h doc (List.mem_cons_self _ _)
      subst hd
      split <;> exact this
    · exact moveEach_keeps_permissions documentIds folderId now docs (k + 1)
        (fun a ha => h a (List.mem_cons_of_mem _ ha)) d hd

theorem aclCall_keeps_permissions (documents : Store) (call : AclCall)
    (h : HavePermissions documents) : HavePermissions (call.run documents) := by
  cases call with
  | upload file metadata env =>
    simp only [AclCall.run, uploadDocument]
    repeat' split
    all_goals first
      | exact h
      | (intro d hd
         simp only [List.mem_append, List.mem_singleton] at hd
         rcases hd with hd | hd
         · exact h d hd
         · subst hd; simp)
  | grant documentId userId permissionLevel =>
    simp only [AclCall.run, grantPermission]
    repeat' split
    all_goals first
      | exact h
      | (apply havePermissions_set _ _ _ _ h (by assumption); exact Or.inr (by simp))
  | revoke documentId userId =>
    simp only [AclCall.run, revokePermission]
    repeat' split
    all_goals first
      | exact h
      | (apply havePermissions_set _ _ _ _ h (by assumption); exact Or.inr (by simp))
  | transfer documentId currentOwnerId newOwnerId =>
    simp only [AclCall.run, transferOwnership]
    repeat' split
    all_goals first
      | exact h
      | (apply havePermissions_set _ _ _ _ h (by assumption); exact Or.inr (by simp))

theorem annotationCall_keeps_permissions (documents : Store) (call : AnnotationCall)
    (h : HavePermissions documents) : HavePermissions (call.run documents) := by
  cases call with
  | add documentId a userId env =>
    simp only [AnnotationCall.run, addAnnotation]
    repeat' split
    all_goals first
      | exact h
      | (apply havePermissions_set _ _ _ _ h (by assumption); exact Or.inl rfl)
  | update documentId annotationId updates userId now =>
    simp only [AnnotationCall.run, updateAnnotation]
    repeat' split
    all_goals first
      | exact h
      | (apply havePermissions_set _ _ _ _ h (by assumption); exact Or.inl rfl)
  | delete documentId annotationId userId =>
    simp only [AnnotationCall.run, deleteAnnotation]
    repeat' split
    all_goals first
      | exact h
      | (apply havePermissions_set _ _ _ _ h (by assumption); exact Or.inl rfl)

theorem documentCall_keeps_permissions (documents : Store) (call : DocumentCall)
    (h : HavePermissions documents) : HavePermissions (call.run documents) := by
  cases call with
  | acl call => exact aclCall_keeps_permissions documents call h
  | annotate call => exact annotationCall_keeps_permissions documents call h
  | delete documentId =>
    simp only [DocumentCall.run, deleteDocument]
    split
    · exact h
    · exact fun d hd => h d (List.mem_of_mem_filter hd)
  | move folders documentIds folderId now =>
    simp only [DocumentCall.run, moveDocumentsToFolder]
    repeat' split
    all_goals first
      | exact h
      | exact moveEach_keeps_permissions documentIds folderId now documents 0 h
  | updateMetadata toLowerCase documentId metadata userId now =>
    simp only [DocumentCall.run, updateDocumentMetadata]
    repeat' split
    all_goals first
      | exact h
      | (apply havePermissions_set _ _ _ _ h (by assumption); exact Or.inl rfl)
  | createVersion documentId file userId comment env =>
    simp only [DocumentCall.run, ERP.createVersion]
    repeat' split
    all_goals first
      | exact h
      | (apply havePermissions_set _ _ _ _ h (by assumption); exact Or.inl rfl)
  | setCurrentVersion documentId versionNumber userId now =>
    simp only [DocumentCall.run, ERP.setCurrentVersion]
    repeat' split
    all_goals first
      | exact h
      | (apply havePermissions_set _ _ _ _ h (by assumption); exact Or.inl rfl)
  | deleteVersion documentId versionId userId =>
    simp only [DocumentCall.run, ERP.deleteVersion]
    repeat' split
    all_goals first
      | exact h
      | (apply havePermissions_set _ _ _ _ h (by assumption); exact Or.inl rfl)
  | addTags toLowerCase documentId tags now =>
    simp only [DocumentCall.run, ERP.addTags]
    repeat' split
    all_goals first
      | exact h
      | (apply havePermissions_set _ _ _ _ h (by assumption); exact Or.inl rfl)
  | removeTags toLowerCase documentId tags now =>
    simp only [DocumentCall.run, ERP.removeTags]
    repeat' split
    all_goals first
      | exact h
      | (apply havePermissions_set _ _ _ _ h (by assumption); exact Or.inl rfl)
  | setTags toLowerCase documentId tags now =>
    simp only [DocumentCall.run, ERP.setTags]
    repeat' split
    all_goals first
      | exact h
      | (apply havePermissions_set _ _ _ _ h (by assumption); exact Or.inl rfl)

theorem runDocumentCalls_keep_permissions :
    ∀ (calls : List DocumentCall) (documents : Store), HavePermissions documents →
      HavePermissions (runDocumentCalls documents calls)
  | [], _, h => h
  | call :: calls, documents, h =>
    runDocumentCalls_keep_permissions calls (call.run documents)
      (documentCall_keeps_permissions documents call h)

/-- Every document that a sequence of calls of the library stores, starting from
the empty storage, has a `permissions` object: `uploadDocument` writes one and
every other writer keeps it. -/
theorem stored_documents_have_permissions (calls : List DocumentCall) :
    ∀ d ∈ runDocumentCalls [] calls, ∃ permissions, d.permissions = some permissions := by
  intro d hd
  have h := runDocumentCalls_keep_permissions calls [] (fun a ha => by cases ha) d hd
  cases hp : d.permissions with
  | none => exact absurd hp h
  | some permissions => exact ⟨permissions, rfl⟩

/-! ## Lemmas on the two edit checks -/

theorem rank_ge_edit (level : String) :
    (permissionHierarchy level).ge (permissionHierarchy "edit")
      = ["edit", "admin"].contains level := by
  have hedit : permissionHierarchy "edit" = .num 3 := by decide
  rw [hedit]
  unfold permissionHierarchy
  by_cases h1 : level = "admin"
  · subst h1; decide
  · by_cases h2 : level = "edit"
    · subst h2; decide
    · by_cases h3 : level = "download"
      · subst h3; decide
      · by_cases h4 : level = "view"
        · subst h4; decide
        · simp only [h1, h2, h3, h4, if_false]
          have hc : ["edit", "admin"].contains level = false := by
            simp [h1, h2]
          rw [hc]
          cases objectPrototypeText level <;> simp [Rank.ge]

theorem any_eq_first_entry (u : String) (p : String → Bool) :
    ∀ (l : List AccessEntry), (l.map (·.userId)).Nodup →
      l.any (fun access => access.userId == u && p access.level) =
        match l.find? (fun permission => permission.userId == u) with
        | none => false
        | some entry => p entry.level
  | [], _ => rfl
  | x :: xs, hnodup => by
    simp only [List.map_cons, List.nodup_cons] at hnodup
    by_cases hx : x.userId = u
    · have hrest : xs.any (fun access => access.userId == u && p access.level) = false := by
        rw [List.any_eq_false]
        intro a ha hau
        simp only [Bool.and_eq_true, beq_iff_eq] at hau
        apply hnodup.1
        rw [hx, ← hau.1]
        exact List.mem_map_of_mem _ ha
      simp [List.any_cons, hx, hrest, List.find?]
    · have ih := any_eq_first_entry u p xs hnodup.2
      have hb : (x.userId == u) = false := by simpa using hx
      simp only [List.any_cons, ih, List.find?, hb, Bool.false_and, Bool.false_or]

/-- On a record without a `permissions` object, which no call of the library
stores, `checkPermission` is false and `updateDocumentMetadata` throws on
reading `document.permissions.owner`. -/
theorem updateDocumentMetadata_needs_permissions :
    getDocumentById [unownedDocument] "doc-2" = some unownedDocument ∧
    unownedDocument.permissions = none ∧
    checkPermission [unownedDocument] "doc-2" "carol" "edit" = false ∧
    updateDocumentMetadata asciiToLowerCase [unownedDocument] "doc-2"
      { title := some "Plan B", description := none, tags := none } "carol" "t9"
      = (.thrown "TypeError", [unownedDocument]) := by
  decide

/-- C30: for every existing document whose access list holds at most one entry
per userId, and every user `u`, `updateDocumentMetadata(doc, m, u)` returns the
'Permission denied' error exactly when `checkPermission(doc, u, edit)` is
false, and otherwise succeeds; with two entries for one user the two checks can
differ.  The document is one with a `permissions` object, as every document is
that the library stores (`stored_documents_have_permissions`); the access list
of that object may be absent. -/
theorem C30_edit_checks_agree (toLowerCase : String → String) (documents : Store)
    (documentId : String) (m : UploadMetadata) (u now : String) (document : Document)
    (permissions : Permissions)
    (hdoc : getDocumentById documents documentId = some document)
    (hperm : document.permissions = some permissions)
    (hkeyed : ((permissions.access.getD []).map (·.userId)).Nodup) :
    ((updateDocumentMetadata toLowerCase documents documentId m u now).1
        = .error "Permission denied. You do not have edit access to this document." ↔
      checkPermission documents documentId u "edit" = false) ∧
    (checkPermission documents documentId u "edit" = true →
      (updateDocumentMetadata toLowerCase documents documentId m u now).1.isOk = true) ∧
    (checkPermission [doubleEntryDocument] "doc-2" "bob" "edit" = false ∧
      (updateDocumentMetadata asciiToLowerCase [doubleEntryDocument] "doc-2"
        { title := some "Plan B", description := none, tags := none } "bob" "t9").1.isOk
        = true) := by
  obtain ⟨i, hi, hget, _⟩ := getDocumentById_index documents documentId document hdoc
  have hcheck : checkPermission documents documentId u "edit" =
      (permissions.owner == some u ||
        (permissions.access.getD []).any (fun access =>
          access.userId == u && ["edit", "admin"].contains access.level)) := by
    simp only [checkPermission, hdoc, hperm, Option.some_bind]
    rw [any_eq_first_entry u (fun level => ["edit", "admin"].contains level) _ hkeyed]
    by_cases howner : permissions.owner = some u
    · simp [howner]
    · have hb : (permissions.owner == some u) = false := by simpa using howner
      rw [if_neg howner, hb, Bool.false_or]
      cases permissions.access with
      | none => simp
      | some access =>
        simp only [Option.some_bind, Option.getD_some]
        cases access.find? (fun permission => permission.userId == u) with
        | none => rfl
        | some entry => exact rank_ge_edit entry.level
  have hany : (permissions.access.map (fun access => access.any (fun access =>
      access.userId == u && ["edit", "admin"].contains access.level))).getD false
      = (permissions.access.getD []).any (fun access =>
          access.userId == u && ["edit", "admin"].contains access.level) := by
    cases permissions.access <;> rfl
  refine ⟨?_, ?_, by decide, by decide⟩
  · rw [hcheck]
    simp only [updateDocumentMetadata, hi, hget, hperm, hany]
    generalize (permissions.owner == some u) = A
    generalize List.any (permissions.access.getD []) _ = B
    cases A <;> cases B <;> simp
  · rw [hcheck]
    simp only [updateDocumentMetadata, hi, hget, hperm, hany]
    generalize (permissions.owner == some u) = A
    generalize List.any (permissions.access.getD []) _ = B
    cases A <;> cases B <;> simp [Result.isOk]

/-- C30 witness: carol, who holds view on the sample document, fails the edit
check and is refused by `updateDocumentMetadata`; bob, who holds edit, passes
both. -/
theorem C30_edit_checks_agree_witness :
    checkPermission [twoVersionDocument] "doc-2" "carol" "edit" = false ∧
    (updateDocumentMetadata asciiToLowerCase [twoVersionDocument] "doc-2"
      { title := some "Plan B", description := none, tags := none } "carol" "t9").1
      = .error "Permission denied. You do not have edit access to this document." ∧
    checkPermission [twoVersionDocument] "doc-2" "bob" "edit" = true ∧
    (updateDocumentMetadata asciiToLowerCase [twoVersionDocument] "doc-2"
      { title := some "Plan B", description := none, tags := none } "bob" "t9").1.isOk
      = true :=
  ⟨by decide,
   (C30_edit_checks_agree asciiToLowerCase [twoVersionDocument] "doc-2"
     { title := some "Plan B", description := none, tags := none } "carol" "t9"
     twoVersionDocument
     { owner := some "current-user",
       access := some [{ userId := "current-user", level := "view" },
                       { userId := "bob", level := "edit" },
                       { userId := "carol", level := "view" },
                       { userId := "dave", level := "guest" }] }
     (by decide) (by decide) (by decide)).1.mpr (by decide),
   by decide,
   (C30_edit_checks_agree asciiToLowerCase [twoVersionDocument] "doc-2"
     { title := some "Plan B", description := none, tags := none } "bob" "t9"
     twoVersionDocument
     { owner := some "current-user",
       access := some [{ userId := "current-user", level := "view" },
                       { userId := "bob", level := "edit" },
                       { userId := "carol", level := "view" },
                       { userId := "dave", level := "guest" }] }
     (by decide) (by decide) (by decide)).2.1 (by decide)⟩

end ERP
